import Mathlib

/-!
# Verification of the dastd marshaling subsystem

Shallow embedding of the dastd C++ serialization framework (binary codec,
JSON tokenizer, JSON decoder, multinum) and proofs about the specified
properties.

Modelling conventions:
* machine integers are `Nat`/`Int` with explicit reductions modulo `2^w`
  where the C++ relies on fixed-width wraparound;
* a byte stream is a `List Nat` whose elements are byte values;
* C++ `double` values are modelled in two ways, matching how the code uses
  them: the binary codec moves `f64` values as opaque 64-bit patterns
  (`pack_f64`/`unpack_f64`), so there they are `Nat` bit patterns; the
  `multinum` class only compares, ceils and converts its double, so there
  doubles are modelled as exact rationals `ℚ`;
* a C++ function that throws `exception_marshal` (or reads past the end of
  the input) is modelled with `Option`, `none` standing for the raised error;
* debug-only `assert(...)` statements (disabled in release builds) are not
  modelled as failures; encoder member functions that assert on the frame
  stack simply leave the state unchanged when the stack discipline is
  violated, which no legal driving sequence does.
-/

namespace dastd

/-! ## Little-endian byte helpers (endian_aware.hpp)

`native_to_little_endian` writes the `w` bytes of a fixed-width integer in
little-endian order; `little_endian_to_native` reads them back. -/

/-- The `w` little-endian bytes of the value `n` (an unsigned fixed-width
integer of `w` bytes); models `native_to_little_endian`. -/
def natLE (w n : Nat) : List Nat :=
  match w with
  | 0 => []
  | Nat.succ w0 => (n % 256) :: natLE w0 (n / 256)

/-- Recover the unsigned value from little-endian bytes; models
`little_endian_to_native`. -/
def leToNat : List Nat → Nat
  | [] => 0
  | b :: rest => b % 256 + 256 * leToNat rest

/-- Two's-complement reading of a `w`-byte unsigned pattern as a signed
value, as done when a signed integer is read back via
`little_endian_to_native`. -/
def toSigned (w n : Nat) : Int :=
  if n < 2 ^ (8 * w - 1) then (n : Int) else (n : Int) - 2 ^ (8 * w)

/-- Two's-complement `w`-byte pattern of a signed value, as produced when a
signed integer is passed to `native_to_little_endian`. -/
def ofSigned (w : Nat) (v : Int) : Nat :=
  (v % (2 ^ (8 * w) : Nat)).toNat

/-! ## UTF-8 primitives (utf8.hpp) -/

/-- `CHAR32_INVALID` from defs.hpp (`UINT_LEAST32_MAX`). -/
def CHAR32_INVALID : Nat := 2 ^ 32 - 1

/-- `count_utf8_following_chars`: number of extra bytes needed after the
given lead byte to complete a UTF-8 sequence. -/
def count_utf8_following_chars (ch : Nat) : Nat :=
  if ch &&& 0xE0 == 0xC0 then 1
  else if ch &&& 0xF0 == 0xE0 then 2
  else if ch &&& 0xF8 == 0xF0 then 3
  else 0

/-- `write_utf8_asciiz`: the UTF-8 bytes of a code point (empty for an
invalid code point, mirroring the `written=0` case). -/
def write_utf8_asciiz (cp : Nat) : List Nat :=
  if cp < 0x80 then [cp]
  else if cp < 0x800 then
    [0xC0 ||| ((cp >>> 6) &&& 0x1F), 0x80 ||| (cp &&& 0x3F)]
  else if cp < 0x10000 then
    [0xE0 ||| ((cp >>> 12) &&& 0xF), 0x80 ||| ((cp >>> 6) &&& 0x3F),
     0x80 ||| (cp &&& 0x3F)]
  else if cp < 0x10FFFF then
    [0xF0 ||| ((cp >>> 18) &&& 0x7), 0x80 ||| ((cp >>> 12) &&& 0x3F),
     0x80 ||| ((cp >>> 6) &&& 0x3F), 0x80 ||| (cp &&& 0x3F)]
  else []

/-- `calc_utf8_length`: total UTF-8 byte length of a code-point string
(invalid code points contribute 0 bytes, as in the source). -/
def calc_utf8_length : List Nat → Nat
  | [] => 0
  | cp :: rest => (write_utf8_asciiz cp).length + calc_utf8_length rest

/-- The concatenated UTF-8 bytes of a code-point string, as produced by the
encoder loop that calls `write_utf8_asciiz` on each character. -/
def utf8Bytes : List Nat → List Nat
  | [] => []
  | cp :: rest => write_utf8_asciiz cp ++ utf8Bytes rest

/-- `read_utf8_asciiz`, restricted to the decoded code point: the lead byte
is `b0` and the continuation bytes are looked up in `rest` (the zero-filled
`tmp_buf` of the caller is modelled by the default byte 0). Returns the
code point, or `CHAR32_INVALID` if a continuation byte check fails. -/
def read_utf8_cp (b0 : Nat) (rest : List Nat) : Nat :=
  let b : Nat → Nat := fun i => rest.getD i 0
  let chk : Nat → Bool := fun i => (b i &&& 0xC0) == 0x80
  if b0 == 0 then CHAR32_INVALID
  else if b0 &&& 0x80 == 0 then b0
  else if b0 &&& 0xE0 == 0xC0 then
    if chk 0 then ((b0 &&& 0x1F) <<< 6) ||| (b 0 &&& 0x3F) else CHAR32_INVALID
  else if b0 &&& 0xF0 == 0xE0 then
    if chk 0 && chk 1 then
      ((b0 &&& 0xF) <<< 12) ||| ((b 0 &&& 0x3F) <<< 6) ||| (b 1 &&& 0x3F)
    else CHAR32_INVALID
  else if b0 &&& 0xF8 == 0xF0 then
    if chk 0 && chk 1 && chk 2 then
      ((b0 &&& 0x7) <<< 18) ||| ((b 0 &&& 0x3F) <<< 12) |||
        ((b 1 &&& 0x3F) <<< 6) ||| (b 2 &&& 0x3F)
    else CHAR32_INVALID
  else b0

/-! ## multinum (multinum.hpp)

The stored double is modelled as an exact rational: the only operations the
class performs on it are assignment, comparison against exactly
representable 32-bit bounds and `std::ceil(d) == d` (integrality), which
are exact on the values of interest. The 64-bit integral union member is
modelled as its 64-bit pattern (a `Nat` below `2^64`); the `i64` view is
the two's-complement reading of that pattern and the `u64` view the
pattern itself. -/

/-- `multinum::level_t`. -/
inductive level_t where
  | INVALID
  | DOUBLE_ONLY
  | INT64
  | UINT64
deriving DecidableEq, Repr

/-- Numeric rank of a level, used for the `m_level >= ...` comparisons. -/
def level_t.rank : level_t → Nat
  | .INVALID => 0
  | .DOUBLE_ONLY => 1
  | .INT64 => 2
  | .UINT64 => 3

/-- The `multinum` state: double value, 64-bit integral pattern, level. -/
structure multinum where
  m_value_double : ℚ := 0
  m_value_integral : Nat := 0
  m_level : level_t := .INVALID
deriving DecidableEq, Repr

/-- `multinum::clear()`. -/
def multinum.clear (_m : multinum) : multinum :=
  { m_value_double := 0, m_value_integral := 0, m_level := .INVALID }

/-- `multinum::valid()`: `m_level >= level_t::DOUBLE_ONLY`. -/
def multinum.valid (m : multinum) : Bool :=
  m.m_level.rank ≥ level_t.DOUBLE_ONLY.rank

/-- The `i64` view of the integral union member (two's complement). -/
def multinum.i64 (m : multinum) : Int := toSigned 8 m.m_value_integral

/-- The `u64` view of the integral union member. -/
def multinum.u64 (m : multinum) : Nat := m.m_value_integral

/-- `multinum::set_double`: store the double and promote the level to
`INT64` when the value is a whole number within the 32-bit range
(`std::ceil(d) == d` is integrality of the rational). -/
def multinum.set_double (m : multinum) (d : ℚ) : multinum :=
  let m1 : multinum := { m with m_value_double := d, m_level := .DOUBLE_ONLY }
  if d.den = 1 then
    if (-(2 ^ 31) : ℚ) ≤ d ∧ d ≤ (2 ^ 31 - 1 : ℚ) then
      { m1 with m_value_integral := ofSigned 8 d.num, m_level := .INT64 }
    else m1
  else m1

/-- Descriptor of an integral `NUMTYPE` instantiation of `multinum::get`:
signedness and `sizeof` in bytes (1, 2, 4 or 8). -/
structure numtype where
  signed : Bool
  size : Nat
deriving DecidableEq, Repr

/-- `multinum::get<NUMTYPE>` for an integral `NUMTYPE`, following the
`constexpr` branch structure of the template.  `min_value`/`max_value` are
the user-supplied bounds (of type `NUMTYPE`, hence exactly representable as
integers). Returns the `(value, valid)` pair. -/
def multinum.get_integral (T : numtype) (min_value max_value : Int)
    (m : multinum) : Int × Bool :=
  let invalid : Int × Bool := (0, false)
  if m.m_level = .UINT64 then
    if T.signed || T.size < 8 then invalid
    else
      if (m.u64 : Int) < min_value ∨ (m.u64 : Int) > max_value then invalid
      else ((m.u64 : Int), true)
  else if m.m_level = .INT64 then
    if !T.signed && T.size ≥ 8 then
      if m.i64 < min_value then invalid
      else if (m.u64 : Int) > max_value then invalid
      else (m.i64, true)
    else
      if m.i64 < min_value ∨ m.i64 > max_value then invalid
      else (m.i64, true)
  else invalid

/-- `multinum::get<double>`: succeed iff a double value is stored and it
lies within the requested bounds. -/
def multinum.get_f64 (min_value max_value : ℚ) (m : multinum) : ℚ × Bool :=
  if m.m_level.rank < level_t.DOUBLE_ONLY.rank then (0, false)
  else if m.m_value_double < min_value ∨ m.m_value_double > max_value then
    (0, false)
  else (m.m_value_double, true)

/-! ### strtointegral (strtointegral.hpp)

Embedded for the two instantiations `multinum` uses (`int64_t` and
`uint64_t`, automatic base detection, full-range bounds).  The C++
accumulates in the fixed-width type and detects overflow by comparing the
wrapped accumulator with its previous value; the embedding reproduces that
with explicit wraparound. -/

/-- `char_to_integral`: 0-9A-Za-z to 0..35, `NOT_A_INTEGRAL_CHAR` (36)
otherwise. -/
def char_to_integral (ch : Nat) : Nat :=
  if 48 ≤ ch ∧ ch ≤ 57 then ch - 48
  else if 65 ≤ ch ∧ ch ≤ 90 then ch - 65 + 10
  else if 97 ≤ ch ∧ ch ≤ 122 then ch - 97 + 10
  else 36

/-- Wrap an integer into the signed 64-bit range (two's complement). -/
def wrap64s (v : Int) : Int :=
  ((v + 2 ^ 63) % (2 ^ 64 : Nat)) - 2 ^ 63

/-- `strtointegral_t::result_type`. -/
inductive sti_result where
  | NOT_PROCESSED
  | VALID
  | INVALID_CHAR
  | VALUE_OUT_OF_RANGE
deriving DecidableEq, Repr

/-- State of one `strtointegral_t` run (64-bit instantiations): the
accumulator (wrapped to the signed or unsigned 64-bit range), the result,
the detected base and the conversion sub-state. -/
structure sti_state where
  m_data : Int := 0
  m_result : sti_result := .NOT_PROCESSED
  m_base : Nat := 0
  m_negative : Bool := false
  m_state : Nat := 0
deriving DecidableEq, Repr

/-- `strtointegral_t::add_char` (64-bit instantiation, `signed` selects the
`int64_t` or `uint64_t` variant). -/
def sti_add_char (signed : Bool) (ch : Nat) (s : sti_state) :
    Bool × sti_state :=
  let number := char_to_integral ch
  if number = 36 then (false, { s with m_result := .INVALID_CHAR })
  else if number ≥ s.m_base then (false, { s with m_result := .INVALID_CHAR })
  else
    let raw : Int :=
      s.m_data * s.m_base + (if s.m_negative then -(number : Int) else number)
    let tmp_data : Int :=
      if signed then wrap64s raw else raw % (2 ^ 64 : Nat)
    if s.m_negative then
      if tmp_data > s.m_data then
        (false, { s with m_result := .VALUE_OUT_OF_RANGE })
      else (true, { s with m_data := tmp_data })
    else
      if tmp_data < s.m_data then
        (false, { s with m_result := .VALUE_OUT_OF_RANGE })
      else (true, { s with m_data := tmp_data })

/-- `strtointegral_t::convert_step` (64-bit instantiation, automatic base
detection as used by `multinum`).  `ch = 0` is the end-of-string marker. -/
def sti_convert_step (signed : Bool) (min_value max_value : Int) (ch0 : Nat)
    (s0 : sti_state) : Bool × sti_state :=
  let s := if s0.m_state = 0 then { s0 with m_state := 1 } else s0
  let ch := if ch0 > 0 ∧ ch0 ≤ 127 ∧
      (ch0 = 32 ∨ (9 ≤ ch0 ∧ ch0 ≤ 13)) then 32 else ch0
  match s.m_state with
  | 1 =>
    if ch = 32 then (true, s)
    else if ch = 43 then (true, { s with m_state := 2 })
    else if ch = 45 then
      if signed then (true, { s with m_state := 2, m_negative := true })
      else (true, { s with m_state := 2, m_result := .INVALID_CHAR })
    else if ch = 48 then (true, { s with m_state := 3 })
    else sti_add_char signed ch { s with m_base := 10, m_state := 6 }
  | 2 =>
    if ch = 48 then (true, { s with m_state := 3 })
    else sti_add_char signed ch { s with m_base := 10, m_state := 6 }
  | 3 =>
    if ch = 88 ∨ ch = 120 then (true, { s with m_base := 16, m_state := 5 })
    else if ch = 66 ∨ ch = 98 then (true, { s with m_base := 2, m_state := 5 })
    else if ch = 0 then (true, { s with m_result := .VALID })
    else sti_add_char signed ch { s with m_base := 8, m_state := 6 }
  | 5 => sti_add_char signed ch { s with m_state := 6 }
  | 6 =>
    if ch = 0 then
      if s.m_data < min_value then
        (false, { s with m_result := .VALUE_OUT_OF_RANGE })
      else if s.m_data > max_value then
        (false, { s with m_result := .VALUE_OUT_OF_RANGE })
      else (true, { s with m_result := .VALID })
    else sti_add_char signed ch s
  | _ => (false, s)

/-- `strtointegral_t::convert` over a character list, followed by the
end-of-string step; returns `(value, is_valid)` as `strtointegral` does. -/
def sti_run (signed : Bool) (min_value max_value : Int) :
    List Nat → sti_state → sti_state
  | [], s => (sti_convert_step signed min_value max_value 0 s).2
  | ch :: rest, s =>
    let (ok, s1) := sti_convert_step signed min_value max_value ch s
    if ok then sti_run signed min_value max_value rest s1 else s1

/-- `strtointegral<int64_t,char>(text)`. -/
def strtointegral_i64 (text : List Nat) : Int × Bool :=
  let s := sti_run true (-(2 ^ 63)) (2 ^ 63 - 1) text {}
  if s.m_result = .VALID then (s.m_data, true) else (0, false)

/-- `strtointegral<uint64_t,char>(text)`. -/
def strtointegral_u64 (text : List Nat) : Int × Bool :=
  let s := sti_run false 0 (2 ^ 64 - 1) text {}
  if s.m_result = .VALID then (s.m_data, true) else (0, false)

/-! ### std::stod model and internal_parse

`std::stod` is an external library routine; it is modelled on the decimal
grammar that reaches `multinum::internal_parse` (optional sign, digits with
an optional fraction, optional exponent), with the binary64 result
represented exactly as a rational.  Inputs that contain no parsable numeric
prefix make the model fail, standing for the thrown exception. -/

/-- Consume leading decimal digits; returns their value, count and the
remaining characters. -/
def stod_digits : List Nat → Nat → Nat → (Nat × Nat × List Nat)
  | [], acc, cnt => (acc, cnt, [])
  | ch :: rest, acc, cnt =>
    if 48 ≤ ch ∧ ch ≤ 57 then stod_digits rest (acc * 10 + (ch - 48)) (cnt + 1)
    else (acc, cnt, ch :: rest)

/-- Model of `std::stod` on decimal text (see section comment). -/
def stod_model (text : List Nat) : Option ℚ :=
  let (neg, t1) :=
    match text with
    | 45 :: rest => (true, rest)
    | 43 :: rest => (false, rest)
    | _ => (false, text)
  let (ipart, icnt, t2) := stod_digits t1 0 0
  let (fpart, fcnt, t3) :=
    match t2 with
    | 46 :: rest => stod_digits rest 0 0
    | _ => (0, 0, t2)
  if icnt + fcnt = 0 then none
  else
    let mantissa : ℚ := (ipart : ℚ) + (fpart : ℚ) / ((10 : ℚ) ^ fcnt)
    let expval : Option Int :=
      match t3 with
      | 101 :: rest | 69 :: rest =>
        let (eneg, t4) :=
          match rest with
          | 45 :: r2 => (true, r2)
          | 43 :: r2 => (false, r2)
          | _ => (false, rest)
        let (e, ecnt, _) := stod_digits t4 0 0
        if ecnt = 0 then some 0
        else some (if eneg then -(e : Int) else (e : Int))
      | _ => some 0
    match expval with
    | none => none
    | some e =>
      let v := mantissa * (10 : ℚ) ^ e
      some (if neg then -v else v)

/-- Drop leading spaces (the only whitespace that can reach
`internal_parse` after `multinum::parse` filtered the characters). -/
def trimSpaces (text : List Nat) : List Nat :=
  (text.dropWhile (· = 32)).reverse.dropWhile (· = 32) |>.reverse

/-- `multinum::internal_parse`. -/
def multinum.internal_parse (text0 : List Nat) : multinum :=
  let m : multinum := {}
  let text := trimSpaces text0
  match stod_model text with
  | none => m
  | some q =>
    let m : multinum := { m with m_value_double := q, m_level := .DOUBLE_ONLY }
    let pair_i64 := strtointegral_i64 text
    let m : multinum :=
      if pair_i64.2 then
        { m with m_value_integral := ofSigned 8 pair_i64.1,
                 m_level := .INT64 }
      else
        let is_neg := text.headD 0 = 45
        if !is_neg then
          let pair_u64 := strtointegral_u64 text
          if pair_u64.2 then
            { m with m_value_integral := pair_u64.1.toNat,
                     m_level := .UINT64 }
          else m
        else m
    if m.m_level = .DOUBLE_ONLY then m.set_double m.m_value_double else m

/-- `multinum::parse` (string overload): reject characters outside the
printable ASCII range, then parse. -/
def multinum.parse (str : List Nat) : multinum :=
  if str.all (fun ch => 32 ≤ ch ∧ ch ≤ 126) then multinum.internal_parse str
  else {}

/-! ## Binary codec: common definitions (marshal.hpp, marshal_bin.hpp,
marshal_dec.hpp) -/

/-- `marshal_label_id_INVALID`. -/
def marshal_label_id_INVALID : Nat := 0

/-- `marshal_array_SIZE_UNKNOWN` (`(size_t)-1`). -/
def marshal_array_SIZE_UNKNOWN : Nat := 2 ^ 64 - 1

/-- `marshal_bin_element_type`. -/
inductive marshal_bin_element_type where
  | STRUCT
  | FIELD
  | FIELD_MISSING
  | ARRAY
  | ARRAY_ELEMENT
  | DICTIONARY
  | DICTIONARY_ELEMENT
  | TYPED
deriving DecidableEq, Repr

/-- `marshal_optional_field` (from marshal_enc.hpp). -/
inductive marshal_optional_field where
  | MANDATORY
  | OPTIONAL_PRESENT
  | OPTIONAL_MISSING
deriving DecidableEq, Repr

/-- `marshal_label_info_calc`: pack a label id and the optional flag into
the 64-bit label-info word. -/
def marshal_label_info_calc (label_id : Nat) (optional : Bool) : Nat :=
  (if optional then 2 ^ 32 else 0) + label_id % 2 ^ 32

/-- `marshal_label_info_to_id`: lower 32 bits of the label-info word. -/
def marshal_label_info_to_id (label_info : Nat) : Nat := label_info % 2 ^ 32

/-- `marshal_label_info_is_optional`: bit 32 of the label-info word. -/
def marshal_label_info_is_optional (label_info : Nat) : Bool :=
  label_info / 2 ^ 32 % 2 = 1

/-! ## Binary encoder (marshal_enc_bin.hpp)

The byte sink is the seekable `std::ostream` variant
(`marshal_enc_bin_ostream`): a byte list together with the write position.
`set_curr_pos` is only ever used to re-write the four bytes of a size
indicator inside already-written output. -/

/-- Stack element of the binary encoder. -/
structure enc_stack_element where
  m_element_type : marshal_bin_element_type
  m_pos : Nat
  m_extensible : Bool := false
deriving DecidableEq, Repr

/-- State of `marshal_enc_bin` over a seekable byte stream. -/
structure marshal_enc_bin where
  m_output : List Nat := []
  m_pos : Nat := 0
  m_stack : List enc_stack_element := []
deriving DecidableEq, Repr

/-- Overwrite `src` into `data` starting at `pos` (extending at the end);
models writing into a seekable `std::ostream`. -/
def writeBytesAt (data : List Nat) (pos : Nat) (src : List Nat) : List Nat :=
  data.take pos ++ src ++ data.drop (pos + src.length)

namespace marshal_enc_bin

/-- `write_bytes`: write at the current position and advance it. -/
def write_bytes (st : marshal_enc_bin) (src : List Nat) : marshal_enc_bin :=
  { st with m_output := writeBytesAt st.m_output st.m_pos src,
            m_pos := st.m_pos + src.length }

/-- `get_curr_pos`. -/
def get_curr_pos (st : marshal_enc_bin) : Nat := st.m_pos

/-- `set_curr_pos`. -/
def set_curr_pos (st : marshal_enc_bin) (pos : Nat) : marshal_enc_bin :=
  { st with m_pos := pos }

/-- `encode_u32` (little-endian 4 bytes of the value reduced to 32 bits). -/
def encode_u32 (value : Nat) (st : marshal_enc_bin) : marshal_enc_bin :=
  st.write_bytes (natLE 4 value)

/-- `encode_size_indicator`. -/
def encode_size_indicator (size : Nat) (st : marshal_enc_bin) :
    marshal_enc_bin :=
  encode_u32 size st

/-- `encode_bool`. -/
def encode_bool (value : Bool) (st : marshal_enc_bin) : marshal_enc_bin :=
  st.write_bytes [if value then 1 else 0]

/-- `encode_u8`. -/
def encode_u8 (value : Nat) (st : marshal_enc_bin) : marshal_enc_bin :=
  st.write_bytes (natLE 1 value)

/-- `encode_i8`. -/
def encode_i8 (value : Int) (st : marshal_enc_bin) : marshal_enc_bin :=
  st.write_bytes (natLE 1 (ofSigned 1 value))

/-- `encode_u16`. -/
def encode_u16 (value : Nat) (st : marshal_enc_bin) : marshal_enc_bin :=
  st.write_bytes (natLE 2 value)

/-- `encode_i16`. -/
def encode_i16 (value : Int) (st : marshal_enc_bin) : marshal_enc_bin :=
  st.write_bytes (natLE 2 (ofSigned 2 value))

/-- `encode_i32`. -/
def encode_i32 (value : Int) (st : marshal_enc_bin) : marshal_enc_bin :=
  st.write_bytes (natLE 4 (ofSigned 4 value))

/-- `encode_u64`. -/
def encode_u64 (value : Nat) (st : marshal_enc_bin) : marshal_enc_bin :=
  st.write_bytes (natLE 8 value)

/-- `encode_i64`. -/
def encode_i64 (value : Int) (st : marshal_enc_bin) : marshal_enc_bin :=
  st.write_bytes (natLE 8 (ofSigned 8 value))

/-- `encode_f64`.  `pack_f64` is declared in float.hpp, which is not part
of the sources. Modelled from the spec: the wire carries the IEEE-754
binary64 pattern little-endian, so the double is carried as its 64-bit
pattern and `pack_f64` is the identity on it. -/
def encode_f64 (bits : Nat) (st : marshal_enc_bin) : marshal_enc_bin :=
  st.write_bytes (natLE 8 bits)

/-- `encode_string_utf8`: `u32` byte length then the raw bytes. -/
def encode_string_utf8 (value : List Nat) (st : marshal_enc_bin) :
    marshal_enc_bin :=
  (encode_u32 value.length st).write_bytes value

/-- The per-character loop of `encode_u32string`. -/
def write_u32string_chars : List Nat → marshal_enc_bin → marshal_enc_bin
  | [], st => st
  | cp :: rest, st =>
    write_u32string_chars rest (st.write_bytes (write_utf8_asciiz cp))

/-- `encode_u32string`: `u32` UTF-8 byte length then the UTF-8 bytes. -/
def encode_u32string (value : List Nat) (st : marshal_enc_bin) :
    marshal_enc_bin :=
  write_u32string_chars value (encode_u32 (calc_utf8_length value) st)

/-- `internal_encode_binary` (fixed size, no length prefix). -/
def internal_encode_binary (data : List Nat) (st : marshal_enc_bin) :
    marshal_enc_bin :=
  st.write_bytes data

/-- `internal_encode_varsize_binary` (`u32` length then the bytes). -/
def internal_encode_varsize_binary (data : List Nat) (st : marshal_enc_bin) :
    marshal_enc_bin :=
  (encode_u32 data.length st).write_bytes data

/-- `encode_struct_begin`. -/
def encode_struct_begin (extensible : Bool) (st : marshal_enc_bin) :
    marshal_enc_bin :=
  let st1 := { st with m_stack :=
    ⟨.STRUCT, st.get_curr_pos, extensible⟩ :: st.m_stack }
  if extensible then encode_size_indicator 0 st1 else st1

/-- `encode_struct_end` (back-patches the size indicator of an extensible
struct). -/
def encode_struct_end (st : marshal_enc_bin) : marshal_enc_bin :=
  match st.m_stack with
  | [] => st
  | top :: rest =>
    let st1 :=
      if top.m_extensible then
        let currpos := st.get_curr_pos
        let size := currpos - top.m_pos
        ((encode_size_indicator (size - 4)
          (st.set_curr_pos top.m_pos)).set_curr_pos currpos)
      else st
    { st1 with m_stack := rest }

/-- `encode_struct_field_begin` (the label is unused by the binary
encoder). -/
def encode_struct_field_begin (opt : marshal_optional_field)
    (st : marshal_enc_bin) : marshal_enc_bin :=
  match opt with
  | .MANDATORY =>
    { st with m_stack := ⟨.FIELD, st.get_curr_pos, false⟩ :: st.m_stack }
  | .OPTIONAL_MISSING =>
    let st1 := encode_bool false st
    { st1 with m_stack :=
      ⟨.FIELD_MISSING, st1.get_curr_pos, false⟩ :: st1.m_stack }
  | .OPTIONAL_PRESENT =>
    let st1 := encode_bool true st
    { st1 with m_stack := ⟨.FIELD, st1.get_curr_pos, false⟩ :: st1.m_stack }

/-- `encode_struct_field_end`. -/
def encode_struct_field_end (st : marshal_enc_bin) : marshal_enc_bin :=
  { st with m_stack := st.m_stack.tail }

/-- `encode_array_begin`: size indicator holding the element count. -/
def encode_array_begin (count : Nat) (st : marshal_enc_bin) :
    marshal_enc_bin :=
  let st1 := encode_size_indicator count st
  { st1 with m_stack := ⟨.ARRAY, st1.get_curr_pos, false⟩ :: st1.m_stack }

/-- `encode_array_end`. -/
def encode_array_end (st : marshal_enc_bin) : marshal_enc_bin :=
  { st with m_stack := st.m_stack.tail }

/-- `encode_array_element_begin`. -/
def encode_array_element_begin (st : marshal_enc_bin) : marshal_enc_bin :=
  { st with m_stack :=
    ⟨.ARRAY_ELEMENT, st.get_curr_pos, false⟩ :: st.m_stack }

/-- `encode_array_element_end`. -/
def encode_array_element_end (st : marshal_enc_bin) : marshal_enc_bin :=
  { st with m_stack := st.m_stack.tail }

/-- `encode_dictionary_begin`. -/
def encode_dictionary_begin (count : Nat) (st : marshal_enc_bin) :
    marshal_enc_bin :=
  let st1 := encode_size_indicator count st
  { st1 with m_stack :=
    ⟨.DICTIONARY, st1.get_curr_pos, false⟩ :: st1.m_stack }

/-- `encode_dictionary_end`. -/
def encode_dictionary_end (st : marshal_enc_bin) : marshal_enc_bin :=
  { st with m_stack := st.m_stack.tail }

/-- `encode_dictionary_element_begin`: push the element frame, then encode
the UTF-8 key. -/
def encode_dictionary_element_begin (key : List Nat) (st : marshal_enc_bin) :
    marshal_enc_bin :=
  encode_string_utf8 key
    { st with m_stack :=
      ⟨.DICTIONARY_ELEMENT, st.get_curr_pos, false⟩ :: st.m_stack }

/-- `encode_dictionary_element_end`. -/
def encode_dictionary_element_end (st : marshal_enc_bin) : marshal_enc_bin :=
  { st with m_stack := st.m_stack.tail }

/-- `encode_typed_begin`: `u32` type id, then (when extensible) the size
indicator placeholder. -/
def encode_typed_begin (label_id : Nat) (extensible : Bool)
    (st : marshal_enc_bin) : marshal_enc_bin :=
  let st1 := encode_u32 label_id st
  let st2 := { st1 with m_stack :=
    ⟨.TYPED, st1.get_curr_pos, extensible⟩ :: st1.m_stack }
  if extensible then encode_size_indicator 0 st2 else st2

/-- `encode_typed_end` (back-patches the size indicator of an extensible
typed frame). -/
def encode_typed_end (st : marshal_enc_bin) : marshal_enc_bin :=
  match st.m_stack with
  | [] => st
  | top :: rest =>
    let st1 :=
      if top.m_extensible then
        let currpos := st.get_curr_pos
        let size := currpos - top.m_pos
        ((encode_size_indicator (size - 4)
          (st.set_curr_pos top.m_pos)).set_curr_pos currpos)
      else st
    { st1 with m_stack := rest }

end marshal_enc_bin

/-! ## Marshalled values

The values a user program can drive through the codec, mirrored as a
mutually inductive type.  Terminals carry the data the corresponding
`encode_*` call takes; `f64` is the 64-bit pattern (see `encode_f64`);
strings and binary blobs are byte lists; `u32` strings are code-point
lists.  A typed frame holds one child or none (the typed null object). -/

mutual

inductive MValue where
  | vbool (b : Bool)
  | vu8 (n : Nat)
  | vi8 (n : Int)
  | vu16 (n : Nat)
  | vi16 (n : Int)
  | vu32 (n : Nat)
  | vi32 (n : Int)
  | vu64 (n : Nat)
  | vi64 (n : Int)
  | vf64 (bits : Nat)
  | vstr (bytes : List Nat)
  | vu32str (cps : List Nat)
  | vbin (bytes : List Nat)
  | vvarbin (bytes : List Nat)
  | vstruct (extensible : Bool) (fields : MFields)
  | varray (elems : MValues)
  | vdict (entries : MDict)
  | vtyped (label : Nat) (extensible : Bool) (child : MValue)
  | vtypednull (label : Nat) (extensible : Bool)
deriving DecidableEq, Repr

inductive MFields where
  | nil
  | cons (label : Nat) (content : MFieldContent) (rest : MFields)
deriving DecidableEq, Repr

inductive MFieldContent where
  | mandatory (v : MValue)
  | optPresent (v : MValue)
  | optMissing
deriving DecidableEq, Repr

inductive MValues where
  | nil
  | cons (v : MValue) (rest : MValues)
deriving DecidableEq, Repr

inductive MDict where
  | nil
  | cons (key : List Nat) (v : MValue) (rest : MDict)
deriving DecidableEq, Repr

end

/-- Number of fields. -/
def MFields.numFields : MFields → Nat
  | .nil => 0
  | .cons _ _ rest => 1 + rest.numFields

/-- Number of array elements. -/
def MValues.numElems : MValues → Nat
  | .nil => 0
  | .cons _ rest => 1 + rest.numElems

/-- Number of dictionary entries. -/
def MDict.numEntries : MDict → Nat
  | .nil => 0
  | .cons _ _ rest => 1 + rest.numEntries

/-- Whether a field is declared optional (both optional variants). -/
def MFieldContent.isOptional : MFieldContent → Bool
  | .mandatory _ => false
  | .optPresent _ => true
  | .optMissing => true

/-- The label-info words the decoding driver declares for a struct
(`marshal_label_info_calc` of each field's label and optionality). -/
def MFields.fieldInfos : MFields → List Nat
  | .nil => []
  | .cons label c rest =>
    marshal_label_info_calc label c.isOptional :: rest.fieldInfos

/-- Appending fields to a struct (schema extension: `S'` extends `S` by
appending the fields `gs` after the fields `fs`). -/
def MFields.append : MFields → MFields → MFields
  | .nil, gs => gs
  | .cons label c rest, gs => .cons label c (MFields.append rest gs)

/-! ### The encoding driver

`encVal v` performs, on a `marshal_enc_bin`, exactly the sequence of
encoder calls a user program makes to serialize `v` (the schema drive of
the spec). -/

mutual

def encVal : MValue → marshal_enc_bin → marshal_enc_bin
  | .vbool b, st => marshal_enc_bin.encode_bool b st
  | .vu8 n, st => marshal_enc_bin.encode_u8 n st
  | .vi8 n, st => marshal_enc_bin.encode_i8 n st
  | .vu16 n, st => marshal_enc_bin.encode_u16 n st
  | .vi16 n, st => marshal_enc_bin.encode_i16 n st
  | .vu32 n, st => marshal_enc_bin.encode_u32 n st
  | .vi32 n, st => marshal_enc_bin.encode_i32 n st
  | .vu64 n, st => marshal_enc_bin.encode_u64 n st
  | .vi64 n, st => marshal_enc_bin.encode_i64 n st
  | .vf64 bits, st => marshal_enc_bin.encode_f64 bits st
  | .vstr s, st => marshal_enc_bin.encode_string_utf8 s st
  | .vu32str cps, st => marshal_enc_bin.encode_u32string cps st
  | .vbin bs, st => marshal_enc_bin.internal_encode_binary bs st
  | .vvarbin bs, st => marshal_enc_bin.internal_encode_varsize_binary bs st
  | .vstruct ext fs, st =>
    marshal_enc_bin.encode_struct_end
      (encFields fs (marshal_enc_bin.encode_struct_begin ext st))
  | .varray vs, st =>
    marshal_enc_bin.encode_array_end
      (encElems vs (marshal_enc_bin.encode_array_begin vs.numElems st))
  | .vdict es, st =>
    marshal_enc_bin.encode_dictionary_end
      (encDict es (marshal_enc_bin.encode_dictionary_begin es.numEntries st))
  | .vtyped label ext c, st =>
    marshal_enc_bin.encode_typed_end
      (encVal c (marshal_enc_bin.encode_typed_begin label ext st))
  | .vtypednull label ext, st =>
    marshal_enc_bin.encode_typed_end
      (marshal_enc_bin.encode_typed_begin label ext st)

def encFields : MFields → marshal_enc_bin → marshal_enc_bin
  | .nil, st => st
  | .cons _label c rest, st => encFields rest (encField c st)

def encField : MFieldContent → marshal_enc_bin → marshal_enc_bin
  | .mandatory v, st =>
    marshal_enc_bin.encode_struct_field_end
      (encVal v (marshal_enc_bin.encode_struct_field_begin .MANDATORY st))
  | .optPresent v, st =>
    marshal_enc_bin.encode_struct_field_end
      (encVal v
        (marshal_enc_bin.encode_struct_field_begin .OPTIONAL_PRESENT st))
  | .optMissing, st =>
    marshal_enc_bin.encode_struct_field_end
      (marshal_enc_bin.encode_struct_field_begin .OPTIONAL_MISSING st)

def encElems : MValues → marshal_enc_bin → marshal_enc_bin
  | .nil, st => st
  | .cons v rest, st =>
    encElems rest
      (marshal_enc_bin.encode_array_element_end
        (encVal v (marshal_enc_bin.encode_array_element_begin st)))

def encDict : MDict → marshal_enc_bin → marshal_enc_bin
  | .nil, st => st
  | .cons key v rest, st =>
    encDict rest
      (marshal_enc_bin.encode_dictionary_element_end
        (encVal v (marshal_enc_bin.encode_dictionary_element_begin key st)))

end

/-! ### Pure wire form

`encBytes v` is the byte string the encoder appends when driven with `v`
starting at the end of the stream (proved below as the characterization of
`encVal`). -/

mutual

def encBytes : MValue → List Nat
  | .vbool b => [if b then 1 else 0]
  | .vu8 n => natLE 1 n
  | .vi8 n => natLE 1 (ofSigned 1 n)
  | .vu16 n => natLE 2 n
  | .vi16 n => natLE 2 (ofSigned 2 n)
  | .vu32 n => natLE 4 n
  | .vi32 n => natLE 4 (ofSigned 4 n)
  | .vu64 n => natLE 8 n
  | .vi64 n => natLE 8 (ofSigned 8 n)
  | .vf64 bits => natLE 8 bits
  | .vstr s => natLE 4 s.length ++ s
  | .vu32str cps => natLE 4 (calc_utf8_length cps) ++ utf8Bytes cps
  | .vbin bs => bs
  | .vvarbin bs => natLE 4 bs.length ++ bs
  | .vstruct ext fs =>
    (if ext then natLE 4 (encFieldsBytes fs).length else []) ++
      encFieldsBytes fs
  | .varray vs => natLE 4 vs.numElems ++ encElemsBytes vs
  | .vdict es => natLE 4 es.numEntries ++ encDictBytes es
  | .vtyped label ext c =>
    natLE 4 label ++
      (if ext then natLE 4 (encBytes c).length else []) ++ encBytes c
  | .vtypednull label ext =>
    natLE 4 label ++ (if ext then natLE 4 0 else [])

def encFieldsBytes : MFields → List Nat
  | .nil => []
  | .cons _label c rest => encFieldBytes c ++ encFieldsBytes rest

def encFieldBytes : MFieldContent → List Nat
  | .mandatory v => encBytes v
  | .optPresent v => 1 :: encBytes v
  | .optMissing => [0]

def encElemsBytes : MValues → List Nat
  | .nil => []
  | .cons v rest => encBytes v ++ encElemsBytes rest

def encDictBytes : MDict → List Nat
  | .nil => []
  | .cons key v rest =>
    (natLE 4 key.length ++ key) ++ encBytes v ++ encDictBytes rest

end

/-! ## Binary decoder (marshal_dec_bin.hpp, marshal_dec_bin__inline.hpp)

The byte source is the whole input list; `m_offset` counts the bytes read
so far.  Reading or skipping past the end of the input raises (models the
exception thrown by the `read_bytes_impl` implementations), as does every
`DASTD_THROW` in the inline code. -/

/-- Stack element of the binary decoder. -/
structure dec_stack_element where
  m_element_type : marshal_bin_element_type
  m_extensible : Bool := false
  m_end_offset : Nat := 0
  m_field_infos : List Nat := []
  m_fields_count : Nat := 0
  m_field_pos : Nat := 0
deriving DecidableEq, Repr

/-- State of `marshal_dec_bin` over an in-memory byte source. -/
structure marshal_dec_bin where
  m_input : List Nat := []
  m_offset : Nat := 0
  m_stack : List dec_stack_element := []
deriving DecidableEq, Repr

namespace marshal_dec_bin

/-- `read_bytes`: read `len` bytes at the current offset (fails past the
end of the input, as `read_bytes_impl` throws on a short read). -/
def read_bytes (len : Nat) (st : marshal_dec_bin) :
    Option (List Nat × marshal_dec_bin) :=
  if st.m_offset + len ≤ st.m_input.length then
    some ((st.m_input.drop st.m_offset).take len,
      { st with m_offset := st.m_offset + len })
  else none

/-- `skip_bytes`. -/
def skip_bytes (len : Nat) (st : marshal_dec_bin) :
    Option marshal_dec_bin :=
  if st.m_offset + len ≤ st.m_input.length then
    some { st with m_offset := st.m_offset + len }
  else none

/-- `decode_bool`. -/
def decode_bool (st : marshal_dec_bin) : Option (Bool × marshal_dec_bin) :=
  match read_bytes 1 st with
  | some (bs, st1) => some (bs.headD 0 ≠ 0, st1)
  | none => none

/-- `decode_u8`. -/
def decode_u8 (st : marshal_dec_bin) : Option (Nat × marshal_dec_bin) :=
  match read_bytes 1 st with
  | some (bs, st1) => some (leToNat bs, st1)
  | none => none

/-- `decode_i8`. -/
def decode_i8 (st : marshal_dec_bin) : Option (Int × marshal_dec_bin) :=
  match read_bytes 1 st with
  | some (bs, st1) => some (toSigned 1 (leToNat bs), st1)
  | none => none

/-- `decode_u16`. -/
def decode_u16 (st : marshal_dec_bin) : Option (Nat × marshal_dec_bin) :=
  match read_bytes 2 st with
  | some (bs, st1) => some (leToNat bs, st1)
  | none => none

/-- `decode_i16`. -/
def decode_i16 (st : marshal_dec_bin) : Option (Int × marshal_dec_bin) :=
  match read_bytes 2 st with
  | some (bs, st1) => some (toSigned 2 (leToNat bs), st1)
  | none => none

/-- `decode_u32`. -/
def decode_u32 (st : marshal_dec_bin) : Option (Nat × marshal_dec_bin) :=
  match read_bytes 4 st with
  | some (bs, st1) => some (leToNat bs, st1)
  | none => none

/-- `decode_i32`. -/
def decode_i32 (st : marshal_dec_bin) : Option (Int × marshal_dec_bin) :=
  match read_bytes 4 st with
  | some (bs, st1) => some (toSigned 4 (leToNat bs), st1)
  | none => none

/-- `decode_u64`. -/
def decode_u64 (st : marshal_dec_bin) : Option (Nat × marshal_dec_bin) :=
  match read_bytes 8 st with
  | some (bs, st1) => some (leToNat bs, st1)
  | none => none

/-- `decode_i64`. -/
def decode_i64 (st : marshal_dec_bin) : Option (Int × marshal_dec_bin) :=
  match read_bytes 8 st with
  | some (bs, st1) => some (toSigned 8 (leToNat bs), st1)
  | none => none

/-- `decode_f64` (`unpack_f64` modelled as the identity on the 64-bit
pattern, see `encode_f64`). -/
def decode_f64 (st : marshal_dec_bin) : Option (Nat × marshal_dec_bin) :=
  match read_bytes 8 st with
  | some (bs, st1) => some (leToNat bs, st1)
  | none => none

/-- `decode_size_indicator`. -/
def decode_size_indicator (st : marshal_dec_bin) :
    Option (Nat × marshal_dec_bin) :=
  decode_u32 st

/-- `decode_string_utf8`: `u32` length then that many raw bytes. -/
def decode_string_utf8 (st : marshal_dec_bin) :
    Option (List Nat × marshal_dec_bin) :=
  match decode_u32 st with
  | none => none
  | some (length, st1) => read_bytes length st1

/-- The byte-consuming loop of `decode_u32string`.  `i` is the loop
counter of the C++ `for`: it advances by 1 for a single-byte character and
by `extra_chars + 2` for a multi-byte one (`i += extra_chars + 1` in the
body plus the `i++` of the `for` statement). -/
def decode_u32string_loop (length i : Nat) (acc : List Nat)
    (st : marshal_dec_bin) : Option (List Nat × marshal_dec_bin) :=
  if _h : i < length then
    match read_bytes 1 st with
    | none => none
    | some (bs, st1) =>
      let ch := bs.headD 0
      let extra_chars := count_utf8_following_chars ch
      if _h0 : extra_chars = 0 then
        decode_u32string_loop length (i + 1) (acc ++ [ch]) st1
      else if extra_chars > length - i then none
      else
        match read_bytes extra_chars st1 with
        | none => none
        | some (rest, st2) =>
          decode_u32string_loop length (i + extra_chars + 1 + 1)
            (acc ++ [read_utf8_cp ch rest]) st2
  else some (acc, st)
termination_by length - i
decreasing_by
  · omega
  · omega

/-- `decode_u32string`: `u32` UTF-8 byte length then the decoding loop. -/
def decode_u32string (st : marshal_dec_bin) :
    Option (List Nat × marshal_dec_bin) :=
  match decode_u32 st with
  | none => none
  | some (length, st1) => decode_u32string_loop length 0 [] st1

/-- `internal_decode_binary` (fixed length known to the caller). -/
def internal_decode_binary (length : Nat) (st : marshal_dec_bin) :
    Option (List Nat × marshal_dec_bin) :=
  read_bytes length st

/-- `internal_decode_varsize_binary`. -/
def internal_decode_varsize_binary (st : marshal_dec_bin) :
    Option (List Nat × marshal_dec_bin) :=
  match decode_u32 st with
  | none => none
  | some (length, st1) => read_bytes length st1

/-- Check forbidding `decode_*_begin` of a composite inside a `STRUCT`,
`ARRAY` or `DICTIONARY` frame (the three `DASTD_THROW`s at the head of
each begin). -/
def stack_allows_begin (stack : List dec_stack_element) : Bool :=
  match stack with
  | [] => true
  | top :: _ =>
    top.m_element_type ≠ .STRUCT ∧ top.m_element_type ≠ .ARRAY ∧
      top.m_element_type ≠ .DICTIONARY

/-- `stack_allows_begin` of the current stack. -/
def top_allows_begin (st : marshal_dec_bin) : Bool :=
  stack_allows_begin st.m_stack

/-- `decode_struct_begin`. -/
def decode_struct_begin (extensible : Bool) (field_infos : List Nat)
    (fields_infos_count : Nat) (st : marshal_dec_bin) :
    Option marshal_dec_bin :=
  if !st.top_allows_begin then none
  else
    match (if extensible then decode_size_indicator st
           else some (0, st)) with
    | none => none
    | some (length, st1) =>
      some { st1 with m_stack :=
        ⟨.STRUCT, extensible, st1.m_offset + length, field_infos,
          fields_infos_count, 0⟩ :: st1.m_stack }

/-- `decode_struct_end`: for an extensible struct skip the remainder when
short of the end offset, raise when past it. -/
def decode_struct_end (st : marshal_dec_bin) : Option marshal_dec_bin :=
  match st.m_stack with
  | [] => none
  | top :: rest =>
    if top.m_element_type ≠ .STRUCT then none
    else
      let after : Option marshal_dec_bin :=
        if top.m_extensible then
          if st.m_offset < top.m_end_offset then
            skip_bytes (top.m_end_offset - st.m_offset) st
          else if st.m_offset > top.m_end_offset then none
          else some st
        else some st
      match after with
      | none => none
      | some st1 => some { st1 with m_stack := rest }

/-- `decode_struct_field_begin`.  Returns the declared label id of the
next field, the present flag and the new state; the invalid label id
signals end-of-struct.  The C++ leaves `*optional_present` untouched when
it returns the sentinel or when no flag is written; those cases are
modelled by the flag value `true`. -/
def decode_struct_field_begin (st : marshal_dec_bin) :
    Option (Nat × Bool × marshal_dec_bin) :=
  match st.m_stack with
  | [] => none
  | top :: rest =>
    if top.m_element_type ≠ .STRUCT then none
    else if top.m_field_pos ≥ top.m_fields_count then
      some (marshal_label_id_INVALID, true, st)
    else if top.m_extensible ∧ top.m_end_offset = st.m_offset then
      some (marshal_label_id_INVALID, true, st)
    else if top.m_extensible ∧ top.m_end_offset < st.m_offset then none
    else
      match top.m_field_infos[top.m_field_pos]? with
      | none => none
      | some label_info =>
        let label_id := marshal_label_info_to_id label_info
        let is_optional := marshal_label_info_is_optional label_info
        let st1 := { st with m_stack :=
          (⟨.FIELD, false, 0, [], 0, 0⟩ : dec_stack_element) ::
            { top with m_field_pos := top.m_field_pos + 1 } :: rest }
        if is_optional then
          match decode_bool st1 with
          | none => none
          | some (present, st2) => some (label_id, present, st2)
        else some (label_id, true, st1)

/-- `decode_struct_field_end`. -/
def decode_struct_field_end (st : marshal_dec_bin) :
    Option marshal_dec_bin :=
  match st.m_stack with
  | [] => none
  | top :: rest =>
    if top.m_element_type ≠ .FIELD then none
    else some { st with m_stack := rest }

/-- `decode_array_begin`: reads the element count into the frame and
returns 0. -/
def decode_array_begin (st : marshal_dec_bin) :
    Option (Nat × marshal_dec_bin) :=
  if !st.top_allows_begin then none
  else
    match decode_size_indicator st with
    | none => none
    | some (no_of_elements, st1) =>
      some (0, { st1 with m_stack :=
        ⟨.ARRAY, false, 0, [], no_of_elements, 0⟩ :: st1.m_stack })

/-- `decode_array_end`. -/
def decode_array_end (st : marshal_dec_bin) : Option marshal_dec_bin :=
  match st.m_stack with
  | [] => none
  | top :: rest =>
    if top.m_element_type ≠ .ARRAY then none
    else if top.m_field_pos ≠ top.m_fields_count then none
    else some { st with m_stack := rest }

/-- `decode_array_element_begin`. -/
def decode_array_element_begin (st : marshal_dec_bin) :
    Option (Bool × marshal_dec_bin) :=
  match st.m_stack with
  | [] => none
  | top :: rest =>
    if top.m_element_type ≠ .ARRAY then none
    else if top.m_field_pos ≥ top.m_fields_count then some (false, st)
    else
      some (true, { st with m_stack :=
        (⟨.ARRAY_ELEMENT, false, 0, [], 0, 0⟩ : dec_stack_element) ::
          { top with m_field_pos := top.m_field_pos + 1 } :: rest })

/-- `decode_array_element_end`. -/
def decode_array_element_end (st : marshal_dec_bin) :
    Option marshal_dec_bin :=
  match st.m_stack with
  | [] => none
  | top :: rest =>
    if top.m_element_type ≠ .ARRAY_ELEMENT then none
    else some { st with m_stack := rest }

/-- `decode_dictionary_begin`: reads the entry count into the frame and
returns 0. -/
def decode_dictionary_begin (st : marshal_dec_bin) :
    Option (Nat × marshal_dec_bin) :=
  if !st.top_allows_begin then none
  else
    match decode_size_indicator st with
    | none => none
    | some (no_of_elements, st1) =>
      some (0, { st1 with m_stack :=
        ⟨.DICTIONARY, false, 0, [], no_of_elements, 0⟩ :: st1.m_stack })

/-- `decode_dictionary_end`. -/
def decode_dictionary_end (st : marshal_dec_bin) : Option marshal_dec_bin :=
  match st.m_stack with
  | [] => none
  | top :: rest =>
    if top.m_element_type ≠ .DICTIONARY then none
    else if top.m_field_pos ≠ top.m_fields_count then none
    else some { st with m_stack := rest }

/-- `decode_dictionary_element_begin`: bump the element counter, decode
the key, push the element frame. -/
def decode_dictionary_element_begin (st : marshal_dec_bin) :
    Option (Bool × List Nat × marshal_dec_bin) :=
  match st.m_stack with
  | [] => none
  | top :: rest =>
    if top.m_element_type ≠ .DICTIONARY then none
    else if top.m_field_pos ≥ top.m_fields_count then some (false, [], st)
    else
      let st1 := { st with m_stack :=
        { top with m_field_pos := top.m_field_pos + 1 } :: rest }
      match decode_string_utf8 st1 with
      | none => none
      | some (key, st2) =>
        some (true, key, { st2 with m_stack :=
          (⟨.DICTIONARY_ELEMENT, false, 0, [], 0, 0⟩ : dec_stack_element) ::
            st2.m_stack })

/-- `decode_dictionary_element_end`. -/
def decode_dictionary_element_end (st : marshal_dec_bin) :
    Option marshal_dec_bin :=
  match st.m_stack with
  | [] => none
  | top :: rest =>
    if top.m_element_type ≠ .DICTIONARY_ELEMENT then none
    else some { st with m_stack := rest }

/-- `decode_typed_begin`: `u32` type id, then (when extensible) the size
indicator; returns the type id. -/
def decode_typed_begin (extensible : Bool) (st : marshal_dec_bin) :
    Option (Nat × marshal_dec_bin) :=
  if !st.top_allows_begin then none
  else
    match decode_u32 st with
    | none => none
    | some (type_id, st1) =>
      match (if extensible then decode_size_indicator st1
             else some (0, st1)) with
      | none => none
      | some (length, st2) =>
        some (type_id, { st2 with m_stack :=
          ⟨.TYPED, extensible, st2.m_offset + length, [], 0, 0⟩ ::
            st2.m_stack })

/-- `decode_typed_end_skip`: legal only on extensible typed frames; seeks
to the recorded end offset. -/
def decode_typed_end_skip (st : marshal_dec_bin) : Option marshal_dec_bin :=
  match st.m_stack with
  | [] => none
  | top :: rest =>
    if top.m_element_type ≠ .TYPED then none
    else if !top.m_extensible then none
    else
      let after : Option marshal_dec_bin :=
        if st.m_offset < top.m_end_offset then
          skip_bytes (top.m_end_offset - st.m_offset) st
        else if st.m_offset > top.m_end_offset then none
        else some st
      match after with
      | none => none
      | some st1 => some { st1 with m_stack := rest }

/-- `decode_typed_end`: for an extensible typed frame the current offset
must equal the recorded end offset exactly. -/
def decode_typed_end (st : marshal_dec_bin) : Option marshal_dec_bin :=
  match st.m_stack with
  | [] => none
  | top :: rest =>
    if top.m_element_type ≠ .TYPED then none
    else if top.m_extensible ∧ top.m_end_offset ≠ st.m_offset then none
    else some { st with m_stack := rest }

end marshal_dec_bin

/-! ### The decoding driver

`decLike v` performs, on a `marshal_dec_bin`, the sequence of decoder
calls the decoding side of the same schema drive makes (values of the
shape of `v`), and assembles the decoded value.  A struct is read with the
documented loop: after its declared fields, one more
`decode_struct_field_begin` must return the invalid-label sentinel before
`decode_struct_end`; arrays and dictionaries likewise require the final
`*_element_begin` to report no more elements. -/

mutual

def decLike : MValue → marshal_dec_bin → Option (MValue × marshal_dec_bin)
  | .vbool _, st =>
    (marshal_dec_bin.decode_bool st).map fun p => (.vbool p.1, p.2)
  | .vu8 _, st =>
    (marshal_dec_bin.decode_u8 st).map fun p => (.vu8 p.1, p.2)
  | .vi8 _, st =>
    (marshal_dec_bin.decode_i8 st).map fun p => (.vi8 p.1, p.2)
  | .vu16 _, st =>
    (marshal_dec_bin.decode_u16 st).map fun p => (.vu16 p.1, p.2)
  | .vi16 _, st =>
    (marshal_dec_bin.decode_i16 st).map fun p => (.vi16 p.1, p.2)
  | .vu32 _, st =>
    (marshal_dec_bin.decode_u32 st).map fun p => (.vu32 p.1, p.2)
  | .vi32 _, st =>
    (marshal_dec_bin.decode_i32 st).map fun p => (.vi32 p.1, p.2)
  | .vu64 _, st =>
    (marshal_dec_bin.decode_u64 st).map fun p => (.vu64 p.1, p.2)
  | .vi64 _, st =>
    (marshal_dec_bin.decode_i64 st).map fun p => (.vi64 p.1, p.2)
  | .vf64 _, st =>
    (marshal_dec_bin.decode_f64 st).map fun p => (.vf64 p.1, p.2)
  | .vstr _, st =>
    (marshal_dec_bin.decode_string_utf8 st).map fun p => (.vstr p.1, p.2)
  | .vu32str _, st =>
    (marshal_dec_bin.decode_u32string st).map fun p => (.vu32str p.1, p.2)
  | .vbin ref, st =>
    (marshal_dec_bin.internal_decode_binary ref.length st).map
      fun p => (.vbin p.1, p.2)
  | .vvarbin _, st =>
    (marshal_dec_bin.internal_decode_varsize_binary st).map
      fun p => (.vvarbin p.1, p.2)
  | .vstruct ext fs, st =>
    match marshal_dec_bin.decode_struct_begin ext fs.fieldInfos
        fs.numFields st with
    | none => none
    | some st1 =>
      match decFields fs st1 with
      | none => none
      | some (fs2, st2) =>
        match marshal_dec_bin.decode_struct_field_begin st2 with
        | none => none
        | some (label_id, _, st3) =>
          if label_id ≠ marshal_label_id_INVALID then none
          else
            match marshal_dec_bin.decode_struct_end st3 with
            | none => none
            | some st4 => some (.vstruct ext fs2, st4)
  | .varray vs, st =>
    match marshal_dec_bin.decode_array_begin st with
    | none => none
    | some (_, st1) =>
      match decElems vs st1 with
      | none => none
      | some (vs2, st2) =>
        match marshal_dec_bin.decode_array_element_begin st2 with
        | none => none
        | some (more, st3) =>
          if more then none
          else
            match marshal_dec_bin.decode_array_end st3 with
            | none => none
            | some st4 => some (.varray vs2, st4)
  | .vdict es, st =>
    match marshal_dec_bin.decode_dictionary_begin st with
    | none => none
    | some (_, st1) =>
      match decDict es st1 with
      | none => none
      | some (es2, st2) =>
        match marshal_dec_bin.decode_dictionary_element_begin st2 with
        | none => none
        | some (more, _, st3) =>
          if more then none
          else
            match marshal_dec_bin.decode_dictionary_end st3 with
            | none => none
            | some st4 => some (.vdict es2, st4)
  | .vtyped _ ext c, st =>
    match marshal_dec_bin.decode_typed_begin ext st with
    | none => none
    | some (type_id, st1) =>
      match decLike c st1 with
      | none => none
      | some (c2, st2) =>
        match marshal_dec_bin.decode_typed_end st2 with
        | none => none
        | some st3 => some (.vtyped type_id ext c2, st3)
  | .vtypednull _ ext, st =>
    match marshal_dec_bin.decode_typed_begin ext st with
    | none => none
    | some (type_id, st1) =>
      match marshal_dec_bin.decode_typed_end st1 with
      | none => none
      | some st2 => some (.vtypednull type_id ext, st2)

def decFields : MFields → marshal_dec_bin →
    Option (MFields × marshal_dec_bin)
  | .nil, st => some (.nil, st)
  | .cons _label c rest, st =>
    match marshal_dec_bin.decode_struct_field_begin st with
    | none => none
    | some (label_id, present, st1) =>
      if label_id = marshal_label_id_INVALID then none
      else
        match decField c present st1 with
        | none => none
        | some (c2, st2) =>
          match marshal_dec_bin.decode_struct_field_end st2 with
          | none => none
          | some st3 =>
            match decFields rest st3 with
            | none => none
            | some (rest2, st4) =>
              some (.cons label_id c2 rest2, st4)

def decField : MFieldContent → Bool → marshal_dec_bin →
    Option (MFieldContent × marshal_dec_bin)
  | .mandatory v, _present, st =>
    match decLike v st with
    | none => none
    | some (v2, st1) => some (.mandatory v2, st1)
  | .optPresent v, present, st =>
    if present then
      match decLike v st with
      | none => none
      | some (v2, st1) => some (.optPresent v2, st1)
    else none
  | .optMissing, present, st =>
    if present then none else some (.optMissing, st)

def decElems : MValues → marshal_dec_bin →
    Option (MValues × marshal_dec_bin)
  | .nil, st => some (.nil, st)
  | .cons v rest, st =>
    match marshal_dec_bin.decode_array_element_begin st with
    | none => none
    | some (more, st1) =>
      if more then
        match decLike v st1 with
        | none => none
        | some (v2, st2) =>
          match marshal_dec_bin.decode_array_element_end st2 with
          | none => none
          | some st3 =>
            match decElems rest st3 with
            | none => none
            | some (rest2, st4) => some (.cons v2 rest2, st4)
      else none

def decDict : MDict → marshal_dec_bin → Option (MDict × marshal_dec_bin)
  | .nil, st => some (.nil, st)
  | .cons _key v rest, st =>
    match marshal_dec_bin.decode_dictionary_element_begin st with
    | none => none
    | some (more, key2, st1) =>
      if more then
        match decLike v st1 with
        | none => none
        | some (v2, st2) =>
          match marshal_dec_bin.decode_dictionary_element_end st2 with
          | none => none
          | some st3 =>
            match decDict rest st3 with
            | none => none
            | some (rest2, st4) => some (.cons key2 v2 rest2, st4)
      else none

end

/-! ### Well-formed values

`goodVal` collects the conditions under which a value is represented
exactly on the wire: fixed-width integers within their range, lengths and
counts below `2^32` (they travel as `u32`), label ids below `2^32`, string
and binary bytes being byte values, and code points of `u32` strings in
the single-byte (ASCII) range — multi-byte characters trip the
`decode_u32string` loop-counter defect established separately.  For an
extensible frame the byte length of the payload must fit the `u32` size
indicator, and each field of an extensible struct must start strictly
before the frame's end offset (`fieldsFitAt` — in particular the last
field must occupy at least one byte; a trailing zero-byte field is
indistinguishable from the extensible short-wire case by design). -/

/-- Each field starts strictly before offset `stop`, counting from
`start`. -/
def fieldsFitAt (stop start : Nat) : MFields → Bool
  | .nil => true
  | .cons _label c rest =>
    start < stop && fieldsFitAt stop (start + (encFieldBytes c).length) rest

mutual

def goodVal : MValue → Bool
  | .vbool _ => true
  | .vu8 n => n < 2 ^ 8
  | .vi8 n => -(2 ^ 7) ≤ n ∧ n < 2 ^ 7
  | .vu16 n => n < 2 ^ 16
  | .vi16 n => -(2 ^ 15) ≤ n ∧ n < 2 ^ 15
  | .vu32 n => n < 2 ^ 32
  | .vi32 n => -(2 ^ 31) ≤ n ∧ n < 2 ^ 31
  | .vu64 n => n < 2 ^ 64
  | .vi64 n => -(2 ^ 63) ≤ n ∧ n < 2 ^ 63
  | .vf64 bits => bits < 2 ^ 64
  | .vstr s => s.length < 2 ^ 32 && s.all (· < 2 ^ 8)
  | .vu32str cps => cps.length < 2 ^ 32 && cps.all (· < 0x80)
  | .vbin bs => bs.all (· < 2 ^ 8)
  | .vvarbin bs => bs.length < 2 ^ 32 && bs.all (· < 2 ^ 8)
  | .vstruct ext fs =>
    goodFields fs &&
      (!ext || ((encFieldsBytes fs).length < 2 ^ 32 &&
        fieldsFitAt (encFieldsBytes fs).length 0 fs))
  | .varray vs => vs.numElems < 2 ^ 32 && goodElems vs
  | .vdict es => es.numEntries < 2 ^ 32 && goodDict es
  | .vtyped label ext c =>
    label < 2 ^ 32 && goodVal c && (!ext || (encBytes c).length < 2 ^ 32)
  | .vtypednull label _ext => label < 2 ^ 32

def goodFields : MFields → Bool
  | .nil => true
  | .cons label c rest =>
    decide (0 < label) && label < 2 ^ 32 && goodField c && goodFields rest

def goodField : MFieldContent → Bool
  | .mandatory v => goodVal v
  | .optPresent v => goodVal v
  | .optMissing => true

def goodElems : MValues → Bool
  | .nil => true
  | .cons v rest => goodVal v && goodElems rest

def goodDict : MDict → Bool
  | .nil => true
  | .cons key v rest =>
    key.length < 2 ^ 32 && key.all (· < 2 ^ 8) && goodVal v &&
      goodDict rest

end

/-! ## Labels (marshal.hpp)

`marshal_label::hash` computes the CRC-32 of the label text
(hash_crc32.hpp is not among the sources).  Modelled from the spec: the
label id is the standard CRC-32 (IEEE, reflected polynomial 0xEDB88320) of
the ASCII name; the model reproduces the test vector recorded in
marshal.hpp's documentation (`const_hash("myField") == 0x07363313`). -/

/-- One bit step of the reflected CRC-32. -/
def crc32_bit (c : Nat) : Nat :=
  if c % 2 = 1 then 0xEDB88320 ^^^ (c >>> 1) else c >>> 1

/-- One byte step of the reflected CRC-32. -/
def crc32_byte (c b : Nat) : Nat :=
  crc32_bit (crc32_bit (crc32_bit (crc32_bit
    (crc32_bit (crc32_bit (crc32_bit (crc32_bit (c ^^^ b % 256))))))))

/-- Modelled from the spec: `crc32` over a byte string (standard IEEE
CRC-32), the label-id hash. -/
def crc32 (bytes : List Nat) : Nat :=
  (bytes.foldl crc32_byte 0xFFFFFFFF) ^^^ 0xFFFFFFFF

/-- `marshal_label::hash` of a UTF-8 string. -/
def marshal_label_hash (text : List Nat) : Nat := crc32 text

/-! ## JSON tokenizer (json_tokenizer.hpp)

Characters are 32-bit code points (`Nat`); `CH32_EOF` marks end of
input. -/

/-- `json_tokenizer_ret`. -/
inductive json_tokenizer_ret where
  | C_ERROR
  | C_NEED_MORE_CHARS
  | C_NOTHING_MORE
  | C_SPACE
  | C_BRACE_OPEN
  | C_BRACE_CLOSE
  | C_BRACKET_OPEN
  | C_BRACKET_CLOSE
  | C_COMMA
  | C_COLON
  | C_TRUE
  | C_FALSE
  | C_NULL
  | C_STRING
  | C_NUMBER
  | C_STRING_AND_NUMBER
deriving DecidableEq, Repr

/-- Tokenizer `state_t`. -/
inductive tok_state_t where
  | IDLING
  | REACHED_EOF
  | IN_STRING
  | IN_NUMBER
  | IN_KEYWORD
  | IN_COMMENT
  | ABORTED_DUE_TO_ERROR
deriving DecidableEq, Repr

/-- Tokenizer `sub_state_t`. -/
inductive tok_sub_state_t where
  | NORMAL
  | IN_STRING_AFTER_BACKSLASH
  | IN_STRING_READING_HEX_CHARS
  | IN_COMMENT_SLASHSTAR_DISCARD_FIRST_STAR
  | IN_COMMENT_SLASHSTAR_INSIDE
  | IN_COMMENT_SLASHSTAR_MATCHED_POTENTIAL_CLOSING_STAR
  | IN_COMMENT_SLASHSLASH
deriving DecidableEq, Repr

/-- `CH32_EOF` (`UINT_LEAST32_MAX`). -/
def CH32_EOF : Nat := 2 ^ 32 - 1

/-- Flag `NUMBERS_IN_STRINGS`. -/
def NUMBERS_IN_STRINGS : Nat := 1

/-- State of `json_tokenizer_base`. -/
structure json_tokenizer_base where
  m_raw_token : List Nat := []
  m_string : List Nat := []
  m_string_can_converted_to_number : Bool := false
  m_multinum : multinum := {}
  m_flags : Nat := 0
  m_escaped_char : Nat := 0
  m_escaped_char_remaining : Nat := 0
  m_state : tok_state_t := .IDLING
  m_sub_state : tok_sub_state_t := .NORMAL
  m_numeric_parser_state : Nat := 0
  m_prev_char : Nat := 0
  m_last_process_ret : json_tokenizer_ret := .C_NEED_MORE_CHARS
deriving DecidableEq, Repr

namespace json_tokenizer_base

/-- `is_valid_keyword_char`. -/
def is_valid_keyword_char (ch32 : Nat) : Bool :=
  (97 ≤ ch32 ∧ ch32 ≤ 122) ∨ (65 ≤ ch32 ∧ ch32 ≤ 90) ∨
    (48 ≤ ch32 ∧ ch32 ≤ 57) ∨ ch32 = 95 ∨ ch32 = 45 ∨ ch32 = 46

/-- `clear()`. -/
def clear (s : json_tokenizer_base) : json_tokenizer_base :=
  { s with m_raw_token := [], m_string := [], m_multinum := {},
           m_string_can_converted_to_number := s.m_flags &&& NUMBERS_IN_STRINGS = NUMBERS_IN_STRINGS }

/-- `detect_utf16_char` (utf16.hpp). -/
inductive utf16_char_type where
  | utf16_NONE
  | utf16_FIRST
  | utf16_SECOND
deriving DecidableEq, Repr

/-- `detect_utf16_char`. -/
def detect_utf16_char (ch : Nat) : utf16_char_type :=
  if ch &&& 0xFC00 = 0xD800 then .utf16_FIRST
  else if ch &&& 0xFC00 = 0xDC00 then .utf16_SECOND
  else .utf16_NONE

/-- `add_char_to_string`: resolve an immediately adjacent UTF-16 surrogate
pair, then append; update the can-be-number flag. -/
def add_char_to_string (ch32 : Nat) (s : json_tokenizer_base) :
    json_tokenizer_base :=
  if s.m_string.length > 0 ∧ ch32 < 0x10000 ∧
      detect_utf16_char ch32 = .utf16_SECOND then
    let prev := s.m_string.getLastD 0
    if prev < 0x10000 ∧ detect_utf16_char prev = .utf16_FIRST then
      let codepoint :=
        (((prev &&& 0x3FF) <<< 10) ||| (ch32 &&& 0x3FF)) + 0x10000
      { s with m_string := s.m_string.dropLast ++ [codepoint] }
    else pushAndCheck ch32 s
  else pushAndCheck ch32 s
where
  /-- The push plus the number-compatibility filter (the source whitelists
  space, 0-9, A-F, a-f, '.', 'X', '+', '-'). -/
  pushAndCheck (ch32 : Nat) (s : json_tokenizer_base) :
      json_tokenizer_base :=
    let s1 := { s with m_string := s.m_string ++ [ch32] }
    if s1.m_string_can_converted_to_number then
      if ch32 = 32 ∨ (48 ≤ ch32 ∧ ch32 ≤ 57) ∨ (65 ≤ ch32 ∧ ch32 ≤ 70) ∨
          (97 ≤ ch32 ∧ ch32 ≤ 102) ∨ ch32 = 46 ∨ ch32 = 88 ∨ ch32 = 43 ∨
          ch32 = 45 then s1
      else { s1 with m_string_can_converted_to_number := false }
    else s1

/-- `process_char_string`. -/
def process_char_string (ch32_curr : Nat) (s : json_tokenizer_base) :
    json_tokenizer_ret × json_tokenizer_base :=
  if ch32_curr = CH32_EOF then
    (.C_ERROR, { s with m_state := .ABORTED_DUE_TO_ERROR })
  else
    match s.m_sub_state with
    | .NORMAL =>
      if ch32_curr = 34 then
        let s1 := { s with m_state := .IDLING }
        if s1.m_string_can_converted_to_number then
          let s2 := { s1 with m_multinum := multinum.parse s1.m_string }
          if s2.m_multinum.valid then (.C_STRING_AND_NUMBER, s2)
          else (.C_STRING, s2)
        else (.C_STRING, s1)
      else if ch32_curr = 92 then
        (.C_NEED_MORE_CHARS,
          { s with m_sub_state := .IN_STRING_AFTER_BACKSLASH })
      else (.C_NEED_MORE_CHARS, add_char_to_string ch32_curr s)
    | .IN_STRING_AFTER_BACKSLASH =>
      if ch32_curr = 117 then
        (.C_NEED_MORE_CHARS,
          { s with m_escaped_char := 0, m_escaped_char_remaining := 4,
                   m_sub_state := .IN_STRING_READING_HEX_CHARS })
      else
        let ch :=
          if ch32_curr = 98 then 8
          else if ch32_curr = 102 then 12
          else if ch32_curr = 110 then 10
          else if ch32_curr = 114 then 13
          else if ch32_curr = 116 then 9
          else ch32_curr
        (.C_NEED_MORE_CHARS,
          { (add_char_to_string ch s) with m_sub_state := .NORMAL })
    | .IN_STRING_READING_HEX_CHARS =>
      let digit : Option Nat :=
        if 48 ≤ ch32_curr ∧ ch32_curr ≤ 57 then some (ch32_curr - 48)
        else if 65 ≤ ch32_curr ∧ ch32_curr ≤ 70 then
          some (ch32_curr - 65 + 10)
        else if 97 ≤ ch32_curr ∧ ch32_curr ≤ 102 then
          some (ch32_curr - 97 + 10)
        else none
      match digit with
      | none => (.C_ERROR, { s with m_state := .ABORTED_DUE_TO_ERROR })
      | some d =>
        let esc := (s.m_escaped_char <<< 4) ||| d
        let rem := s.m_escaped_char_remaining - 1
        if rem = 0 then
          (.C_NEED_MORE_CHARS,
            { (add_char_to_string esc s) with
                m_escaped_char := esc,
                m_escaped_char_remaining := 0, m_sub_state := .NORMAL })
        else
          (.C_NEED_MORE_CHARS,
            { s with m_escaped_char := esc, m_escaped_char_remaining := rem })
    | _ => (.C_ERROR, { s with m_state := .ABORTED_DUE_TO_ERROR })

/-- `process_char_comment`. -/
def process_char_comment (ch32_curr : Nat) (s : json_tokenizer_base) :
    json_tokenizer_ret × json_tokenizer_base :=
  match s.m_sub_state with
  | .IN_COMMENT_SLASHSTAR_DISCARD_FIRST_STAR =>
    (.C_NEED_MORE_CHARS, { s with m_sub_state := .IN_COMMENT_SLASHSTAR_INSIDE })
  | .IN_COMMENT_SLASHSTAR_INSIDE =>
    if ch32_curr = CH32_EOF then
      (.C_ERROR, { s with m_state := .ABORTED_DUE_TO_ERROR })
    else if ch32_curr = 42 then
      (.C_NEED_MORE_CHARS,
        { s with m_sub_state :=
          .IN_COMMENT_SLASHSTAR_MATCHED_POTENTIAL_CLOSING_STAR })
    else (.C_NEED_MORE_CHARS, s)
  | .IN_COMMENT_SLASHSTAR_MATCHED_POTENTIAL_CLOSING_STAR =>
    if ch32_curr = CH32_EOF then
      (.C_ERROR, { s with m_state := .ABORTED_DUE_TO_ERROR })
    else if ch32_curr = 47 then
      (.C_SPACE, { s with m_sub_state := .NORMAL, m_state := .IDLING })
    else (.C_NEED_MORE_CHARS, s)
  | .IN_COMMENT_SLASHSLASH =>
    if ch32_curr = 13 ∨ ch32_curr = 10 ∨ ch32_curr = CH32_EOF then
      (.C_SPACE, { s with m_state := .IDLING })
    else (.C_NEED_MORE_CHARS, s)
  | _ => (.C_ERROR, s)

/-- ASCII codes of `null`, `true`, `false` (the `compare_utf8`
comparisons). -/
def nullCodes : List Nat := [110, 117, 108, 108]

/-- ASCII codes of `true`. -/
def trueCodes : List Nat := [116, 114, 117, 101]

/-- ASCII codes of `false`. -/
def falseCodes : List Nat := [102, 97, 108, 115, 101]

/-- `process_char_keyword`. -/
def process_char_keyword (ch32_curr ch32_next : Nat)
    (s : json_tokenizer_base) : json_tokenizer_ret × json_tokenizer_base :=
  let s1 := { s with m_string := s.m_string ++ [ch32_curr] }
  if is_valid_keyword_char ch32_next then (.C_NEED_MORE_CHARS, s1)
  else
    let s2 := { s1 with m_state := .IDLING }
    if s2.m_string = nullCodes then (.C_NULL, s2)
    else if s2.m_string = trueCodes then (.C_TRUE, s2)
    else if s2.m_string = falseCodes then (.C_FALSE, s2)
    else (.C_STRING, s2)

/-- `json_tokenizer_numeric_ch`. -/
def json_tokenizer_numeric_ch (ch32 : Nat) : Nat :=
  if ch32 = 45 then 1
  else if ch32 = 43 then 2
  else if ch32 = 46 then 3
  else if ch32 = 101 ∨ ch32 = 69 then 4
  else if 48 ≤ ch32 ∧ ch32 ≤ 57 then 5
  else 0

/-- The `state_map` of `process_char_number` (255 is `_`/not supported,
254 is `X`/terminate; rows outside the table map to `_`, standing for the
out-of-range accesses the C++ asserts impossible). -/
def numeric_state_map (st ev : Nat) : Nat :=
  match st, ev with
  | 0, 1 => 1 | 0, 5 => 2
  | 1, 5 => 2
  | 2, 0 => 254 | 2, 3 => 3 | 2, 4 => 5 | 2, 5 => 2
  | 3, 5 => 4
  | 4, 0 => 254 | 4, 4 => 5 | 4, 5 => 4
  | 5, 1 => 6 | 5, 2 => 6 | 5, 5 => 7
  | 6, 5 => 7
  | 7, 0 => 254 | 7, 5 => 7
  | _, _ => 255

/-- `process_char_number`. -/
def process_char_number (ch32_curr ch32_next : Nat)
    (s : json_tokenizer_base) : json_tokenizer_ret × json_tokenizer_base :=
  let ev_curr := json_tokenizer_numeric_ch ch32_curr
  let ev_next := json_tokenizer_numeric_ch ch32_next
  let new_state := numeric_state_map s.m_numeric_parser_state ev_curr
  let s1 := { s with m_numeric_parser_state := new_state,
                     m_string := s.m_string ++ [ch32_curr] }
  let future_state := numeric_state_map new_state ev_next
  if future_state = 255 then
    (.C_ERROR, { s1 with m_state := .ABORTED_DUE_TO_ERROR })
  else if future_state = 254 then
    let s2 := { s1 with m_state := .IDLING,
                        m_multinum := multinum.parse s1.m_string }
    if !s2.m_multinum.valid then
      (.C_ERROR, { s2 with m_state := .ABORTED_DUE_TO_ERROR })
    else (.C_NUMBER, s2)
  else (.C_NEED_MORE_CHARS, s1)

/-- `process_char_internal`. -/
def process_char_internal (ch32_curr ch32_next : Nat)
    (s : json_tokenizer_base) : json_tokenizer_ret × json_tokenizer_base :=
  match s.m_state with
  | .IDLING =>
    let s := { s with m_string := [] }
    if ch32_curr = 123 then (.C_BRACE_OPEN, s)
    else if ch32_curr = 125 then (.C_BRACE_CLOSE, s)
    else if ch32_curr = 91 then (.C_BRACKET_OPEN, s)
    else if ch32_curr = 93 then (.C_BRACKET_CLOSE, s)
    else if ch32_curr = 44 then (.C_COMMA, s)
    else if ch32_curr = 58 then (.C_COLON, s)
    else if ch32_curr = 32 ∨ ch32_curr = 13 ∨ ch32_curr = 10 ∨
        ch32_curr = 9 then (.C_SPACE, s)
    else if ch32_curr = 35 then
      (.C_NEED_MORE_CHARS,
        { s with m_state := .IN_COMMENT,
                 m_sub_state := .IN_COMMENT_SLASHSLASH })
    else if ch32_curr = 47 then
      if ch32_next = 42 then
        (.C_NEED_MORE_CHARS,
          { s with m_state := .IN_COMMENT,
                   m_sub_state := .IN_COMMENT_SLASHSTAR_DISCARD_FIRST_STAR })
      else if ch32_next = 47 then
        (.C_NEED_MORE_CHARS,
          { s with m_state := .IN_COMMENT,
                   m_sub_state := .IN_COMMENT_SLASHSLASH })
      else (.C_ERROR, { s with m_state := .ABORTED_DUE_TO_ERROR })
    else if ch32_curr = 34 then
      (.C_NEED_MORE_CHARS,
        { s with m_state := .IN_STRING, m_sub_state := .NORMAL })
    else if (48 ≤ ch32_curr ∧ ch32_curr ≤ 57) ∨ ch32_curr = 45 then
      process_char_number ch32_curr ch32_next
        { s with m_state := .IN_NUMBER, m_sub_state := .NORMAL,
                 m_numeric_parser_state := 0 }
    else if is_valid_keyword_char ch32_curr then
      process_char_keyword ch32_curr ch32_next
        { s with m_state := .IN_KEYWORD, m_sub_state := .NORMAL }
    else (.C_ERROR, { s with m_state := .ABORTED_DUE_TO_ERROR })
  | .IN_STRING => process_char_string ch32_curr s
  | .IN_COMMENT => process_char_comment ch32_curr s
  | .IN_KEYWORD => process_char_keyword ch32_curr ch32_next s
  | .IN_NUMBER => process_char_number ch32_curr ch32_next s
  | .REACHED_EOF => (.C_NOTHING_MORE, s)
  | .ABORTED_DUE_TO_ERROR => (.C_ERROR, s)

/-- `internal_process_char`. -/
def internal_process_char (ch : Nat) (s : json_tokenizer_base) :
    json_tokenizer_ret × json_tokenizer_base :=
  match s.m_state with
  | .REACHED_EOF =>
    (.C_NOTHING_MORE, { s with m_last_process_ret := .C_NOTHING_MORE })
  | _ =>
    let s0 := if s.m_state = .IDLING then s.clear else s
    let (ret, s1) := process_char_internal s0.m_prev_char ch s0
    (ret, { s1 with m_raw_token := s1.m_raw_token ++ [s0.m_prev_char],
                    m_prev_char := ch, m_last_process_ret := ret })

/-- `internal_process_eof` — note that it unconditionally moves the state
to `REACHED_EOF` afterwards, also from `ABORTED_DUE_TO_ERROR`. -/
def internal_process_eof (s : json_tokenizer_base) :
    json_tokenizer_ret × json_tokenizer_base :=
  match s.m_state with
  | .REACHED_EOF =>
    (.C_NOTHING_MORE, { s with m_last_process_ret := .C_NOTHING_MORE })
  | _ =>
    let s0 := if s.m_state = .IDLING then s.clear else s
    let (ret, s1) := process_char_internal s0.m_prev_char CH32_EOF s0
    (ret, { s1 with m_raw_token := s1.m_raw_token ++ [s0.m_prev_char],
                    m_state := .REACHED_EOF, m_last_process_ret := ret })

end json_tokenizer_base

/-- `json_tokenizer` constructor: anticipate the first character. -/
def json_tokenizer_mk (first_char : Nat) (flags : Nat) :
    json_tokenizer_base :=
  json_tokenizer_base.clear { m_flags := flags, m_prev_char := first_char }

/-- One call on the single-character `json_tokenizer` interface. -/
inductive tok_op where
  | procChar (ch : Nat)
  | procEof
deriving DecidableEq, Repr

/-- Run a sequence of `process_char`/`process_eof` calls, collecting the
returned results. -/
def tok_run : List tok_op → json_tokenizer_base →
    List json_tokenizer_ret × json_tokenizer_base
  | [], s => ([], s)
  | op :: rest, s =>
    let (ret, s1) :=
      match op with
      | .procChar ch => json_tokenizer_base.internal_process_char ch s
      | .procEof => json_tokenizer_base.internal_process_eof s
    let (rets, s2) := tok_run rest s1
    (ret :: rets, s2)

/-! ## JSON decoder (marshal_dec_json.hpp)

The decoder drives the tokenizer through `fetch_token` and inspects only
`get_last_process_ret`, `get_string` and `get_multinum`; it is embedded
over that boundary: the token stream is the list of
`(result, string, multinum)` triples the tokenizer yields, with the
single-slot resubmit flag of the decoder in front of it.  Claims about
this component quantify over the token stream. -/

/-- `marshal_json_element_type`. -/
inductive marshal_json_element_type where
  | STRUCT
  | FIELD
  | ARRAY
  | ARRAY_ELEMENT
  | DICTIONARY
  | DICTIONARY_ELEMENT
  | TYPED
deriving DecidableEq, Repr

/-- Stack element of the JSON decoder. -/
structure jdec_stack_element where
  m_element_type : marshal_json_element_type
  m_items_count : Nat := 0
deriving DecidableEq, Repr

/-- One tokenizer observation: result code, decoded string (code points)
and numeric value. -/
structure jtoken where
  ret : json_tokenizer_ret := .C_NOTHING_MORE
  str : List Nat := []
  num : multinum := {}
deriving DecidableEq, Repr

/-- The token the tokenizer yields for the keyword `null`: the decoded
string holds the keyword and the multinum was cleared when the token
started. -/
def nullToken : jtoken :=
  { ret := .C_NULL, str := json_tokenizer_base.nullCodes, num := {} }

/-- State of `marshal_dec_json` (the `m_fields_map` of the C++, which
only feeds diagnostics, is not carried). -/
structure marshal_dec_json where
  m_tokens : List jtoken := []
  m_tpos : Nat := 0
  m_cur : jtoken := {}
  m_resubmit_prev_token : Bool := false
  m_stack : List jdec_stack_element := []
  m_is_typed : Bool := false
deriving DecidableEq, Repr

namespace marshal_dec_json

/-- `fetch_token`: honour the resubmit slot, otherwise pull the next
token. -/
def fetch_token (st : marshal_dec_json) : marshal_dec_json :=
  if st.m_resubmit_prev_token then { st with m_resubmit_prev_token := false }
  else
    { st with m_cur := (st.m_tokens[st.m_tpos]?).getD {},
              m_tpos := st.m_tpos + 1 }

/-- `resubmit_prev_token`. -/
def resubmit_prev_token (st : marshal_dec_json) : marshal_dec_json :=
  { st with m_resubmit_prev_token := true }

/-- `decode_bool`. -/
def decode_bool (st : marshal_dec_json) : Option (Bool × marshal_dec_json) :=
  let st1 := fetch_token st
  match st1.m_cur.ret with
  | .C_TRUE => some (true, st1)
  | .C_FALSE => some (false, st1)
  | _ => none

/-- `decode_u32` (fails when the token's multinum cannot produce a
`uint32_t`). -/
def decode_u32 (st : marshal_dec_json) : Option (Nat × marshal_dec_json) :=
  let st1 := fetch_token st
  let pair := st1.m_cur.num.get_integral ⟨false, 4⟩ 0 (2 ^ 32 - 1)
  if pair.2 then some (pair.1.toNat, st1) else none

/-- `decode_string_utf8`. -/
def decode_string_utf8 (st : marshal_dec_json) :
    Option (List Nat × marshal_dec_json) :=
  let st1 := fetch_token st
  if st1.m_cur.ret = .C_STRING then some (utf8Bytes st1.m_cur.str, st1)
  else none

/-- `decode_struct_begin` (the declared field infos are ignored by the
JSON decoder). -/
def decode_struct_begin (st : marshal_dec_json) :
    Option marshal_dec_json :=
  if !st.m_is_typed then
    let ok :=
      match st.m_stack with
      | [] => true
      | top :: _ =>
        top.m_element_type ≠ .STRUCT ∧ top.m_element_type ≠ .ARRAY ∧
          top.m_element_type ≠ .DICTIONARY
    if !ok then none
    else
      let st1 := fetch_token st
      if st1.m_cur.ret ≠ .C_BRACE_OPEN then none
      else some { st1 with m_stack := ⟨.STRUCT, 0⟩ :: st1.m_stack }
  else some { st with m_is_typed := false }

/-- `decode_struct_field_begin`.  `wants_optional` models a non-null
`optional_present` out-parameter (the caller supplies it exactly for the
fields its field-info list declares optional); the returned flag is the
written value, `true` when the code leaves the caller's flag untouched. -/
def decode_struct_field_begin (wants_optional : Bool)
    (st : marshal_dec_json) : Option (Nat × Bool × marshal_dec_json) :=
  match st.m_stack with
  | [] => none
  | top :: rest =>
    if top.m_element_type ≠ .STRUCT then none
    else
      let st1 := fetch_token st
      if st1.m_cur.ret = .C_BRACE_CLOSE then
        some (marshal_label_id_INVALID, true, resubmit_prev_token st1)
      else
        let step : Option marshal_dec_json :=
          if top.m_items_count > 0 then
            if st1.m_cur.ret ≠ .C_COMMA then none
            else some (fetch_token st1)
          else some st1
        match step with
        | none => none
        | some st2 =>
          let st3 := { st2 with m_stack :=
            { top with m_items_count := top.m_items_count + 1 } :: rest }
          if st3.m_cur.ret ≠ .C_STRING ∨ st3.m_cur.str.length = 0 then none
          else
            let label_id := marshal_label_hash (utf8Bytes st3.m_cur.str)
            let st4 := fetch_token st3
            if st4.m_cur.ret ≠ .C_COLON then none
            else
              let st5 := { st4 with m_stack :=
                (⟨.FIELD, 0⟩ : jdec_stack_element) :: st4.m_stack }
              if wants_optional then
                let st6 := fetch_token st5
                if st6.m_cur.ret = .C_NULL then some (label_id, false, st6)
                else some (label_id, true, resubmit_prev_token st6)
              else some (label_id, true, st5)

/-- `decode_struct_field_end`. -/
def decode_struct_field_end (st : marshal_dec_json) :
    Option marshal_dec_json :=
  match st.m_stack with
  | [] => none
  | top :: rest =>
    if top.m_element_type ≠ .FIELD then none
    else some { st with m_stack := rest }

end marshal_dec_json

/-! # Theorems -/

/-! ## Byte-level lemmas -/

theorem natLE_length (w n : Nat) : (natLE w n).length = w := by
  induction w generalizing n with
  | zero => rfl
  | succ w0 ih => simp [natLE, ih]

theorem leToNat_natLE (w n : Nat) : leToNat (natLE w n) = n % 256 ^ w := by
  induction w generalizing n with
  | zero => simp [natLE, leToNat, Nat.mod_one]
  | succ w0 ih =>
    have hmm : n % 256 % 256 = n % 256 := Nat.mod_mod_of_dvd n (dvd_refl 256)
    simp only [natLE, leToNat, ih]
    rw [pow_succ, mul_comm (256 ^ w0) 256, Nat.mod_mul, hmm]

theorem leToNat_natLE_of_lt (w n : Nat) (h : n < 256 ^ w) :
    leToNat (natLE w n) = n := by
  rw [leToNat_natLE, Nat.mod_eq_of_lt h]

theorem pow256_eq (w : Nat) : (256 : Nat) ^ w = 2 ^ (8 * w) := by
  rw [show (256 : Nat) = 2 ^ 8 from rfl, ← pow_mul]

theorem ofSigned_lt (w : Nat) (v : Int) : ofSigned w v < 2 ^ (8 * w) := by
  unfold ofSigned
  have h2 : (0 : Int) < ((2 ^ (8 * w) : Nat) : Int) := by positivity
  have := Int.emod_lt_of_pos v h2
  have := Int.emod_nonneg v (by positivity : ((2 ^ (8 * w) : Nat) : Int) ≠ 0)
  omega

theorem toSigned_ofSigned1 (v : Int) (h1 : -(2 ^ 7) ≤ v) (h2 : v < 2 ^ 7) :
    toSigned 1 (ofSigned 1 v) = v := by
  unfold toSigned ofSigned
  norm_num at h1 h2 ⊢
  split_ifs <;> omega

theorem toSigned_ofSigned2 (v : Int) (h1 : -(2 ^ 15) ≤ v) (h2 : v < 2 ^ 15) :
    toSigned 2 (ofSigned 2 v) = v := by
  unfold toSigned ofSigned
  norm_num at h1 h2 ⊢
  split_ifs <;> omega

theorem toSigned_ofSigned4 (v : Int) (h1 : -(2 ^ 31) ≤ v) (h2 : v < 2 ^ 31) :
    toSigned 4 (ofSigned 4 v) = v := by
  unfold toSigned ofSigned
  norm_num at h1 h2 ⊢
  split_ifs <;> omega

theorem toSigned_ofSigned8 (v : Int) (h1 : -(2 ^ 63) ≤ v) (h2 : v < 2 ^ 63) :
    toSigned 8 (ofSigned 8 v) = v := by
  unfold toSigned ofSigned
  norm_num at h1 h2 ⊢
  split_ifs <;> omega

theorem ofSigned_lt256 (w : Nat) (v : Int) : ofSigned w v < 256 ^ w := by
  rw [pow256_eq]
  exact ofSigned_lt w v

/-! ## Encoder characterization

Driven at the end of the output stream, the encoder appends exactly
`encBytes v` and restores the frame stack. -/

theorem writeBytesAt_append (data src : List Nat) :
    writeBytesAt data data.length src = data ++ src := by
  unfold writeBytesAt
  rw [List.take_length]
  have : data.drop (data.length + src.length) = [] := by
    apply List.drop_eq_nil_of_le
    omega
  rw [this, List.append_nil]

theorem writeBytesAt_patch (data a p b : List Nat)
    (hlen : a.length = b.length) :
    writeBytesAt (data ++ a ++ p) data.length b = data ++ b ++ p := by
  unfold writeBytesAt
  rw [List.append_assoc data a p, List.take_left]
  have hdrop : (data ++ (a ++ p)).drop (data.length + b.length) = p := by
    rw [← hlen, ← List.length_append data a, ← List.append_assoc data a p]
    exact List.drop_left (data ++ a) p
  rw [hdrop, List.append_assoc]

theorem write_bytes_at_end (st : marshal_enc_bin) (src : List Nat)
    (h : st.m_pos = st.m_output.length) :
    st.write_bytes src =
      ⟨st.m_output ++ src, st.m_pos + src.length, st.m_stack⟩ := by
  unfold marshal_enc_bin.write_bytes
  rw [h, writeBytesAt_append, ← h]

theorem write_u32string_chars_spec (cps : List Nat) :
    ∀ (st : marshal_enc_bin), st.m_pos = st.m_output.length →
    marshal_enc_bin.write_u32string_chars cps st =
      ⟨st.m_output ++ utf8Bytes cps, st.m_pos + (utf8Bytes cps).length,
        st.m_stack⟩ := by
  induction cps with
  | nil =>
    intro st h
    simp [marshal_enc_bin.write_u32string_chars, utf8Bytes]
  | cons cp rest ih =>
    intro st h
    rw [marshal_enc_bin.write_u32string_chars,
      write_bytes_at_end st _ h]
    rw [ih _ (by simp [h])]
    simp [utf8Bytes]
    omega

theorem encode_u32_spec (value : Nat) (st : marshal_enc_bin)
    (h : st.m_pos = st.m_output.length) :
    marshal_enc_bin.encode_u32 value st =
      ⟨st.m_output ++ natLE 4 value, st.m_pos + 4, st.m_stack⟩ := by
  rw [marshal_enc_bin.encode_u32, write_bytes_at_end st _ h, natLE_length]

mutual

theorem encVal_spec : ∀ (v : MValue) (st : marshal_enc_bin),
    st.m_pos = st.m_output.length →
    encVal v st =
      ⟨st.m_output ++ encBytes v, st.m_pos + (encBytes v).length, st.m_stack⟩
  | .vbool b, st, h => by
    simp [encVal, marshal_enc_bin.encode_bool, write_bytes_at_end st _ h,
      encBytes]
  | .vu8 n, st, h => by
    simp [encVal, marshal_enc_bin.encode_u8, write_bytes_at_end st _ h,
      encBytes]
  | .vi8 n, st, h => by
    simp [encVal, marshal_enc_bin.encode_i8, write_bytes_at_end st _ h,
      encBytes]
  | .vu16 n, st, h => by
    simp [encVal, marshal_enc_bin.encode_u16, write_bytes_at_end st _ h,
      encBytes]
  | .vi16 n, st, h => by
    simp [encVal, marshal_enc_bin.encode_i16, write_bytes_at_end st _ h,
      encBytes]
  | .vu32 n, st, h => by
    simp [encVal, marshal_enc_bin.encode_u32, write_bytes_at_end st _ h,
      encBytes]
  | .vi32 n, st, h => by
    simp [encVal, marshal_enc_bin.encode_i32, write_bytes_at_end st _ h,
      encBytes]
  | .vu64 n, st, h => by
    simp [encVal, marshal_enc_bin.encode_u64, write_bytes_at_end st _ h,
      encBytes]
  | .vi64 n, st, h => by
    simp [encVal, marshal_enc_bin.encode_i64, write_bytes_at_end st _ h,
      encBytes]
  | .vf64 bits, st, h => by
    simp [encVal, marshal_enc_bin.encode_f64, write_bytes_at_end st _ h,
      encBytes]
  | .vstr s, st, h => by
    rw [encVal, marshal_enc_bin.encode_string_utf8, encode_u32_spec _ _ h]
    rw [write_bytes_at_end _ _ (by simp [natLE_length, h])]
    simp [encBytes, natLE_length]
    omega
  | .vu32str cps, st, h => by
    rw [encVal, marshal_enc_bin.encode_u32string, encode_u32_spec _ _ h]
    rw [write_u32string_chars_spec _ _ (by simp [natLE_length, h])]
    simp [encBytes, natLE_length]
    omega
  | .vbin bs, st, h => by
    simp [encVal, marshal_enc_bin.internal_encode_binary,
      write_bytes_at_end st _ h, encBytes]
  | .vvarbin bs, st, h => by
    rw [encVal, marshal_enc_bin.internal_encode_varsize_binary,
      encode_u32_spec _ _ h]
    rw [write_bytes_at_end _ _ (by simp [natLE_length, h])]
    simp [encBytes, natLE_length]
    omega
  | .vstruct ext fs, st, h => by
    rw [encVal]
    cases ext with
    | false =>
      have hbegin : marshal_enc_bin.encode_struct_begin false st =
          { st with m_stack := ⟨.STRUCT, st.m_pos, false⟩ :: st.m_stack } := by
        simp [marshal_enc_bin.encode_struct_begin, marshal_enc_bin.get_curr_pos]
      rw [hbegin, encFields_spec fs _ (by simpa using h)]
      simp [marshal_enc_bin.encode_struct_end, encBytes]
    | true =>
      have hbegin : marshal_enc_bin.encode_struct_begin true st =
          ⟨st.m_output ++ natLE 4 0, st.m_pos + 4,
            ⟨.STRUCT, st.m_pos, true⟩ :: st.m_stack⟩ := by
        rw [marshal_enc_bin.encode_struct_begin]
        simp only [marshal_enc_bin.get_curr_pos, if_pos]
        rw [marshal_enc_bin.encode_size_indicator,
          marshal_enc_bin.encode_u32, write_bytes_at_end _ _ (by simpa using h),
          natLE_length]
      rw [hbegin, encFields_spec fs _ (by simp [h, natLE_length])]
      rw [marshal_enc_bin.encode_struct_end]
      simp only [marshal_enc_bin.get_curr_pos, marshal_enc_bin.set_curr_pos,
        marshal_enc_bin.encode_size_indicator, marshal_enc_bin.encode_u32,
        marshal_enc_bin.write_bytes]
      simp only [if_true, natLE_length]
      rw [h]
      rw [writeBytesAt_patch st.m_output (natLE 4 0) (encFieldsBytes fs) _
        (by simp [natLE_length])]
      have hsz : st.m_output.length + 4 + (encFieldsBytes fs).length -
          st.m_output.length - 4 = (encFieldsBytes fs).length := by omega
      rw [hsz]
      simp [encBytes, natLE_length, List.append_assoc]
      omega
  | .varray vs, st, h => by
    rw [encVal]
    have hbegin : marshal_enc_bin.encode_array_begin vs.numElems st =
        ⟨st.m_output ++ natLE 4 vs.numElems, st.m_pos + 4,
          ⟨.ARRAY, st.m_pos + 4, false⟩ :: st.m_stack⟩ := by
      rw [marshal_enc_bin.encode_array_begin,
        marshal_enc_bin.encode_size_indicator, encode_u32_spec _ _ h]
      simp [marshal_enc_bin.get_curr_pos]
    rw [hbegin, encElems_spec vs _ (by simp [h, natLE_length])]
    simp [marshal_enc_bin.encode_array_end, encBytes, natLE_length,
      List.append_assoc]
    omega
  | .vdict es, st, h => by
    rw [encVal]
    have hbegin : marshal_enc_bin.encode_dictionary_begin es.numEntries st =
        ⟨st.m_output ++ natLE 4 es.numEntries, st.m_pos + 4,
          ⟨.DICTIONARY, st.m_pos + 4, false⟩ :: st.m_stack⟩ := by
      rw [marshal_enc_bin.encode_dictionary_begin,
        marshal_enc_bin.encode_size_indicator, encode_u32_spec _ _ h]
      simp [marshal_enc_bin.get_curr_pos]
    rw [hbegin, encDict_spec es _ (by simp [h, natLE_length])]
    simp [marshal_enc_bin.encode_dictionary_end, encBytes, natLE_length,
      List.append_assoc]
    omega
  | .vtyped label ext c, st, h => by
    rw [encVal]
    cases ext with
    | false =>
      have hbegin : marshal_enc_bin.encode_typed_begin label false st =
          ⟨st.m_output ++ natLE 4 label, st.m_pos + 4,
            ⟨.TYPED, st.m_pos + 4, false⟩ :: st.m_stack⟩ := by
        rw [marshal_enc_bin.encode_typed_begin, encode_u32_spec _ _ h]
        simp [marshal_enc_bin.get_curr_pos]
      rw [hbegin, encVal_spec c _ (by simp [h, natLE_length])]
      simp [marshal_enc_bin.encode_typed_end, encBytes, natLE_length,
        List.append_assoc]
      omega
    | true =>
      have hbegin : marshal_enc_bin.encode_typed_begin label true st =
          ⟨st.m_output ++ natLE 4 label ++ natLE 4 0, st.m_pos + 4 + 4,
            ⟨.TYPED, st.m_pos + 4, true⟩ :: st.m_stack⟩ := by
        rw [marshal_enc_bin.encode_typed_begin, encode_u32_spec _ _ h]
        simp only [marshal_enc_bin.get_curr_pos, if_pos]
        rw [marshal_enc_bin.encode_size_indicator,
          marshal_enc_bin.encode_u32,
          write_bytes_at_end _ _ (by simp [h, natLE_length]), natLE_length]
      rw [hbegin, encVal_spec c _ (by simp [h, natLE_length])]
      rw [marshal_enc_bin.encode_typed_end]
      simp only [marshal_enc_bin.get_curr_pos, marshal_enc_bin.set_curr_pos,
        marshal_enc_bin.encode_size_indicator, marshal_enc_bin.encode_u32,
        marshal_enc_bin.write_bytes]
      simp only [if_true, natLE_length]
      have harr : st.m_output ++ natLE 4 label ++ natLE 4 0 ++ encBytes c =
          (st.m_output ++ natLE 4 label) ++ natLE 4 0 ++ encBytes c := by
        simp [List.append_assoc]
      have hlen : st.m_pos + 4 = (st.m_output ++ natLE 4 label).length := by
        simp [h, natLE_length]
      rw [harr, hlen,
        writeBytesAt_patch (st.m_output ++ natLE 4 label) (natLE 4 0)
          (encBytes c) _ (by simp [natLE_length])]
      have hsz : (st.m_output ++ natLE 4 label).length + 4 +
          (encBytes c).length - (st.m_output ++ natLE 4 label).length - 4 =
          (encBytes c).length := by omega
      rw [hsz]
      simp [encBytes, natLE_length, List.append_assoc, h]
      omega
  | .vtypednull label ext, st, h => by
    rw [encVal]
    cases ext with
    | false =>
      have hbegin : marshal_enc_bin.encode_typed_begin label false st =
          ⟨st.m_output ++ natLE 4 label, st.m_pos + 4,
            ⟨.TYPED, st.m_pos + 4, false⟩ :: st.m_stack⟩ := by
        rw [marshal_enc_bin.encode_typed_begin, encode_u32_spec _ _ h]
        simp [marshal_enc_bin.get_curr_pos]
      rw [hbegin]
      simp [marshal_enc_bin.encode_typed_end, encBytes, natLE_length]
    | true =>
      have hbegin : marshal_enc_bin.encode_typed_begin label true st =
          ⟨st.m_output ++ natLE 4 label ++ natLE 4 0, st.m_pos + 4 + 4,
            ⟨.TYPED, st.m_pos + 4, true⟩ :: st.m_stack⟩ := by
        rw [marshal_enc_bin.encode_typed_begin, encode_u32_spec _ _ h]
        simp only [marshal_enc_bin.get_curr_pos, if_pos]
        rw [marshal_enc_bin.encode_size_indicator,
          marshal_enc_bin.encode_u32,
          write_bytes_at_end _ _ (by simp [h, natLE_length]), natLE_length]
      rw [hbegin]
      rw [marshal_enc_bin.encode_typed_end]
      simp only [marshal_enc_bin.get_curr_pos, marshal_enc_bin.set_curr_pos,
        marshal_enc_bin.encode_size_indicator, marshal_enc_bin.encode_u32,
        marshal_enc_bin.write_bytes]
      simp only [if_true, natLE_length]
      have hlen : st.m_pos + 4 = (st.m_output ++ natLE 4 label).length := by
        simp [h, natLE_length]
      have harr : st.m_output ++ natLE 4 label ++ natLE 4 0 =
          (st.m_output ++ natLE 4 label) ++ natLE 4 0 ++ [] := by
        simp
      rw [harr, hlen,
        writeBytesAt_patch (st.m_output ++ natLE 4 label) (natLE 4 0) []
          _ (by simp [natLE_length])]
      have hsz : (st.m_output ++ natLE 4 label).length + 4 -
          (st.m_output ++ natLE 4 label).length - 4 = 0 := by omega
      rw [hsz]
      simp [encBytes, natLE_length, List.append_assoc, h]

theorem encFields_spec : ∀ (fs : MFields) (st : marshal_enc_bin),
    st.m_pos = st.m_output.length →
    encFields fs st =
      ⟨st.m_output ++ encFieldsBytes fs,
        st.m_pos + (encFieldsBytes fs).length, st.m_stack⟩
  | .nil, st, h => by
    simp [encFields, encFieldsBytes]
  | .cons label c rest, st, h => by
    rw [encFields, encField_spec c _ h]
    rw [encFields_spec rest _ (by simp [h])]
    simp [encFieldsBytes, List.append_assoc]
    omega

theorem encField_spec : ∀ (c : MFieldContent) (st : marshal_enc_bin),
    st.m_pos = st.m_output.length →
    encField c st =
      ⟨st.m_output ++ encFieldBytes c,
        st.m_pos + (encFieldBytes c).length, st.m_stack⟩
  | .mandatory v, st, h => by
    rw [encField]
    have hbegin : marshal_enc_bin.encode_struct_field_begin .MANDATORY st =
        { st with m_stack := ⟨.FIELD, st.m_pos, false⟩ :: st.m_stack } := by
      simp [marshal_enc_bin.encode_struct_field_begin,
        marshal_enc_bin.get_curr_pos]
    rw [hbegin, encVal_spec v _ (by simpa using h)]
    simp [marshal_enc_bin.encode_struct_field_end, encFieldBytes]
  | .optPresent v, st, h => by
    rw [encField]
    have hbegin : marshal_enc_bin.encode_struct_field_begin
        .OPTIONAL_PRESENT st =
        ⟨st.m_output ++ [1], st.m_pos + 1,
          ⟨.FIELD, st.m_pos + 1, false⟩ :: st.m_stack⟩ := by
      rw [marshal_enc_bin.encode_struct_field_begin]
      simp [marshal_enc_bin.encode_bool, write_bytes_at_end st _ h,
        marshal_enc_bin.get_curr_pos]
    rw [hbegin, encVal_spec v _ (by simp [h])]
    simp [marshal_enc_bin.encode_struct_field_end, encFieldBytes]
    omega
  | .optMissing, st, h => by
    rw [encField]
    have hbegin : marshal_enc_bin.encode_struct_field_begin
        .OPTIONAL_MISSING st =
        ⟨st.m_output ++ [0], st.m_pos + 1,
          ⟨.FIELD_MISSING, st.m_pos + 1, false⟩ :: st.m_stack⟩ := by
      rw [marshal_enc_bin.encode_struct_field_begin]
      simp [marshal_enc_bin.encode_bool, write_bytes_at_end st _ h,
        marshal_enc_bin.get_curr_pos]
    rw [hbegin]
    simp [marshal_enc_bin.encode_struct_field_end, encFieldBytes]

theorem encElems_spec : ∀ (vs : MValues) (st : marshal_enc_bin),
    st.m_pos = st.m_output.length →
    encElems vs st =
      ⟨st.m_output ++ encElemsBytes vs,
        st.m_pos + (encElemsBytes vs).length, st.m_stack⟩
  | .nil, st, h => by
    simp [encElems, encElemsBytes]
  | .cons v rest, st, h => by
    rw [encElems]
    have hbegin : marshal_enc_bin.encode_array_element_begin st =
        { st with m_stack :=
          ⟨.ARRAY_ELEMENT, st.m_pos, false⟩ :: st.m_stack } := by
      simp [marshal_enc_bin.encode_array_element_begin,
        marshal_enc_bin.get_curr_pos]
    rw [hbegin, encVal_spec v _ (by simpa using h)]
    rw [show marshal_enc_bin.encode_array_element_end
        ⟨st.m_output ++ encBytes v, st.m_pos + (encBytes v).length,
          ⟨.ARRAY_ELEMENT, st.m_pos, false⟩ :: st.m_stack⟩ =
        ⟨st.m_output ++ encBytes v, st.m_pos + (encBytes v).length,
          st.m_stack⟩ from by
      simp [marshal_enc_bin.encode_array_element_end]]
    rw [encElems_spec rest _ (by simp [h])]
    simp [encElemsBytes, List.append_assoc]
    omega

theorem encDict_spec : ∀ (es : MDict) (st : marshal_enc_bin),
    st.m_pos = st.m_output.length →
    encDict es st =
      ⟨st.m_output ++ encDictBytes es,
        st.m_pos + (encDictBytes es).length, st.m_stack⟩
  | .nil, st, h => by
    simp [encDict, encDictBytes]
  | .cons key v rest, st, h => by
    rw [encDict]
    have hbegin : marshal_enc_bin.encode_dictionary_element_begin key st =
        ⟨st.m_output ++ (natLE 4 key.length ++ key), st.m_pos + 4 + key.length,
          ⟨.DICTIONARY_ELEMENT, st.m_pos, false⟩ :: st.m_stack⟩ := by
      rw [marshal_enc_bin.encode_dictionary_element_begin,
        marshal_enc_bin.encode_string_utf8]
      rw [show marshal_enc_bin.encode_u32 key.length
          { st with m_stack :=
            ⟨.DICTIONARY_ELEMENT, marshal_enc_bin.get_curr_pos st, false⟩ ::
              st.m_stack } =
          ⟨st.m_output ++ natLE 4 key.length, st.m_pos + 4,
            ⟨.DICTIONARY_ELEMENT, st.m_pos, false⟩ :: st.m_stack⟩ from by
        rw [marshal_enc_bin.encode_u32,
          write_bytes_at_end _ _ (by simpa using h), natLE_length]
        simp [marshal_enc_bin.get_curr_pos]]
      rw [write_bytes_at_end _ _ (by simp [h, natLE_length])]
      simp [natLE_length, List.append_assoc]
    rw [hbegin, encVal_spec v _ (by simp [h, natLE_length]; omega)]
    rw [show marshal_enc_bin.encode_dictionary_element_end
        ⟨st.m_output ++ (natLE 4 key.length ++ key) ++ encBytes v,
          st.m_pos + 4 + key.length + (encBytes v).length,
          ⟨.DICTIONARY_ELEMENT, st.m_pos, false⟩ :: st.m_stack⟩ =
        ⟨st.m_output ++ (natLE 4 key.length ++ key) ++ encBytes v,
          st.m_pos + 4 + key.length + (encBytes v).length, st.m_stack⟩
        from by
      simp [marshal_enc_bin.encode_dictionary_element_end]]
    rw [encDict_spec rest _ (by simp [h, natLE_length]; omega)]
    simp [encDictBytes, natLE_length, List.append_assoc]
    omega

end

/-! ## Decoder lemmas: terminal reads -/

theorem read_bytes_at (pre bs post : List Nat)
    (stk : List dec_stack_element) (n : Nat) (hn : bs.length = n) :
    marshal_dec_bin.read_bytes n ⟨pre ++ bs ++ post, pre.length, stk⟩ =
      some (bs, ⟨pre ++ bs ++ post, pre.length + n, stk⟩) := by
  unfold marshal_dec_bin.read_bytes
  rw [if_pos (by simp; omega)]
  rw [List.append_assoc, List.drop_left, List.take_left' hn,
    ← List.append_assoc]

theorem skip_bytes_at (input : List Nat) (off n : Nat)
    (stk : List dec_stack_element) (h : off + n ≤ input.length) :
    marshal_dec_bin.skip_bytes n ⟨input, off, stk⟩ =
      some ⟨input, off + n, stk⟩ := by
  unfold marshal_dec_bin.skip_bytes
  rw [if_pos h]

theorem decode_bool_at (pre post : List Nat) (stk : List dec_stack_element)
    (b : Nat) :
    marshal_dec_bin.decode_bool ⟨pre ++ [b] ++ post, pre.length, stk⟩ =
      some (decide (b ≠ 0), ⟨pre ++ [b] ++ post, pre.length + 1, stk⟩) := by
  unfold marshal_dec_bin.decode_bool
  rw [read_bytes_at pre [b] post stk 1 rfl]
  simp

theorem decode_u8_at (pre post : List Nat) (stk : List dec_stack_element)
    (n : Nat) :
    marshal_dec_bin.decode_u8 ⟨pre ++ natLE 1 n ++ post, pre.length, stk⟩ =
      some (n % 2 ^ 8,
        ⟨pre ++ natLE 1 n ++ post, pre.length + 1, stk⟩) := by
  unfold marshal_dec_bin.decode_u8
  rw [read_bytes_at pre _ post stk 1 (natLE_length 1 n)]
  simp [leToNat_natLE, pow256_eq]

theorem decode_u16_at (pre post : List Nat) (stk : List dec_stack_element)
    (n : Nat) :
    marshal_dec_bin.decode_u16 ⟨pre ++ natLE 2 n ++ post, pre.length, stk⟩ =
      some (n % 2 ^ 16,
        ⟨pre ++ natLE 2 n ++ post, pre.length + 2, stk⟩) := by
  unfold marshal_dec_bin.decode_u16
  rw [read_bytes_at pre _ post stk 2 (natLE_length 2 n)]
  simp [leToNat_natLE, pow256_eq]

theorem decode_u32_at (pre post : List Nat) (stk : List dec_stack_element)
    (n : Nat) :
    marshal_dec_bin.decode_u32 ⟨pre ++ natLE 4 n ++ post, pre.length, stk⟩ =
      some (n % 2 ^ 32,
        ⟨pre ++ natLE 4 n ++ post, pre.length + 4, stk⟩) := by
  unfold marshal_dec_bin.decode_u32
  rw [read_bytes_at pre _ post stk 4 (natLE_length 4 n)]
  simp [leToNat_natLE, pow256_eq]

theorem decode_u64_at (pre post : List Nat) (stk : List dec_stack_element)
    (n : Nat) :
    marshal_dec_bin.decode_u64 ⟨pre ++ natLE 8 n ++ post, pre.length, stk⟩ =
      some (n % 2 ^ 64,
        ⟨pre ++ natLE 8 n ++ post, pre.length + 8, stk⟩) := by
  unfold marshal_dec_bin.decode_u64
  rw [read_bytes_at pre _ post stk 8 (natLE_length 8 n)]
  simp [leToNat_natLE, pow256_eq]

theorem decode_f64_at (pre post : List Nat) (stk : List dec_stack_element)
    (n : Nat) :
    marshal_dec_bin.decode_f64 ⟨pre ++ natLE 8 n ++ post, pre.length, stk⟩ =
      some (n % 2 ^ 64,
        ⟨pre ++ natLE 8 n ++ post, pre.length + 8, stk⟩) := by
  unfold marshal_dec_bin.decode_f64
  rw [read_bytes_at pre _ post stk 8 (natLE_length 8 n)]
  simp [leToNat_natLE, pow256_eq]

theorem decode_i8_at (pre post : List Nat) (stk : List dec_stack_element)
    (v : Int) (h1 : -(2 ^ 7) ≤ v) (h2 : v < 2 ^ 7) :
    marshal_dec_bin.decode_i8
      ⟨pre ++ natLE 1 (ofSigned 1 v) ++ post, pre.length, stk⟩ =
      some (v, ⟨pre ++ natLE 1 (ofSigned 1 v) ++ post,
        pre.length + 1, stk⟩) := by
  unfold marshal_dec_bin.decode_i8
  rw [read_bytes_at pre _ post stk 1 (natLE_length 1 _)]
  simp [leToNat_natLE_of_lt 1 _ (ofSigned_lt256 1 v),
    toSigned_ofSigned1 v h1 h2]

theorem decode_i16_at (pre post : List Nat) (stk : List dec_stack_element)
    (v : Int) (h1 : -(2 ^ 15) ≤ v) (h2 : v < 2 ^ 15) :
    marshal_dec_bin.decode_i16
      ⟨pre ++ natLE 2 (ofSigned 2 v) ++ post, pre.length, stk⟩ =
      some (v, ⟨pre ++ natLE 2 (ofSigned 2 v) ++ post,
        pre.length + 2, stk⟩) := by
  unfold marshal_dec_bin.decode_i16
  rw [read_bytes_at pre _ post stk 2 (natLE_length 2 _)]
  simp [leToNat_natLE_of_lt 2 _ (ofSigned_lt256 2 v),
    toSigned_ofSigned2 v h1 h2]

theorem decode_i32_at (pre post : List Nat) (stk : List dec_stack_element)
    (v : Int) (h1 : -(2 ^ 31) ≤ v) (h2 : v < 2 ^ 31) :
    marshal_dec_bin.decode_i32
      ⟨pre ++ natLE 4 (ofSigned 4 v) ++ post, pre.length, stk⟩ =
      some (v, ⟨pre ++ natLE 4 (ofSigned 4 v) ++ post,
        pre.length + 4, stk⟩) := by
  unfold marshal_dec_bin.decode_i32
  rw [read_bytes_at pre _ post stk 4 (natLE_length 4 _)]
  simp [leToNat_natLE_of_lt 4 _ (ofSigned_lt256 4 v),
    toSigned_ofSigned4 v h1 h2]

theorem decode_i64_at (pre post : List Nat) (stk : List dec_stack_element)
    (v : Int) (h1 : -(2 ^ 63) ≤ v) (h2 : v < 2 ^ 63) :
    marshal_dec_bin.decode_i64
      ⟨pre ++ natLE 8 (ofSigned 8 v) ++ post, pre.length, stk⟩ =
      some (v, ⟨pre ++ natLE 8 (ofSigned 8 v) ++ post,
        pre.length + 8, stk⟩) := by
  unfold marshal_dec_bin.decode_i64
  rw [read_bytes_at pre _ post stk 8 (natLE_length 8 _)]
  simp [leToNat_natLE_of_lt 8 _ (ofSigned_lt256 8 v),
    toSigned_ofSigned8 v h1 h2]

theorem decode_string_utf8_at (pre post : List Nat)
    (stk : List dec_stack_element) (s : List Nat) (h : s.length < 2 ^ 32) :
    marshal_dec_bin.decode_string_utf8
      ⟨pre ++ (natLE 4 s.length ++ s) ++ post, pre.length, stk⟩ =
      some (s, ⟨pre ++ (natLE 4 s.length ++ s) ++ post,
        pre.length + (4 + s.length), stk⟩) := by
  unfold marshal_dec_bin.decode_string_utf8
  have hra : pre ++ (natLE 4 s.length ++ s) ++ post =
      pre ++ natLE 4 s.length ++ (s ++ post) := by
    simp [List.append_assoc]
  rw [hra, decode_u32_at pre (s ++ post) stk s.length,
    Nat.mod_eq_of_lt h]
  have hpre : pre.length + 4 = (pre ++ natLE 4 s.length).length := by
    simp [natLE_length]
  rw [hpre, show pre ++ natLE 4 s.length ++ (s ++ post) =
    (pre ++ natLE 4 s.length) ++ s ++ post from by simp [List.append_assoc]]
  show marshal_dec_bin.read_bytes s.length
      ⟨(pre ++ natLE 4 s.length) ++ s ++ post,
        (pre ++ natLE 4 s.length).length, stk⟩ = _
  rw [read_bytes_at (pre ++ natLE 4 s.length) s post stk s.length rfl]
  simp [natLE_length, List.append_assoc]
  omega

theorem decode_varsize_binary_at (pre post : List Nat)
    (stk : List dec_stack_element) (s : List Nat) (h : s.length < 2 ^ 32) :
    marshal_dec_bin.internal_decode_varsize_binary
      ⟨pre ++ (natLE 4 s.length ++ s) ++ post, pre.length, stk⟩ =
      some (s, ⟨pre ++ (natLE 4 s.length ++ s) ++ post,
        pre.length + (4 + s.length), stk⟩) := by
  unfold marshal_dec_bin.internal_decode_varsize_binary
  have hra : pre ++ (natLE 4 s.length ++ s) ++ post =
      pre ++ natLE 4 s.length ++ (s ++ post) := by
    simp [List.append_assoc]
  rw [hra, decode_u32_at pre (s ++ post) stk s.length,
    Nat.mod_eq_of_lt h]
  have hpre : pre.length + 4 = (pre ++ natLE 4 s.length).length := by
    simp [natLE_length]
  rw [hpre, show pre ++ natLE 4 s.length ++ (s ++ post) =
    (pre ++ natLE 4 s.length) ++ s ++ post from by simp [List.append_assoc]]
  show marshal_dec_bin.read_bytes s.length
      ⟨(pre ++ natLE 4 s.length) ++ s ++ post,
        (pre ++ natLE 4 s.length).length, stk⟩ = _
  rw [read_bytes_at (pre ++ natLE 4 s.length) s post stk s.length rfl]
  simp [natLE_length, List.append_assoc]
  omega

theorem count_utf8_ascii (c : Nat) (h : c < 0x80) :
    count_utf8_following_chars c = 0 := by
  have h1 : c &&& 0xE0 ≤ c := Nat.and_le_left
  have h2 : c &&& 0xF0 ≤ c := Nat.and_le_left
  have h3 : c &&& 0xF8 ≤ c := Nat.and_le_left
  unfold count_utf8_following_chars
  rw [if_neg (by simp only [beq_iff_eq]; omega),
    if_neg (by simp only [beq_iff_eq]; omega),
    if_neg (by simp only [beq_iff_eq]; omega)]

theorem utf8Bytes_ascii (cs : List Nat) (h : cs.all (· < 0x80)) :
    utf8Bytes cs = cs := by
  induction cs with
  | nil => rfl
  | cons c rest ih =>
    simp only [List.all_cons, Bool.and_eq_true, decide_eq_true_eq] at h
    simp only [utf8Bytes, write_utf8_asciiz, if_pos h.1]
    rw [ih h.2]
    rfl

theorem calc_utf8_length_ascii (cs : List Nat) (h : cs.all (· < 0x80)) :
    calc_utf8_length cs = cs.length := by
  induction cs with
  | nil => rfl
  | cons c rest ih =>
    simp only [List.all_cons, Bool.and_eq_true, decide_eq_true_eq] at h
    simp only [calc_utf8_length, write_utf8_asciiz, if_pos h.1]
    rw [ih h.2]
    simp
    omega

theorem decode_u32string_loop_ascii (cs : List Nat) :
    ∀ (pre post acc : List Nat) (stk : List dec_stack_element) (n i : Nat),
    cs.all (· < 0x80) = true → i + cs.length = n →
    marshal_dec_bin.decode_u32string_loop n i acc
      ⟨pre ++ cs ++ post, pre.length, stk⟩ =
      some (acc ++ cs, ⟨pre ++ cs ++ post, pre.length + cs.length, stk⟩) := by
  induction cs with
  | nil =>
    intro pre post acc stk n i _h hn
    unfold marshal_dec_bin.decode_u32string_loop
    rw [dif_neg (by simp at hn; omega)]
    simp
  | cons c rest ih =>
    intro pre post acc stk n i h hn
    simp only [List.all_cons, Bool.and_eq_true, decide_eq_true_eq] at h
    unfold marshal_dec_bin.decode_u32string_loop
    rw [dif_pos (by simp at hn ⊢; omega)]
    rw [show pre ++ (c :: rest) ++ post = pre ++ [c] ++ (rest ++ post) from
      by simp]
    rw [read_bytes_at pre [c] (rest ++ post) stk 1 rfl]
    simp only [List.headD_cons, count_utf8_ascii c h.1, dif_pos rfl]
    have hpre : pre.length + 1 = (pre ++ [c]).length := by simp
    rw [hpre, show pre ++ [c] ++ (rest ++ post) =
      (pre ++ [c]) ++ rest ++ post from by simp]
    rw [ih (pre ++ [c]) post (acc ++ [c]) stk n (i + 1)
      (by simp [h.2]) (by simp at hn ⊢; omega)]
    simp [List.append_assoc]
    omega

theorem decode_u32string_ascii (pre post : List Nat)
    (stk : List dec_stack_element) (cs : List Nat)
    (hlt : cs.length < 2 ^ 32) (h : cs.all (· < 0x80) = true) :
    marshal_dec_bin.decode_u32string
      ⟨pre ++ (natLE 4 (calc_utf8_length cs) ++ utf8Bytes cs) ++ post,
        pre.length, stk⟩ =
      some (cs, ⟨pre ++ (natLE 4 (calc_utf8_length cs) ++ utf8Bytes cs) ++
        post, pre.length + (4 + cs.length), stk⟩) := by
  unfold marshal_dec_bin.decode_u32string
  rw [utf8Bytes_ascii cs h, calc_utf8_length_ascii cs h]
  have hra : pre ++ (natLE 4 cs.length ++ cs) ++ post =
      pre ++ natLE 4 cs.length ++ (cs ++ post) := by
    simp [List.append_assoc]
  rw [hra, decode_u32_at pre (cs ++ post) stk cs.length,
    Nat.mod_eq_of_lt hlt]
  have hpre : pre.length + 4 = (pre ++ natLE 4 cs.length).length := by
    simp [natLE_length]
  rw [hpre, show pre ++ natLE 4 cs.length ++ (cs ++ post) =
    (pre ++ natLE 4 cs.length) ++ cs ++ post from by simp [List.append_assoc]]
  show marshal_dec_bin.decode_u32string_loop cs.length 0 []
      ⟨(pre ++ natLE 4 cs.length) ++ cs ++ post,
        (pre ++ natLE 4 cs.length).length, stk⟩ = _
  rw [decode_u32string_loop_ascii cs (pre ++ natLE 4 cs.length) post []
    stk cs.length 0 h (by omega)]
  simp [natLE_length, List.append_assoc]
  omega

/-! ## Decoder lemmas: labels and frames -/

theorem label_info_to_id_calc (label : Nat) (opt : Bool) (h : label < 2 ^ 32) :
    marshal_label_info_to_id (marshal_label_info_calc label opt) = label := by
  unfold marshal_label_info_to_id marshal_label_info_calc
  cases opt with
  | false =>
    rw [if_neg (by simp)]
    omega
  | true =>
    rw [if_pos rfl]
    omega

theorem label_info_is_optional_calc (label : Nat) (opt : Bool) :
    marshal_label_info_is_optional (marshal_label_info_calc label opt) =
      opt := by
  unfold marshal_label_info_is_optional marshal_label_info_calc
  have hm : label % 2 ^ 32 < 2 ^ 32 := Nat.mod_lt label (by norm_num)
  cases opt with
  | false =>
    have h0 : (0 + label % 2 ^ 32) / 2 ^ 32 = 0 := by omega
    simp [h0]
  | true =>
    have h1 : (2 ^ 32 + label % 2 ^ 32) / 2 ^ 32 = 1 := by omega
    simp [h1]

theorem getElem?_append_len (l1 l2 : List Nat) (x : Nat) :
    (l1 ++ x :: l2)[l1.length]? = some x := by
  rw [List.getElem?_append_right (le_refl l1.length), Nat.sub_self]
  exact List.getElem?_cons_zero

theorem fieldsFitAt_shift : ∀ (fs : MFields) (a e s : Nat),
    fieldsFitAt e s fs = true → fieldsFitAt (a + e) (a + s) fs = true
  | .nil, a, e, s, _h => rfl
  | .cons label c rest, a, e, s, h => by
    simp only [fieldsFitAt, Bool.and_eq_true, decide_eq_true_eq] at h ⊢
    refine ⟨by omega, ?_⟩
    have := fieldsFitAt_shift rest a e (s + (encFieldBytes c).length) h.2
    rw [show a + s + (encFieldBytes c).length =
      a + (s + (encFieldBytes c).length) from by omega]
    exact this

theorem fieldsFitAt_of_room : ∀ (fs : MFields) (e s : Nat),
    s + (encFieldsBytes fs).length < e → fieldsFitAt e s fs = true
  | .nil, e, s, _h => rfl
  | .cons label c rest, e, s, h => by
    simp only [encFieldsBytes, List.length_append] at h
    simp only [fieldsFitAt, Bool.and_eq_true, decide_eq_true_eq]
    exact ⟨by omega,
      fieldsFitAt_of_room rest e (s + (encFieldBytes c).length) (by omega)⟩

theorem field_begin_sentinel (inp : List Nat) (off : Nat)
    (fr : dec_stack_element) (stk : List dec_stack_element)
    (hty : fr.m_element_type = .STRUCT)
    (hcnt : fr.m_field_pos ≥ fr.m_fields_count) :
    marshal_dec_bin.decode_struct_field_begin ⟨inp, off, fr :: stk⟩ =
      some (marshal_label_id_INVALID, true, ⟨inp, off, fr :: stk⟩) := by
  unfold marshal_dec_bin.decode_struct_field_begin
  simp [hty, hcnt]

theorem struct_end_exact (inp : List Nat) (off : Nat)
    (fr : dec_stack_element) (stk : List dec_stack_element)
    (hty : fr.m_element_type = .STRUCT)
    (hend : fr.m_extensible = true → fr.m_end_offset = off) :
    marshal_dec_bin.decode_struct_end ⟨inp, off, fr :: stk⟩ =
      some ⟨inp, off, stk⟩ := by
  unfold marshal_dec_bin.decode_struct_end
  cases hext : fr.m_extensible with
  | false => simp [hty, hext]
  | true =>
    have := hend hext
    simp [hty, hext, this]

theorem struct_end_skip (inp : List Nat) (off : Nat)
    (fr : dec_stack_element) (stk : List dec_stack_element)
    (hty : fr.m_element_type = .STRUCT)
    (hext : fr.m_extensible = true)
    (hlt : off < fr.m_end_offset)
    (hle : fr.m_end_offset ≤ inp.length) :
    marshal_dec_bin.decode_struct_end ⟨inp, off, fr :: stk⟩ =
      some ⟨inp, fr.m_end_offset, stk⟩ := by
  unfold marshal_dec_bin.decode_struct_end
  simp only [hty, hext, ne_eq, reduceCtorEq, not_false_eq_true, if_true,
    if_pos hlt, if_false, ite_false, ite_true]
  rw [skip_bytes_at inp off (fr.m_end_offset - off) (fr :: stk) (by omega)]
  have h2 : off + (fr.m_end_offset - off) = fr.m_end_offset := by omega
  simp [h2]

theorem element_begin_done (inp : List Nat) (off : Nat)
    (fr : dec_stack_element) (stk : List dec_stack_element)
    (hty : fr.m_element_type = .ARRAY)
    (hcnt : fr.m_field_pos ≥ fr.m_fields_count) :
    marshal_dec_bin.decode_array_element_begin ⟨inp, off, fr :: stk⟩ =
      some (false, ⟨inp, off, fr :: stk⟩) := by
  unfold marshal_dec_bin.decode_array_element_begin
  simp [hty, hcnt]

theorem dict_element_begin_done (inp : List Nat) (off : Nat)
    (fr : dec_stack_element) (stk : List dec_stack_element)
    (hty : fr.m_element_type = .DICTIONARY)
    (hcnt : fr.m_field_pos ≥ fr.m_fields_count) :
    marshal_dec_bin.decode_dictionary_element_begin ⟨inp, off, fr :: stk⟩ =
      some (false, [], ⟨inp, off, fr :: stk⟩) := by
  unfold marshal_dec_bin.decode_dictionary_element_begin
  simp [hty, hcnt]

/-! ## Decoder lemmas: begin, element and end steps at canonical states -/

theorem struct_begin_at (inp : List Nat) (off : Nat) (infos : List Nat)
    (cnt : Nat) (stk : List dec_stack_element)
    (hstk : marshal_dec_bin.stack_allows_begin stk = true) :
    marshal_dec_bin.decode_struct_begin false infos cnt ⟨inp, off, stk⟩ =
      some ⟨inp, off,
        (⟨.STRUCT, false, off, infos, cnt, 0⟩ : dec_stack_element) ::
          stk⟩ := by
  unfold marshal_dec_bin.decode_struct_begin marshal_dec_bin.top_allows_begin
  simp [hstk]

theorem struct_begin_ext_at (pre post : List Nat) (infos : List Nat)
    (cnt L : Nat) (stk : List dec_stack_element)
    (hstk : marshal_dec_bin.stack_allows_begin stk = true)
    (hL : L < 2 ^ 32) :
    marshal_dec_bin.decode_struct_begin true infos cnt
      ⟨pre ++ natLE 4 L ++ post, pre.length, stk⟩ =
      some ⟨pre ++ natLE 4 L ++ post, pre.length + 4,
        (⟨.STRUCT, true, pre.length + 4 + L, infos, cnt, 0⟩ :
          dec_stack_element) :: stk⟩ := by
  unfold marshal_dec_bin.decode_struct_begin marshal_dec_bin.top_allows_begin
    marshal_dec_bin.decode_size_indicator
  rw [decode_u32_at pre post stk L]
  simp [hstk, Nat.mod_eq_of_lt hL]
  omega

theorem array_begin_at (pre post : List Nat) (n : Nat)
    (stk : List dec_stack_element)
    (hstk : marshal_dec_bin.stack_allows_begin stk = true)
    (hn : n < 2 ^ 32) :
    marshal_dec_bin.decode_array_begin
      ⟨pre ++ natLE 4 n ++ post, pre.length, stk⟩ =
      some (0, ⟨pre ++ natLE 4 n ++ post, pre.length + 4,
        (⟨.ARRAY, false, 0, [], n, 0⟩ : dec_stack_element) :: stk⟩) := by
  unfold marshal_dec_bin.decode_array_begin marshal_dec_bin.top_allows_begin
    marshal_dec_bin.decode_size_indicator
  rw [decode_u32_at pre post stk n]
  simp [hstk, Nat.mod_eq_of_lt hn]
  omega

theorem dict_begin_at (pre post : List Nat) (n : Nat)
    (stk : List dec_stack_element)
    (hstk : marshal_dec_bin.stack_allows_begin stk = true)
    (hn : n < 2 ^ 32) :
    marshal_dec_bin.decode_dictionary_begin
      ⟨pre ++ natLE 4 n ++ post, pre.length, stk⟩ =
      some (0, ⟨pre ++ natLE 4 n ++ post, pre.length + 4,
        (⟨.DICTIONARY, false, 0, [], n, 0⟩ : dec_stack_element) ::
          stk⟩) := by
  unfold marshal_dec_bin.decode_dictionary_begin
    marshal_dec_bin.top_allows_begin marshal_dec_bin.decode_size_indicator
  rw [decode_u32_at pre post stk n]
  simp [hstk, Nat.mod_eq_of_lt hn]
  omega

theorem typed_begin_at (pre post : List Nat) (label : Nat)
    (stk : List dec_stack_element)
    (hstk : marshal_dec_bin.stack_allows_begin stk = true)
    (hlab : label < 2 ^ 32) :
    marshal_dec_bin.decode_typed_begin false
      ⟨pre ++ natLE 4 label ++ post, pre.length, stk⟩ =
      some (label, ⟨pre ++ natLE 4 label ++ post, pre.length + 4,
        (⟨.TYPED, false, pre.length + 4, [], 0, 0⟩ : dec_stack_element) ::
          stk⟩) := by
  unfold marshal_dec_bin.decode_typed_begin marshal_dec_bin.top_allows_begin
  rw [decode_u32_at pre post stk label]
  simp [hstk, Nat.mod_eq_of_lt hlab]
  omega

theorem typed_begin_ext_at (pre post : List Nat) (label clen : Nat)
    (stk : List dec_stack_element)
    (hstk : marshal_dec_bin.stack_allows_begin stk = true)
    (hlab : label < 2 ^ 32) (hclen : clen < 2 ^ 32) :
    marshal_dec_bin.decode_typed_begin true
      ⟨pre ++ (natLE 4 label ++ natLE 4 clen) ++ post, pre.length, stk⟩ =
      some (label, ⟨pre ++ (natLE 4 label ++ natLE 4 clen) ++ post,
        pre.length + 8,
        (⟨.TYPED, true, pre.length + 8 + clen, [], 0, 0⟩ :
          dec_stack_element) :: stk⟩) := by
  unfold marshal_dec_bin.decode_typed_begin marshal_dec_bin.top_allows_begin
    marshal_dec_bin.decode_size_indicator
  rw [show pre ++ (natLE 4 label ++ natLE 4 clen) ++ post =
    pre ++ natLE 4 label ++ (natLE 4 clen ++ post) from by simp]
  rw [decode_u32_at pre (natLE 4 clen ++ post) stk label]
  simp only [hstk, Bool.not_true, Bool.false_eq_true, if_false, ite_false,
    Nat.mod_eq_of_lt hlab]
  rw [show pre.length + 4 = (pre ++ natLE 4 label).length from by
    simp [natLE_length]]
  rw [show pre ++ natLE 4 label ++ (natLE 4 clen ++ post) =
    (pre ++ natLE 4 label) ++ natLE 4 clen ++ post from by simp]
  rw [decode_u32_at (pre ++ natLE 4 label) post stk clen]
  simp [Nat.mod_eq_of_lt hclen, natLE_length]
  omega

theorem field_begin_mandatory (inp : List Nat) (off : Nat)
    (fr : dec_stack_element) (stk : List dec_stack_element) (label : Nat)
    (hty : fr.m_element_type = .STRUCT)
    (hcnt : fr.m_field_pos < fr.m_fields_count)
    (hne : fr.m_extensible = true → off < fr.m_end_offset)
    (hinfo : fr.m_field_infos[fr.m_field_pos]? =
      some (marshal_label_info_calc label false))
    (hlab : label < 2 ^ 32) :
    marshal_dec_bin.decode_struct_field_begin ⟨inp, off, fr :: stk⟩ =
      some (label, true, ⟨inp, off,
        (⟨.FIELD, false, 0, [], 0, 0⟩ : dec_stack_element) ::
          { fr with m_field_pos := fr.m_field_pos + 1 } :: stk⟩) := by
  unfold marshal_dec_bin.decode_struct_field_begin
  have h1 : ¬ (fr.m_field_pos ≥ fr.m_fields_count) := by omega
  have h2 : ¬ (fr.m_extensible = true ∧ fr.m_end_offset = off) := by
    rintro ⟨hE, hEq⟩
    have := hne hE
    omega
  have h3 : ¬ (fr.m_extensible = true ∧ fr.m_end_offset < off) := by
    rintro ⟨hE, hLt⟩
    have := hne hE
    omega
  simp [hty, h1, h2, h3, hinfo, label_info_is_optional_calc,
    label_info_to_id_calc label false hlab]

theorem field_begin_optional (pre post : List Nat) (b : Nat)
    (fr : dec_stack_element) (stk : List dec_stack_element) (label : Nat)
    (hty : fr.m_element_type = .STRUCT)
    (hcnt : fr.m_field_pos < fr.m_fields_count)
    (hne : fr.m_extensible = true → pre.length < fr.m_end_offset)
    (hinfo : fr.m_field_infos[fr.m_field_pos]? =
      some (marshal_label_info_calc label true))
    (hlab : label < 2 ^ 32) :
    marshal_dec_bin.decode_struct_field_begin
      ⟨pre ++ [b] ++ post, pre.length, fr :: stk⟩ =
      some (label, decide (b ≠ 0), ⟨pre ++ [b] ++ post, pre.length + 1,
        (⟨.FIELD, false, 0, [], 0, 0⟩ : dec_stack_element) ::
          { fr with m_field_pos := fr.m_field_pos + 1 } :: stk⟩) := by
  unfold marshal_dec_bin.decode_struct_field_begin
  have h1 : ¬ (fr.m_field_pos ≥ fr.m_fields_count) := by omega
  have h2 : ¬ (fr.m_extensible = true ∧ fr.m_end_offset = pre.length) := by
    rintro ⟨hE, hEq⟩
    have := hne hE
    omega
  have h3 : ¬ (fr.m_extensible = true ∧ fr.m_end_offset < pre.length) := by
    rintro ⟨hE, hLt⟩
    have := hne hE
    omega
  have hb : marshal_dec_bin.decode_bool
      ⟨pre ++ b :: post, pre.length,
        (⟨.FIELD, false, 0, [], 0, 0⟩ : dec_stack_element) ::
          (⟨.STRUCT, fr.m_extensible, fr.m_end_offset, fr.m_field_infos,
            fr.m_fields_count, fr.m_field_pos + 1⟩ : dec_stack_element) ::
            stk⟩ =
      some (!decide (b = 0), ⟨pre ++ b :: post, pre.length + 1,
        (⟨.FIELD, false, 0, [], 0, 0⟩ : dec_stack_element) ::
          (⟨.STRUCT, fr.m_extensible, fr.m_end_offset, fr.m_field_infos,
            fr.m_fields_count, fr.m_field_pos + 1⟩ : dec_stack_element) ::
            stk⟩) := by
    have hb0 := decode_bool_at pre post
      ((⟨.FIELD, false, 0, [], 0, 0⟩ : dec_stack_element) ::
        { fr with m_field_pos := fr.m_field_pos + 1 } :: stk) b
    simpa [hty] using hb0
  simp [hty, h1, h2, h3, hinfo, label_info_is_optional_calc,
    label_info_to_id_calc label true hlab, hb]

theorem array_element_begin_at (inp : List Nat) (off : Nat)
    (fr : dec_stack_element) (stk : List dec_stack_element)
    (hty : fr.m_element_type = .ARRAY)
    (hcnt : fr.m_field_pos < fr.m_fields_count) :
    marshal_dec_bin.decode_array_element_begin ⟨inp, off, fr :: stk⟩ =
      some (true, ⟨inp, off,
        (⟨.ARRAY_ELEMENT, false, 0, [], 0, 0⟩ : dec_stack_element) ::
          { fr with m_field_pos := fr.m_field_pos + 1 } :: stk⟩) := by
  unfold marshal_dec_bin.decode_array_element_begin
  have h1 : ¬ (fr.m_field_pos ≥ fr.m_fields_count) := by omega
  simp [hty, h1]

theorem dict_element_begin_at (pre post key : List Nat)
    (fr : dec_stack_element) (stk : List dec_stack_element)
    (hty : fr.m_element_type = .DICTIONARY)
    (hcnt : fr.m_field_pos < fr.m_fields_count)
    (hklen : key.length < 2 ^ 32) :
    marshal_dec_bin.decode_dictionary_element_begin
      ⟨pre ++ (natLE 4 key.length ++ key) ++ post, pre.length, fr :: stk⟩ =
      some (true, key, ⟨pre ++ (natLE 4 key.length ++ key) ++ post,
        pre.length + (4 + key.length),
        (⟨.DICTIONARY_ELEMENT, false, 0, [], 0, 0⟩ : dec_stack_element) ::
          { fr with m_field_pos := fr.m_field_pos + 1 } :: stk⟩) := by
  unfold marshal_dec_bin.decode_dictionary_element_begin
  have h1 : ¬ (fr.m_field_pos ≥ fr.m_fields_count) := by omega
  have hk : marshal_dec_bin.decode_string_utf8
      ⟨pre ++ (natLE 4 key.length ++ (key ++ post)), pre.length,
        (⟨.DICTIONARY, fr.m_extensible, fr.m_end_offset, fr.m_field_infos,
          fr.m_fields_count, fr.m_field_pos + 1⟩ : dec_stack_element) ::
          stk⟩ =
      some (key, ⟨pre ++ (natLE 4 key.length ++ (key ++ post)),
        pre.length + (4 + key.length),
        (⟨.DICTIONARY, fr.m_extensible, fr.m_end_offset, fr.m_field_infos,
          fr.m_fields_count, fr.m_field_pos + 1⟩ : dec_stack_element) ::
          stk⟩) := by
    have hk0 := decode_string_utf8_at pre post
      ({ fr with m_field_pos := fr.m_field_pos + 1 } :: stk) key hklen
    simpa [hty] using hk0
  simp [hty, h1, hk]

theorem field_end_pop (inp : List Nat) (off : Nat)
    (stk : List dec_stack_element) :
    marshal_dec_bin.decode_struct_field_end
      ⟨inp, off, (⟨.FIELD, false, 0, [], 0, 0⟩ : dec_stack_element) ::
        stk⟩ = some ⟨inp, off, stk⟩ := by
  unfold marshal_dec_bin.decode_struct_field_end
  simp

theorem array_element_end_pop (inp : List Nat) (off : Nat)
    (stk : List dec_stack_element) :
    marshal_dec_bin.decode_array_element_end
      ⟨inp, off,
        (⟨.ARRAY_ELEMENT, false, 0, [], 0, 0⟩ : dec_stack_element) ::
          stk⟩ = some ⟨inp, off, stk⟩ := by
  unfold marshal_dec_bin.decode_array_element_end
  simp

theorem dict_element_end_pop (inp : List Nat) (off : Nat)
    (stk : List dec_stack_element) :
    marshal_dec_bin.decode_dictionary_element_end
      ⟨inp, off,
        (⟨.DICTIONARY_ELEMENT, false, 0, [], 0, 0⟩ : dec_stack_element) ::
          stk⟩ = some ⟨inp, off, stk⟩ := by
  unfold marshal_dec_bin.decode_dictionary_element_end
  simp

theorem array_end_pop (inp : List Nat) (off : Nat)
    (fr : dec_stack_element) (stk : List dec_stack_element)
    (hty : fr.m_element_type = .ARRAY)
    (hcnt : fr.m_field_pos = fr.m_fields_count) :
    marshal_dec_bin.decode_array_end ⟨inp, off, fr :: stk⟩ =
      some ⟨inp, off, stk⟩ := by
  unfold marshal_dec_bin.decode_array_end
  simp [hty, hcnt]

theorem dict_end_pop (inp : List Nat) (off : Nat)
    (fr : dec_stack_element) (stk : List dec_stack_element)
    (hty : fr.m_element_type = .DICTIONARY)
    (hcnt : fr.m_field_pos = fr.m_fields_count) :
    marshal_dec_bin.decode_dictionary_end ⟨inp, off, fr :: stk⟩ =
      some ⟨inp, off, stk⟩ := by
  unfold marshal_dec_bin.decode_dictionary_end
  simp [hty, hcnt]

theorem typed_end_exact (inp : List Nat) (off : Nat)
    (fr : dec_stack_element) (stk : List dec_stack_element)
    (hty : fr.m_element_type = .TYPED)
    (hend : fr.m_extensible = true → fr.m_end_offset = off) :
    marshal_dec_bin.decode_typed_end ⟨inp, off, fr :: stk⟩ =
      some ⟨inp, off, stk⟩ := by
  unfold marshal_dec_bin.decode_typed_end
  cases hext : fr.m_extensible with
  | false => simp [hty, hext]
  | true => simp [hty, hext, hend hext]

/-! ## Round trip: the decoding drive over the encoded wire

`decLike_enc` is the heart of the non-extensible round-trip property: on a
wire that carries `encBytes v` at the current offset, the decoding drive of
`v`'s shape succeeds and returns `v` itself, leaving the offset right after
those bytes and the stack untouched. -/

mutual

theorem decLike_enc : ∀ (v : MValue) (pre post : List Nat)
    (stk : List dec_stack_element),
    goodVal v = true →
    marshal_dec_bin.stack_allows_begin stk = true →
    decLike v ⟨pre ++ encBytes v ++ post, pre.length, stk⟩ =
      some (v, ⟨pre ++ encBytes v ++ post,
        pre.length + (encBytes v).length, stk⟩)
  | .vbool b, pre, post, stk, _hg, _hstk => by
    rw [decLike]
    cases b with
    | false =>
      rw [show encBytes (MValue.vbool false) = [0] from by simp [encBytes]]
      rw [decode_bool_at pre post stk 0]
      simp
    | true =>
      rw [show encBytes (MValue.vbool true) = [1] from by simp [encBytes]]
      rw [decode_bool_at pre post stk 1]
      simp
  | .vu8 n, pre, post, stk, hg, _hstk => by
    rw [decLike]
    simp only [goodVal, decide_eq_true_eq] at hg
    rw [show encBytes (MValue.vu8 n) = natLE 1 n from by rw [encBytes]]
    rw [decode_u8_at pre post stk n]
    simp [Nat.mod_eq_of_lt hg, natLE_length]
    omega
  | .vi8 n, pre, post, stk, hg, _hstk => by
    rw [decLike]
    simp only [goodVal, decide_eq_true_eq] at hg
    rw [show encBytes (MValue.vi8 n) = natLE 1 (ofSigned 1 n) from by
      rw [encBytes]]
    rw [decode_i8_at pre post stk n hg.1 hg.2]
    simp [natLE_length]
  | .vu16 n, pre, post, stk, hg, _hstk => by
    rw [decLike]
    simp only [goodVal, decide_eq_true_eq] at hg
    rw [show encBytes (MValue.vu16 n) = natLE 2 n from by rw [encBytes]]
    rw [decode_u16_at pre post stk n]
    simp [Nat.mod_eq_of_lt hg, natLE_length]
    omega
  | .vi16 n, pre, post, stk, hg, _hstk => by
    rw [decLike]
    simp only [goodVal, decide_eq_true_eq] at hg
    rw [show encBytes (MValue.vi16 n) = natLE 2 (ofSigned 2 n) from by
      rw [encBytes]]
    rw [decode_i16_at pre post stk n hg.1 hg.2]
    simp [natLE_length]
  | .vu32 n, pre, post, stk, hg, _hstk => by
    rw [decLike]
    simp only [goodVal, decide_eq_true_eq] at hg
    rw [show encBytes (MValue.vu32 n) = natLE 4 n from by rw [encBytes]]
    rw [decode_u32_at pre post stk n]
    simp [Nat.mod_eq_of_lt hg, natLE_length]
    omega
  | .vi32 n, pre, post, stk, hg, _hstk => by
    rw [decLike]
    simp only [goodVal, decide_eq_true_eq] at hg
    rw [show encBytes (MValue.vi32 n) = natLE 4 (ofSigned 4 n) from by
      rw [encBytes]]
    rw [decode_i32_at pre post stk n hg.1 hg.2]
    simp [natLE_length]
  | .vu64 n, pre, post, stk, hg, _hstk => by
    rw [decLike]
    simp only [goodVal, decide_eq_true_eq] at hg
    rw [show encBytes (MValue.vu64 n) = natLE 8 n from by rw [encBytes]]
    rw [decode_u64_at pre post stk n]
    simp [Nat.mod_eq_of_lt hg, natLE_length]
    omega
  | .vi64 n, pre, post, stk, hg, _hstk => by
    rw [decLike]
    simp only [goodVal, decide_eq_true_eq] at hg
    rw [show encBytes (MValue.vi64 n) = natLE 8 (ofSigned 8 n) from by
      rw [encBytes]]
    rw [decode_i64_at pre post stk n hg.1 hg.2]
    simp [natLE_length]
  | .vf64 bits, pre, post, stk, hg, _hstk => by
    rw [decLike]
    simp only [goodVal, decide_eq_true_eq] at hg
    rw [show encBytes (MValue.vf64 bits) = natLE 8 bits from by
      rw [encBytes]]
    rw [decode_f64_at pre post stk bits]
    simp [Nat.mod_eq_of_lt hg, natLE_length]
    omega
  | .vstr s, pre, post, stk, hg, _hstk => by
    rw [decLike]
    simp only [goodVal, Bool.and_eq_true, decide_eq_true_eq] at hg
    rw [show encBytes (MValue.vstr s) = natLE 4 s.length ++ s from by
      rw [encBytes]]
    rw [decode_string_utf8_at pre post stk s hg.1]
    simp [natLE_length]
  | .vu32str cps, pre, post, stk, hg, _hstk => by
    rw [decLike]
    simp only [goodVal, Bool.and_eq_true, decide_eq_true_eq] at hg
    rw [show encBytes (MValue.vu32str cps) =
      natLE 4 (calc_utf8_length cps) ++ utf8Bytes cps from by rw [encBytes]]
    rw [decode_u32string_ascii pre post stk cps hg.1 hg.2]
    simp [natLE_length, utf8Bytes_ascii cps hg.2,
      calc_utf8_length_ascii cps hg.2]
  | .vbin bs, pre, post, stk, _hg, _hstk => by
    rw [decLike]
    rw [show encBytes (MValue.vbin bs) = bs from by rw [encBytes]]
    unfold marshal_dec_bin.internal_decode_binary
    rw [read_bytes_at pre bs post stk bs.length rfl]
    simp
  | .vvarbin bs, pre, post, stk, hg, _hstk => by
    rw [decLike]
    simp only [goodVal, Bool.and_eq_true, decide_eq_true_eq] at hg
    rw [show encBytes (MValue.vvarbin bs) = natLE 4 bs.length ++ bs from by
      rw [encBytes]]
    rw [decode_varsize_binary_at pre post stk bs hg.1]
    simp [natLE_length]
  | .vstruct ext fs, pre, post, stk, hg, hstk => by
    rw [decLike]
    cases ext with
    | false =>
      simp only [goodVal, Bool.not_false, Bool.true_or, Bool.and_true]
        at hg
      rw [show encBytes (MValue.vstruct false fs) = encFieldsBytes fs
        from by simp [encBytes]]
      rw [struct_begin_at (pre ++ encFieldsBytes fs ++ post) pre.length
        (MFields.fieldInfos fs) (MFields.numFields fs) stk hstk]
      have hfields := decFields_enc fs pre post [] []
        ⟨.STRUCT, false, pre.length, MFields.fieldInfos fs,
          MFields.numFields fs, 0⟩ stk hg rfl (by simp) rfl
        (by show 0 + MFields.numFields fs ≤ MFields.numFields fs; omega)
        (fun h => nomatch h)
      simp only [hfields]
      simp only [Nat.zero_add]
      have hsent := field_begin_sentinel (pre ++ encFieldsBytes fs ++ post)
        (pre.length + (encFieldsBytes fs).length)
        ⟨.STRUCT, false, pre.length, MFields.fieldInfos fs,
          MFields.numFields fs, MFields.numFields fs⟩ stk rfl (le_refl _)
      simp only [hsent]
      rw [if_neg (fun h => h rfl)]
      have hend := struct_end_exact (pre ++ encFieldsBytes fs ++ post)
        (pre.length + (encFieldsBytes fs).length)
        ⟨.STRUCT, false, pre.length, MFields.fieldInfos fs,
          MFields.numFields fs, MFields.numFields fs⟩ stk rfl
        (fun h => nomatch h)
      simp only [hend]
    | true =>
      simp only [goodVal, Bool.not_true, Bool.false_or, Bool.and_eq_true,
        decide_eq_true_eq] at hg
      obtain ⟨hgf, hL, hFit0⟩ := hg
      rw [show encBytes (MValue.vstruct true fs) =
        natLE 4 (encFieldsBytes fs).length ++ encFieldsBytes fs from by
        simp [encBytes]]
      rw [show pre ++ (natLE 4 (encFieldsBytes fs).length ++
          encFieldsBytes fs) ++ post =
        pre ++ natLE 4 (encFieldsBytes fs).length ++
          (encFieldsBytes fs ++ post) from by simp]
      rw [struct_begin_ext_at pre (encFieldsBytes fs ++ post)
        (MFields.fieldInfos fs) (MFields.numFields fs)
        (encFieldsBytes fs).length stk hstk hL]
      rw [show pre.length + 4 =
        (pre ++ natLE 4 (encFieldsBytes fs).length).length from by
        simp [natLE_length]]
      rw [show pre ++ natLE 4 (encFieldsBytes fs).length ++
          (encFieldsBytes fs ++ post) =
        (pre ++ natLE 4 (encFieldsBytes fs).length) ++ encFieldsBytes fs ++
          post from by simp]
      have hfields := decFields_enc fs
        (pre ++ natLE 4 (encFieldsBytes fs).length) post [] []
        ⟨.STRUCT, true,
          (pre ++ natLE 4 (encFieldsBytes fs).length).length +
            (encFieldsBytes fs).length,
          MFields.fieldInfos fs, MFields.numFields fs, 0⟩ stk hgf rfl
        (by simp) rfl
        (by show 0 + MFields.numFields fs ≤ MFields.numFields fs; omega)
        (by
          intro _h
          have h0 := fieldsFitAt_shift fs
            ((pre ++ natLE 4 (encFieldsBytes fs).length).length)
            ((encFieldsBytes fs).length) 0 hFit0
          rw [Nat.add_zero] at h0
          exact h0)
      simp only [hfields]
      simp only [Nat.zero_add]
      have hsent := field_begin_sentinel
        ((pre ++ natLE 4 (encFieldsBytes fs).length) ++ encFieldsBytes fs ++
          post)
        ((pre ++ natLE 4 (encFieldsBytes fs).length).length +
          (encFieldsBytes fs).length)
        ⟨.STRUCT, true,
          (pre ++ natLE 4 (encFieldsBytes fs).length).length +
            (encFieldsBytes fs).length,
          MFields.fieldInfos fs, MFields.numFields fs,
          MFields.numFields fs⟩ stk rfl (le_refl _)
      simp only [hsent]
      rw [if_neg (fun h => h rfl)]
      have hend := struct_end_exact
        ((pre ++ natLE 4 (encFieldsBytes fs).length) ++ encFieldsBytes fs ++
          post)
        ((pre ++ natLE 4 (encFieldsBytes fs).length).length +
          (encFieldsBytes fs).length)
        ⟨.STRUCT, true,
          (pre ++ natLE 4 (encFieldsBytes fs).length).length +
            (encFieldsBytes fs).length,
          MFields.fieldInfos fs, MFields.numFields fs,
          MFields.numFields fs⟩ stk rfl (fun _ => rfl)
      simp only [hend]
      simp [natLE_length]
      omega
  | .varray vs, pre, post, stk, hg, hstk => by
    rw [decLike]
    simp only [goodVal, Bool.and_eq_true, decide_eq_true_eq] at hg
    rw [show encBytes (MValue.varray vs) =
      natLE 4 (MValues.numElems vs) ++ encElemsBytes vs from by
      rw [encBytes]]
    rw [show pre ++ (natLE 4 (MValues.numElems vs) ++ encElemsBytes vs) ++
        post =
      pre ++ natLE 4 (MValues.numElems vs) ++ (encElemsBytes vs ++ post)
      from by simp]
    rw [array_begin_at pre (encElemsBytes vs ++ post) (MValues.numElems vs)
      stk hstk hg.1]
    rw [show pre.length + 4 =
      (pre ++ natLE 4 (MValues.numElems vs)).length from by
      simp [natLE_length]]
    rw [show pre ++ natLE 4 (MValues.numElems vs) ++
        (encElemsBytes vs ++ post) =
      (pre ++ natLE 4 (MValues.numElems vs)) ++ encElemsBytes vs ++ post
      from by simp]
    have helems := decElems_enc vs (pre ++ natLE 4 (MValues.numElems vs))
      post ⟨.ARRAY, false, 0, [], MValues.numElems vs, 0⟩ stk hg.2 rfl
      (by show 0 + MValues.numElems vs ≤ MValues.numElems vs; omega)
    simp only [helems]
    simp only [Nat.zero_add]
    have hdone := element_begin_done
      ((pre ++ natLE 4 (MValues.numElems vs)) ++ encElemsBytes vs ++ post)
      ((pre ++ natLE 4 (MValues.numElems vs)).length +
        (encElemsBytes vs).length)
      ⟨.ARRAY, false, 0, [], MValues.numElems vs, MValues.numElems vs⟩ stk
      rfl (le_refl _)
    simp only [hdone]
    rw [if_neg (fun h => nomatch h)]
    have hend := array_end_pop
      ((pre ++ natLE 4 (MValues.numElems vs)) ++ encElemsBytes vs ++ post)
      ((pre ++ natLE 4 (MValues.numElems vs)).length +
        (encElemsBytes vs).length)
      ⟨.ARRAY, false, 0, [], MValues.numElems vs, MValues.numElems vs⟩ stk
      rfl rfl
    simp only [hend]
    simp [natLE_length]
    omega
  | .vdict es, pre, post, stk, hg, hstk => by
    rw [decLike]
    simp only [goodVal, Bool.and_eq_true, decide_eq_true_eq] at hg
    rw [show encBytes (MValue.vdict es) =
      natLE 4 (MDict.numEntries es) ++ encDictBytes es from by
      rw [encBytes]]
    rw [show pre ++ (natLE 4 (MDict.numEntries es) ++ encDictBytes es) ++
        post =
      pre ++ natLE 4 (MDict.numEntries es) ++ (encDictBytes es ++ post)
      from by simp]
    rw [dict_begin_at pre (encDictBytes es ++ post) (MDict.numEntries es)
      stk hstk hg.1]
    rw [show pre.length + 4 =
      (pre ++ natLE 4 (MDict.numEntries es)).length from by
      simp [natLE_length]]
    rw [show pre ++ natLE 4 (MDict.numEntries es) ++
        (encDictBytes es ++ post) =
      (pre ++ natLE 4 (MDict.numEntries es)) ++ encDictBytes es ++ post
      from by simp]
    have hentries := decDict_enc es (pre ++ natLE 4 (MDict.numEntries es))
      post ⟨.DICTIONARY, false, 0, [], MDict.numEntries es, 0⟩ stk hg.2 rfl
      (by show 0 + MDict.numEntries es ≤ MDict.numEntries es; omega)
    simp only [hentries]
    simp only [Nat.zero_add]
    have hdone := dict_element_begin_done
      ((pre ++ natLE 4 (MDict.numEntries es)) ++ encDictBytes es ++ post)
      ((pre ++ natLE 4 (MDict.numEntries es)).length +
        (encDictBytes es).length)
      ⟨.DICTIONARY, false, 0, [], MDict.numEntries es, MDict.numEntries es⟩
      stk rfl (le_refl _)
    simp only [hdone]
    rw [if_neg (fun h => nomatch h)]
    have hend := dict_end_pop
      ((pre ++ natLE 4 (MDict.numEntries es)) ++ encDictBytes es ++ post)
      ((pre ++ natLE 4 (MDict.numEntries es)).length +
        (encDictBytes es).length)
      ⟨.DICTIONARY, false, 0, [], MDict.numEntries es, MDict.numEntries es⟩
      stk rfl rfl
    simp only [hend]
    simp [natLE_length]
    omega
  | .vtyped label ext c, pre, post, stk, hg, hstk => by
    rw [decLike]
    cases ext with
    | false =>
      simp only [goodVal, Bool.not_false, Bool.true_or, Bool.and_true,
        Bool.and_eq_true, decide_eq_true_eq] at hg
      obtain ⟨hlab, hgc⟩ := hg
      rw [show encBytes (MValue.vtyped label false c) =
        natLE 4 label ++ encBytes c from by simp [encBytes]]
      rw [show pre ++ (natLE 4 label ++ encBytes c) ++ post =
        pre ++ natLE 4 label ++ (encBytes c ++ post) from by simp]
      rw [typed_begin_at pre (encBytes c ++ post) label stk hstk hlab]
      rw [show pre.length + 4 = (pre ++ natLE 4 label).length from by
        simp [natLE_length]]
      rw [show pre ++ natLE 4 label ++ (encBytes c ++ post) =
        (pre ++ natLE 4 label) ++ encBytes c ++ post from by simp]
      have hchild := decLike_enc c (pre ++ natLE 4 label) post
        ((⟨.TYPED, false, (pre ++ natLE 4 label).length, [], 0, 0⟩ :
          dec_stack_element) :: stk) hgc rfl
      simp only [hchild]
      have hend := typed_end_exact
        ((pre ++ natLE 4 label) ++ encBytes c ++ post)
        ((pre ++ natLE 4 label).length + (encBytes c).length)
        ⟨.TYPED, false, (pre ++ natLE 4 label).length, [], 0, 0⟩ stk rfl
        (fun h => nomatch h)
      simp only [hend]
      simp [natLE_length]
      omega
    | true =>
      simp only [goodVal, Bool.not_true, Bool.false_or, Bool.and_eq_true,
        decide_eq_true_eq] at hg
      obtain ⟨⟨hlab, hgc⟩, hclen⟩ := hg
      rw [show encBytes (MValue.vtyped label true c) =
        (natLE 4 label ++ natLE 4 (encBytes c).length) ++ encBytes c
        from by simp [encBytes]]
      rw [show pre ++ ((natLE 4 label ++ natLE 4 (encBytes c).length) ++
          encBytes c) ++ post =
        pre ++ (natLE 4 label ++ natLE 4 (encBytes c).length) ++
          (encBytes c ++ post) from by simp]
      rw [typed_begin_ext_at pre (encBytes c ++ post) label
        (encBytes c).length stk hstk hlab hclen]
      rw [show pre.length + 8 =
        (pre ++ (natLE 4 label ++ natLE 4 (encBytes c).length)).length
        from by simp [natLE_length]]
      rw [show pre ++ (natLE 4 label ++ natLE 4 (encBytes c).length) ++
          (encBytes c ++ post) =
        (pre ++ (natLE 4 label ++ natLE 4 (encBytes c).length)) ++
          encBytes c ++ post from by simp]
      have hchild := decLike_enc c
        (pre ++ (natLE 4 label ++ natLE 4 (encBytes c).length)) post
        ((⟨.TYPED, true,
          (pre ++ (natLE 4 label ++ natLE 4 (encBytes c).length)).length +
            (encBytes c).length, [], 0, 0⟩ : dec_stack_element) :: stk)
        hgc rfl
      simp only [hchild]
      have hend := typed_end_exact
        ((pre ++ (natLE 4 label ++ natLE 4 (encBytes c).length)) ++
          encBytes c ++ post)
        ((pre ++ (natLE 4 label ++ natLE 4 (encBytes c).length)).length +
          (encBytes c).length)
        ⟨.TYPED, true,
          (pre ++ (natLE 4 label ++ natLE 4 (encBytes c).length)).length +
            (encBytes c).length, [], 0, 0⟩ stk rfl (fun _ => rfl)
      simp only [hend]
      simp [natLE_length]
      omega
  | .vtypednull label ext, pre, post, stk, hg, hstk => by
    rw [decLike]
    simp only [goodVal, decide_eq_true_eq] at hg
    cases ext with
    | false =>
      rw [show encBytes (MValue.vtypednull label false) = natLE 4 label
        from by simp [encBytes]]
      rw [typed_begin_at pre post label stk hstk hg]
      have hend := typed_end_exact (pre ++ natLE 4 label ++ post)
        (pre.length + 4) ⟨.TYPED, false, pre.length + 4, [], 0, 0⟩ stk rfl
        (fun h => nomatch h)
      simp only [hend]
      simp [natLE_length]
    | true =>
      rw [show encBytes (MValue.vtypednull label true) =
        natLE 4 label ++ natLE 4 0 from by simp [encBytes]]
      rw [typed_begin_ext_at pre post label 0 stk hstk hg (by norm_num)]
      have hend := typed_end_exact
        (pre ++ (natLE 4 label ++ natLE 4 0) ++ post) (pre.length + 8)
        ⟨.TYPED, true, pre.length + 8 + 0, [], 0, 0⟩ stk rfl
        (fun _ => Nat.add_zero _)
      simp only [hend]
      simp [natLE_length]

theorem decFields_enc : ∀ (fs : MFields) (pre post : List Nat)
    (preInfos moreInfos : List Nat) (fr : dec_stack_element)
    (stk : List dec_stack_element),
    goodFields fs = true →
    fr.m_element_type = .STRUCT →
    fr.m_field_infos = preInfos ++ MFields.fieldInfos fs ++ moreInfos →
    fr.m_field_pos = preInfos.length →
    fr.m_field_pos + MFields.numFields fs ≤ fr.m_fields_count →
    (fr.m_extensible = true →
      fieldsFitAt fr.m_end_offset pre.length fs = true) →
    decFields fs ⟨pre ++ encFieldsBytes fs ++ post, pre.length, fr :: stk⟩ =
      some (fs, ⟨pre ++ encFieldsBytes fs ++ post,
        pre.length + (encFieldsBytes fs).length,
        { fr with m_field_pos := fr.m_field_pos + MFields.numFields fs } ::
          stk⟩)
  | .nil, pre, post, preInfos, moreInfos, fr, stk, _hg, _hty, _hinfos,
      _hpos, _hcnt, _hfit => by
    rw [decFields]
    simp [encFieldsBytes, MFields.numFields]
  | .cons label c rest, pre, post, preInfos, moreInfos, fr, stk, hg, hty,
      hinfos, hpos, hcnt, hfit => by
    simp only [goodFields, Bool.and_eq_true, decide_eq_true_eq] at hg
    obtain ⟨⟨⟨hpos0, hlab⟩, hgc⟩, hgrest⟩ := hg
    rw [decFields]
    rw [show MFields.numFields (MFields.cons label c rest) =
      1 + MFields.numFields rest from rfl]
    have hcnt1 : fr.m_field_pos < fr.m_fields_count := by
      simp only [MFields.numFields] at hcnt
      omega
    have hne : fr.m_extensible = true → pre.length < fr.m_end_offset := by
      intro hE
      have h0 := hfit hE
      simp only [fieldsFitAt, Bool.and_eq_true, decide_eq_true_eq] at h0
      exact h0.1
    have hfitr : fr.m_extensible = true →
        fieldsFitAt fr.m_end_offset
          (pre.length + (encFieldBytes c).length) rest = true := by
      intro hE
      have h0 := hfit hE
      simp only [fieldsFitAt, Bool.and_eq_true] at h0
      exact h0.2
    have hnei : ¬ (label = marshal_label_id_INVALID) := by
      simp only [marshal_label_id_INVALID]
      omega
    cases c with
    | mandatory v =>
      simp only [goodField] at hgc
      rw [show encFieldsBytes (MFields.cons label
          (MFieldContent.mandatory v) rest) =
        encBytes v ++ encFieldsBytes rest from by
        rw [encFieldsBytes, encFieldBytes]]
      rw [show pre ++ (encBytes v ++ encFieldsBytes rest) ++ post =
        pre ++ encBytes v ++ (encFieldsBytes rest ++ post) from by simp]
      have hinfo : fr.m_field_infos[fr.m_field_pos]? =
          some (marshal_label_info_calc label false) := by
        rw [hinfos, hpos]
        rw [show preInfos ++ MFields.fieldInfos (MFields.cons label
            (MFieldContent.mandatory v) rest) ++ moreInfos =
          preInfos ++ marshal_label_info_calc label false ::
            (MFields.fieldInfos rest ++ moreInfos) from by
          rw [MFields.fieldInfos]
          simp [MFieldContent.isOptional]]
        exact getElem?_append_len preInfos _ _
      have hfb := field_begin_mandatory
        (pre ++ encBytes v ++ (encFieldsBytes rest ++ post)) pre.length fr
        stk label hty hcnt1 hne hinfo hlab
      simp only [hfb]
      rw [if_neg hnei]
      rw [decField]
      have hchild := decLike_enc v pre (encFieldsBytes rest ++ post)
        ((⟨.FIELD, false, 0, [], 0, 0⟩ : dec_stack_element) ::
          { fr with m_field_pos := fr.m_field_pos + 1 } :: stk) hgc rfl
      simp only [hchild]
      have hfe := field_end_pop
        (pre ++ encBytes v ++ (encFieldsBytes rest ++ post))
        (pre.length + (encBytes v).length)
        ({ fr with m_field_pos := fr.m_field_pos + 1 } :: stk)
      simp only [hfe]
      rw [show pre.length + (encBytes v).length =
        (pre ++ encBytes v).length from by simp]
      rw [show pre ++ encBytes v ++ (encFieldsBytes rest ++ post) =
        (pre ++ encBytes v) ++ encFieldsBytes rest ++ post from by simp]
      have hrec := decFields_enc rest (pre ++ encBytes v) post
        (preInfos ++ [marshal_label_info_calc label false]) moreInfos
        { fr with m_field_pos := fr.m_field_pos + 1 } stk hgrest hty
        (by
          show fr.m_field_infos = _
          rw [hinfos]
          rw [MFields.fieldInfos]
          simp [MFieldContent.isOptional])
        (by
          show fr.m_field_pos + 1 = _
          simp [hpos])
        (by
          show fr.m_field_pos + 1 + MFields.numFields rest ≤
            fr.m_fields_count
          simp only [MFields.numFields] at hcnt
          omega)
        (by
          intro hE
          have h0 := hfitr hE
          show fieldsFitAt fr.m_end_offset (pre ++ encBytes v).length
            rest = true
          rw [show (pre ++ encBytes v).length = pre.length +
            (encFieldBytes (MFieldContent.mandatory v)).length from by
            simp [encFieldBytes]]
          exact h0)
      simp only [hrec]
      simp
      omega
    | optPresent v =>
      simp only [goodField] at hgc
      rw [show encFieldsBytes (MFields.cons label
          (MFieldContent.optPresent v) rest) =
        1 :: (encBytes v ++ encFieldsBytes rest) from by
        rw [encFieldsBytes, encFieldBytes]
        simp]
      rw [show pre ++ (1 :: (encBytes v ++ encFieldsBytes rest)) ++ post =
        pre ++ [1] ++ (encBytes v ++ (encFieldsBytes rest ++ post)) from by
        simp]
      have hinfo : fr.m_field_infos[fr.m_field_pos]? =
          some (marshal_label_info_calc label true) := by
        rw [hinfos, hpos]
        rw [show preInfos ++ MFields.fieldInfos (MFields.cons label
            (MFieldContent.optPresent v) rest) ++ moreInfos =
          preInfos ++ marshal_label_info_calc label true ::
            (MFields.fieldInfos rest ++ moreInfos) from by
          rw [MFields.fieldInfos]
          simp [MFieldContent.isOptional]]
        exact getElem?_append_len preInfos _ _
      have hfb := field_begin_optional pre
        (encBytes v ++ (encFieldsBytes rest ++ post)) 1 fr stk label hty
        hcnt1 hne hinfo hlab
      simp only [hfb]
      rw [if_neg hnei]
      rw [decField]
      rw [if_pos (show decide ((1:Nat) ≠ 0) = true from rfl)]
      rw [show pre.length + 1 = (pre ++ [1]).length from by simp]
      rw [show pre ++ [1] ++ (encBytes v ++ (encFieldsBytes rest ++ post)) =
        (pre ++ [1]) ++ encBytes v ++ (encFieldsBytes rest ++ post)
        from by simp]
      have hchild := decLike_enc v (pre ++ [1])
        (encFieldsBytes rest ++ post)
        ((⟨.FIELD, false, 0, [], 0, 0⟩ : dec_stack_element) ::
          { fr with m_field_pos := fr.m_field_pos + 1 } :: stk) hgc rfl
      simp only [hchild]
      have hfe := field_end_pop
        ((pre ++ [1]) ++ encBytes v ++ (encFieldsBytes rest ++ post))
        ((pre ++ [1]).length + (encBytes v).length)
        ({ fr with m_field_pos := fr.m_field_pos + 1 } :: stk)
      simp only [hfe]
      rw [show ((pre ++ [1] : List Nat)).length + (encBytes v).length =
        ((pre ++ [1] ++ encBytes v : List Nat)).length from by
        simp <;> omega]
      rw [show (pre ++ [1] ++ encBytes v ++ (encFieldsBytes rest ++ post) :
          List Nat) =
        pre ++ [1] ++ encBytes v ++ encFieldsBytes rest ++ post
        from by simp]
      have hrec := decFields_enc rest ((pre ++ [1]) ++ encBytes v) post
        (preInfos ++ [marshal_label_info_calc label true]) moreInfos
        { fr with m_field_pos := fr.m_field_pos + 1 } stk hgrest hty
        (by
          show fr.m_field_infos = _
          rw [hinfos]
          rw [MFields.fieldInfos]
          simp [MFieldContent.isOptional])
        (by
          show fr.m_field_pos + 1 = _
          simp [hpos])
        (by
          show fr.m_field_pos + 1 + MFields.numFields rest ≤
            fr.m_fields_count
          simp only [MFields.numFields] at hcnt
          omega)
        (by
          intro hE
          have h0 := hfitr hE
          show fieldsFitAt fr.m_end_offset
            (((pre ++ [1]) ++ encBytes v).length) rest = true
          rw [show ((pre ++ [1] ++ encBytes v : List Nat)).length =
            pre.length +
              (encFieldBytes (MFieldContent.optPresent v)).length from by
            simp [encFieldBytes] <;> omega]
          exact h0)
      simp only [hrec]
      simp
      omega
    | optMissing =>
      rw [show encFieldsBytes (MFields.cons label
          MFieldContent.optMissing rest) =
        0 :: encFieldsBytes rest from by
        rw [encFieldsBytes, encFieldBytes]
        simp]
      rw [show pre ++ (0 :: encFieldsBytes rest) ++ post =
        pre ++ [0] ++ (encFieldsBytes rest ++ post) from by simp]
      have hinfo : fr.m_field_infos[fr.m_field_pos]? =
          some (marshal_label_info_calc label true) := by
        rw [hinfos, hpos]
        rw [show preInfos ++ MFields.fieldInfos (MFields.cons label
            MFieldContent.optMissing rest) ++ moreInfos =
          preInfos ++ marshal_label_info_calc label true ::
            (MFields.fieldInfos rest ++ moreInfos) from by
          rw [MFields.fieldInfos]
          simp [MFieldContent.isOptional]]
        exact getElem?_append_len preInfos _ _
      have hfb := field_begin_optional pre (encFieldsBytes rest ++ post) 0
        fr stk label hty hcnt1 hne hinfo hlab
      simp only [hfb]
      rw [if_neg hnei]
      rw [decField]
      rw [if_neg (by decide)]
      have hfe := field_end_pop
        (pre ++ [0] ++ (encFieldsBytes rest ++ post)) (pre.length + 1)
        ({ fr with m_field_pos := fr.m_field_pos + 1 } :: stk)
      simp only [hfe]
      rw [show pre.length + 1 = ((pre ++ [0] : List Nat)).length from by
        simp <;> omega]
      rw [show (pre ++ [0] ++ (encFieldsBytes rest ++ post) : List Nat) =
        pre ++ [0] ++ encFieldsBytes rest ++ post from by simp]
      have hrec := decFields_enc rest (pre ++ [0]) post
        (preInfos ++ [marshal_label_info_calc label true]) moreInfos
        { fr with m_field_pos := fr.m_field_pos + 1 } stk hgrest hty
        (by
          show fr.m_field_infos = _
          rw [hinfos]
          rw [MFields.fieldInfos]
          simp [MFieldContent.isOptional])
        (by
          show fr.m_field_pos + 1 = _
          simp [hpos])
        (by
          show fr.m_field_pos + 1 + MFields.numFields rest ≤
            fr.m_fields_count
          simp only [MFields.numFields] at hcnt
          omega)
        (by
          intro hE
          have h0 := hfitr hE
          show fieldsFitAt fr.m_end_offset ((pre ++ [0]).length) rest = true
          rw [show ((pre ++ [0] : List Nat)).length = pre.length +
            (encFieldBytes MFieldContent.optMissing).length from by
            simp [encFieldBytes] <;> omega]
          exact h0)
      simp only [hrec]
      simp
      omega

theorem decElems_enc : ∀ (vs : MValues) (pre post : List Nat)
    (fr : dec_stack_element) (stk : List dec_stack_element),
    goodElems vs = true →
    fr.m_element_type = .ARRAY →
    fr.m_field_pos + MValues.numElems vs ≤ fr.m_fields_count →
    decElems vs ⟨pre ++ encElemsBytes vs ++ post, pre.length, fr :: stk⟩ =
      some (vs, ⟨pre ++ encElemsBytes vs ++ post,
        pre.length + (encElemsBytes vs).length,
        { fr with m_field_pos := fr.m_field_pos + MValues.numElems vs } ::
          stk⟩)
  | .nil, pre, post, fr, stk, _hg, _hty, _hcnt => by
    rw [decElems]
    simp [encElemsBytes, MValues.numElems]
  | .cons v rest, pre, post, fr, stk, hg, hty, hcnt => by
    simp only [goodElems, Bool.and_eq_true] at hg
    rw [decElems]
    rw [show MValues.numElems (MValues.cons v rest) =
      1 + MValues.numElems rest from rfl]
    rw [show encElemsBytes (MValues.cons v rest) =
      encBytes v ++ encElemsBytes rest from by rw [encElemsBytes]]
    rw [show pre ++ (encBytes v ++ encElemsBytes rest) ++ post =
      pre ++ encBytes v ++ (encElemsBytes rest ++ post) from by simp]
    have hcnt1 : fr.m_field_pos < fr.m_fields_count := by
      simp only [MValues.numElems] at hcnt
      omega
    have heb := array_element_begin_at
      (pre ++ encBytes v ++ (encElemsBytes rest ++ post)) pre.length fr stk
      hty hcnt1
    simp only [heb]
    simp only [if_true]
    have hchild := decLike_enc v pre (encElemsBytes rest ++ post)
      ((⟨.ARRAY_ELEMENT, false, 0, [], 0, 0⟩ : dec_stack_element) ::
        { fr with m_field_pos := fr.m_field_pos + 1 } :: stk) hg.1 rfl
    simp only [hchild]
    have hee := array_element_end_pop
      (pre ++ encBytes v ++ (encElemsBytes rest ++ post))
      (pre.length + (encBytes v).length)
      ({ fr with m_field_pos := fr.m_field_pos + 1 } :: stk)
    simp only [hee]
    rw [show pre.length + (encBytes v).length =
      (pre ++ encBytes v).length from by simp]
    rw [show pre ++ encBytes v ++ (encElemsBytes rest ++ post) =
      (pre ++ encBytes v) ++ encElemsBytes rest ++ post from by simp]
    have hrec := decElems_enc rest (pre ++ encBytes v) post
      { fr with m_field_pos := fr.m_field_pos + 1 } stk hg.2 hty
      (by
        show fr.m_field_pos + 1 + MValues.numElems rest ≤ fr.m_fields_count
        simp only [MValues.numElems] at hcnt
        omega)
    simp only [hrec]
    simp
    omega

theorem decDict_enc : ∀ (es : MDict) (pre post : List Nat)
    (fr : dec_stack_element) (stk : List dec_stack_element),
    goodDict es = true →
    fr.m_element_type = .DICTIONARY →
    fr.m_field_pos + MDict.numEntries es ≤ fr.m_fields_count →
    decDict es ⟨pre ++ encDictBytes es ++ post, pre.length, fr :: stk⟩ =
      some (es, ⟨pre ++ encDictBytes es ++ post,
        pre.length + (encDictBytes es).length,
        { fr with m_field_pos := fr.m_field_pos + MDict.numEntries es } ::
          stk⟩)
  | .nil, pre, post, fr, stk, _hg, _hty, _hcnt => by
    rw [decDict]
    simp [encDictBytes, MDict.numEntries]
  | .cons key v rest, pre, post, fr, stk, hg, hty, hcnt => by
    simp only [goodDict, Bool.and_eq_true, decide_eq_true_eq] at hg
    obtain ⟨⟨⟨hklen, _hkbytes⟩, hgv⟩, hgrest⟩ := hg
    rw [decDict]
    rw [show MDict.numEntries (MDict.cons key v rest) =
      1 + MDict.numEntries rest from rfl]
    rw [show encDictBytes (MDict.cons key v rest) =
      (natLE 4 key.length ++ key) ++ (encBytes v ++ encDictBytes rest)
      from by rw [encDictBytes]; simp]
    rw [show pre ++ ((natLE 4 key.length ++ key) ++
        (encBytes v ++ encDictBytes rest)) ++ post =
      pre ++ (natLE 4 key.length ++ key) ++
        (encBytes v ++ (encDictBytes rest ++ post)) from by simp]
    have hcnt1 : fr.m_field_pos < fr.m_fields_count := by
      simp only [MDict.numEntries] at hcnt
      omega
    have heb := dict_element_begin_at pre
      (encBytes v ++ (encDictBytes rest ++ post)) key fr stk hty hcnt1
      hklen
    simp only [heb]
    simp only [if_true]
    rw [show pre.length + (4 + key.length) =
      (pre ++ (natLE 4 key.length ++ key)).length from by
      simp [natLE_length] <;> omega]
    rw [show pre ++ (natLE 4 key.length ++ key) ++
        (encBytes v ++ (encDictBytes rest ++ post)) =
      (pre ++ (natLE 4 key.length ++ key)) ++ encBytes v ++
        (encDictBytes rest ++ post) from by simp]
    have hchild := decLike_enc v (pre ++ (natLE 4 key.length ++ key))
      (encDictBytes rest ++ post)
      ((⟨.DICTIONARY_ELEMENT, false, 0, [], 0, 0⟩ : dec_stack_element) ::
        { fr with m_field_pos := fr.m_field_pos + 1 } :: stk) hgv rfl
    simp only [hchild]
    have hee := dict_element_end_pop
      ((pre ++ (natLE 4 key.length ++ key)) ++ encBytes v ++
        (encDictBytes rest ++ post))
      ((pre ++ (natLE 4 key.length ++ key)).length + (encBytes v).length)
      ({ fr with m_field_pos := fr.m_field_pos + 1 } :: stk)
    simp only [hee]
    rw [show (pre ++ (natLE 4 key.length ++ key)).length +
        (encBytes v).length =
      ((pre ++ (natLE 4 key.length ++ key)) ++ encBytes v).length from by
      simp <;> omega]
    rw [show (pre ++ (natLE 4 key.length ++ key)) ++ encBytes v ++
        (encDictBytes rest ++ post) =
      ((pre ++ (natLE 4 key.length ++ key)) ++ encBytes v) ++
        encDictBytes rest ++ post from by simp]
    have hrec := decDict_enc rest
      ((pre ++ (natLE 4 key.length ++ key)) ++ encBytes v) post
      { fr with m_field_pos := fr.m_field_pos + 1 } stk hgrest hty
      (by
        show fr.m_field_pos + 1 + MDict.numEntries rest ≤ fr.m_fields_count
        simp only [MDict.numEntries] at hcnt
        omega)
    simp only [hrec]
    simp [natLE_length]
    omega

end

/-! # Claims -/

set_option maxRecDepth 8000
set_option maxHeartbeats 1000000

theorem encFieldsBytes_append : ∀ (fs gs : MFields),
    encFieldsBytes (MFields.append fs gs) =
      encFieldsBytes fs ++ encFieldsBytes gs
  | .nil, gs => by simp [MFields.append, encFieldsBytes]
  | .cons label c rest, gs => by
    simp only [MFields.append, encFieldsBytes,
      encFieldsBytes_append rest gs, List.append_assoc]

/-- `decode_u32string_loop` terminates as soon as the loop counter
reaches the length. -/
theorem decode_u32string_loop_done (n i : Nat) (acc : List Nat)
    (st : marshal_dec_bin) (h : n ≤ i) :
    marshal_dec_bin.decode_u32string_loop n i acc st = some (acc, st) := by
  unfold marshal_dec_bin.decode_u32string_loop
  rw [dif_neg (by omega)]

/-- The loop-counter slip on a two-byte UTF-8 character: decoding the
payload `C3 A9 41` declared as 3 UTF-8 bytes consumes only the first two
bytes and yields only the code point `0xE9`, because the counter advances
by `extra_chars + 2` for the multi-byte character. -/
theorem decode_u32string_loop_bug (pre post : List Nat)
    (stk : List dec_stack_element) :
    marshal_dec_bin.decode_u32string_loop 3 0 []
      ⟨pre ++ [195, 169] ++ (65 :: post), pre.length, stk⟩ =
      some ([233], ⟨pre ++ [195, 169] ++ (65 :: post),
        pre.length + 2, stk⟩) := by
  unfold marshal_dec_bin.decode_u32string_loop
  rw [dif_pos (by norm_num)]
  rw [show pre ++ [195, 169] ++ (65 :: post) =
    pre ++ [195] ++ ([169] ++ (65 :: post)) from by simp]
  rw [read_bytes_at pre [195] ([169] ++ (65 :: post)) stk 1 rfl]
  simp only [List.headD_cons,
    show count_utf8_following_chars 195 = 1 from rfl]
  rw [dif_neg (by norm_num)]
  rw [if_neg (by norm_num)]
  rw [show pre.length + 1 = (pre ++ [195]).length from by simp]
  rw [show pre ++ [195] ++ ([169] ++ (65 :: post)) =
    (pre ++ [195]) ++ [169] ++ (65 :: post) from by simp]
  rw [read_bytes_at (pre ++ [195]) [169] (65 :: post) stk 1 rfl]
  show marshal_dec_bin.decode_u32string_loop 3 (0 + 1 + 1 + 1)
    ([] ++ [read_utf8_cp 195 [169]])
    ⟨(pre ++ [195]) ++ [169] ++ (65 :: post), (pre ++ [195]).length + 1,
      stk⟩ = _
  rw [decode_u32string_loop_done 3 (0 + 1 + 1 + 1) _ _ (by norm_num)]
  simp [show read_utf8_cp 195 [169] = 233 from by decide]

/-- `decode_u32string` on the wire form of the code points
`[0xE9, 0x41]`: it returns `[0xE9]` alone and advances only six of the
seven bytes. -/
theorem decode_u32string_bug_at (pre post : List Nat)
    (stk : List dec_stack_element) :
    marshal_dec_bin.decode_u32string
      ⟨pre ++ [3, 0, 0, 0, 195, 169, 65] ++ post, pre.length, stk⟩ =
      some ([233], ⟨pre ++ [3, 0, 0, 0, 195, 169, 65] ++ post,
        pre.length + 6, stk⟩) := by
  unfold marshal_dec_bin.decode_u32string
  rw [show pre ++ [3, 0, 0, 0, 195, 169, 65] ++ post =
    pre ++ natLE 4 3 ++ ([195, 169] ++ (65 :: post)) from by
    simp [natLE]]
  rw [decode_u32_at pre ([195, 169] ++ (65 :: post)) stk 3]
  show marshal_dec_bin.decode_u32string_loop (3 % 2 ^ 32) 0 []
    ⟨pre ++ natLE 4 3 ++ ([195, 169] ++ (65 :: post)), pre.length + 4,
      stk⟩ = _
  rw [show (3 % 2 ^ 32 : Nat) = 3 from by norm_num]
  rw [show pre.length + 4 = (pre ++ natLE 4 3).length from by
    simp [natLE_length]]
  rw [show pre ++ natLE 4 3 ++ ([195, 169] ++ (65 :: post)) =
    (pre ++ natLE 4 3) ++ [195, 169] ++ (65 :: post) from by simp]
  rw [decode_u32string_loop_bug (pre ++ natLE 4 3) post stk]
  simp [natLE_length]

/-- C1: the binary round trip of the spec fails on the code as written:
the `u32` string with code points `[0xE9, 0x41]` (é A) is encoded as the
seven bytes `03 00 00 00 C3 A9 41`, but `decode_u32string` returns only
`[0xE9]` and stops after six bytes — the decoding loop advances its
counter by `extra_chars + 2` per multi-byte UTF-8 character (the body's
`i += extra_chars + 1` plus the `for` statement's `i++`), skipping the
byte after each multi-byte character. -/
theorem C1_u32string_roundtrip_bug :
    encBytes (.vu32str [0xE9, 0x41]) =
      [3, 0, 0, 0, 0xC3, 0xA9, 0x41] ∧
    decLike (.vu32str [0xE9, 0x41])
      ⟨[3, 0, 0, 0, 0xC3, 0xA9, 0x41], 0, []⟩ =
      some (.vu32str [0xE9],
        ⟨[3, 0, 0, 0, 0xC3, 0xA9, 0x41], 6, []⟩) ∧
    (MValue.vu32str [0xE9]) ≠ .vu32str [0xE9, 0x41] := by
  refine ⟨rfl, ?_, by decide⟩
  have h := decode_u32string_bug_at [] [] []
  simp only [List.nil_append, List.append_nil, List.length_nil] at h
  rw [decLike, h]
  rfl

/-- C3 (counterexample): on an extensible typed frame whose end offset
lies two bytes ahead, `decode_typed_end` raises an error instead of
skipping, while `decode_struct_end` on the same configuration skips; the
skip for typed frames is only performed by `decode_typed_end_skip`. -/
theorem C3_typed_end_counterexample :
    marshal_dec_bin.decode_typed_end
      ⟨[0, 0], 0, [⟨.TYPED, true, 2, [], 0, 0⟩]⟩ = none ∧
    marshal_dec_bin.decode_typed_end_skip
      ⟨[0, 0], 0, [⟨.TYPED, true, 2, [], 0, 0⟩]⟩ =
      some ⟨[0, 0], 2, []⟩ ∧
    marshal_dec_bin.decode_struct_end
      ⟨[0, 0], 0, [⟨.STRUCT, true, 2, [], 0, 0⟩]⟩ =
      some ⟨[0, 0], 2, []⟩ := by
  decide

/-- C3 (amended): the contract `decode_typed_end` actually applies to an
extensible typed frame is strict equality — it succeeds exactly when the
current offset equals the frame's recorded end offset and raises an error
whenever the offset differs (short as well as past); the skipping
behaviour exists only in `decode_typed_end_skip`, which seeks to the end
offset when short of it. -/
theorem C3_typed_end_contract (inp : List Nat) (off : Nat)
    (fr : dec_stack_element) (stk : List dec_stack_element)
    (hty : fr.m_element_type = .TYPED)
    (hext : fr.m_extensible = true) :
    marshal_dec_bin.decode_typed_end ⟨inp, off, fr :: stk⟩ =
      (if fr.m_end_offset = off then some ⟨inp, off, stk⟩ else none) ∧
    (off < fr.m_end_offset → fr.m_end_offset ≤ inp.length →
      marshal_dec_bin.decode_typed_end_skip ⟨inp, off, fr :: stk⟩ =
        some ⟨inp, fr.m_end_offset, stk⟩) := by
  constructor
  · unfold marshal_dec_bin.decode_typed_end
    by_cases h : fr.m_end_offset = off
    · simp [hty, hext, h]
    · simp [hty, hext, h]
  · intro hlt hle
    unfold marshal_dec_bin.decode_typed_end_skip
    simp only [hty, hext, ne_eq, reduceCtorEq, not_false_eq_true, if_true,
      if_pos hlt, Bool.not_true, Bool.false_eq_true, if_false, ite_false,
      ite_true]
    rw [skip_bytes_at inp off (fr.m_end_offset - off) (fr :: stk)
      (by omega)]
    have h2 : off + (fr.m_end_offset - off) = fr.m_end_offset := by omega
    simp [h2]

/-- C3 (witness): the contract at a concrete extensible typed frame two
bytes short of its end offset. -/
theorem C3_typed_end_contract_witness :
    (marshal_dec_bin.decode_typed_end
      ⟨[7, 9], 0, [⟨.TYPED, true, 2, [], 0, 0⟩]⟩ =
      (if (2 : Nat) = 0 then some ⟨[7, 9], 0, []⟩ else none)) ∧
    ((0 : Nat) < 2 → (2 : Nat) ≤ ([7, 9] : List Nat).length →
      marshal_dec_bin.decode_typed_end_skip
        ⟨[7, 9], 0, [⟨.TYPED, true, 2, [], 0, 0⟩]⟩ =
        some ⟨[7, 9], 2, []⟩) :=
  C3_typed_end_contract [7, 9] 0 ⟨.TYPED, true, 2, [], 0, 0⟩ [] rfl rfl

/-- C5 (counterexample): the wire form of a typed null written with label
5 makes `decode_typed_begin` return label id 5 — the encoded label, not
the invalid label id the spec promises. -/
theorem C5_typed_null_counterexample :
    marshal_dec_bin.decode_typed_begin false
      ⟨encBytes (.vtypednull 5 false), 0, []⟩ =
      some (5, ⟨encBytes (.vtypednull 5 false), 4,
        [⟨.TYPED, false, 4, [], 0, 0⟩]⟩) ∧
    (5 : Nat) ≠ marshal_label_id_INVALID := by
  decide

/-- C5 (amended): a typed object encoded by `encode_typed_begin(label,
extensible)` immediately followed by `encode_typed_end` decodes back to
`decode_typed_begin` returning the label id that was encoded (the invalid
id 0 exactly when the writer used label 0), with the subsequent
`decode_typed_end` succeeding. -/
theorem C5_typed_null_roundtrip (label : Nat) (ext : Bool)
    (pre post : List Nat) (stk : List dec_stack_element)
    (hlab : label < 2 ^ 32)
    (hstk : marshal_dec_bin.stack_allows_begin stk = true) :
    decLike (.vtypednull label ext)
      ⟨pre ++ encBytes (.vtypednull label ext) ++ post, pre.length, stk⟩ =
      some (.vtypednull label ext,
        ⟨pre ++ encBytes (.vtypednull label ext) ++ post,
          pre.length + (encBytes (.vtypednull label ext)).length, stk⟩) :=
  decLike_enc (.vtypednull label ext) pre post stk
    (by simp only [goodVal, decide_eq_true_eq]; omega) hstk

/-- C5 (witness): the typed-null round trip at label 5, non-extensible,
on the bare wire. -/
theorem C5_typed_null_roundtrip_witness :
    decLike (.vtypednull 5 false)
      ⟨[] ++ encBytes (.vtypednull 5 false) ++ [], ([] : List Nat).length,
        []⟩ =
      some (.vtypednull 5 false,
        ⟨[] ++ encBytes (.vtypednull 5 false) ++ [],
          ([] : List Nat).length +
            (encBytes (.vtypednull 5 false)).length, []⟩) :=
  C5_typed_null_roundtrip 5 false [] [] [] (by norm_num) rfl

/-- C6: a `multinum` whose level is double-only never satisfies an
integral `get`: for every bounds pair and every integral `NUMTYPE`, the
accessor reports failure. -/
theorem C6_double_only_integral_fails (m : multinum) (T : numtype)
    (min_value max_value : Int) (h : m.m_level = .DOUBLE_ONLY) :
    (multinum.get_integral T min_value max_value m).2 = false := by
  unfold multinum.get_integral
  simp [h]

/-- C6 (witness): `set_double` with the exact whole double `2^40`
(outside the ±2^31 promotion window) leaves the level double-only, and
the full-range signed 64-bit integral `get` fails on it. -/
theorem C6_double_only_integral_fails_witness :
    (multinum.set_double {} (1099511627776 : ℚ)).m_level =
      level_t.DOUBLE_ONLY ∧
    (multinum.get_integral ⟨true, 8⟩ (-(2 ^ 63)) (2 ^ 63 - 1)
      (multinum.set_double {} (1099511627776 : ℚ))).2 = false := by
  have h : (multinum.set_double {} (1099511627776 : ℚ)).m_level =
      level_t.DOUBLE_ONLY := by
    unfold multinum.set_double
    norm_num
  exact ⟨h, C6_double_only_integral_fails _ ⟨true, 8⟩ _ _ h⟩

/-- C8 (counterexample): a fresh tokenizer anticipating the invalid
character `@` aborts with `C_ERROR` on the first `process_char`; the
first `process_eof` still returns `C_ERROR`, but the next call returns
`C_NOTHING_MORE` — the aborted state is not permanent, refuting the
claim that every later call returns the error result. -/
theorem C8_aborted_eof_counterexample :
    (tok_run [.procChar 65, .procEof, .procEof]
      (json_tokenizer_mk 64 0)).1 =
      [.C_ERROR, .C_ERROR, .C_NOTHING_MORE] := by
  decide

/-- C8 (amended): once the tokenizer is aborted, `process_char` returns
`C_ERROR` and leaves the state aborted, and `process_eof` also returns
`C_ERROR` — but `process_eof` unconditionally moves the state to
`REACHED_EOF`, so permanence of the error result holds only up to the
first `process_eof`; after it every call returns `C_NOTHING_MORE`. -/
theorem C8_aborted_behaviour (s : json_tokenizer_base) (ch : Nat)
    (h : s.m_state = .ABORTED_DUE_TO_ERROR) :
    (json_tokenizer_base.internal_process_char ch s).1 = .C_ERROR ∧
    ((json_tokenizer_base.internal_process_char ch s).2).m_state =
      .ABORTED_DUE_TO_ERROR ∧
    (json_tokenizer_base.internal_process_eof s).1 = .C_ERROR ∧
    ((json_tokenizer_base.internal_process_eof s).2).m_state =
      .REACHED_EOF := by
  unfold json_tokenizer_base.internal_process_char
    json_tokenizer_base.internal_process_eof
    json_tokenizer_base.process_char_internal
  simp [h]

/-- C8 (witness): the aborted-state behaviour at a concrete aborted
tokenizer and the character `A`. -/
theorem C8_aborted_behaviour_witness :
    (json_tokenizer_base.internal_process_char 65
      { m_state := .ABORTED_DUE_TO_ERROR }).1 = .C_ERROR ∧
    ((json_tokenizer_base.internal_process_char 65
      { m_state := .ABORTED_DUE_TO_ERROR }).2).m_state =
      .ABORTED_DUE_TO_ERROR ∧
    (json_tokenizer_base.internal_process_eof
      { m_state := .ABORTED_DUE_TO_ERROR }).1 = .C_ERROR ∧
    ((json_tokenizer_base.internal_process_eof
      { m_state := .ABORTED_DUE_TO_ERROR }).2).m_state = .REACHED_EOF :=
  C8_aborted_behaviour { m_state := .ABORTED_DUE_TO_ERROR } 65 rfl

/-- C10: whenever `decode_array_begin` or `decode_dictionary_begin`
succeeds it returns 0 — never the element count it read from the wire
into the frame and never `marshal_array_SIZE_UNKNOWN`, although the
interface documentation promises the expected number of elements or the
sentinel. -/
theorem C10_size_hints_never_returned (st st' : marshal_dec_bin)
    (pa pd : Nat × marshal_dec_bin)
    (ha : marshal_dec_bin.decode_array_begin st = some pa)
    (hd : marshal_dec_bin.decode_dictionary_begin st' = some pd) :
    pa.1 = 0 ∧ pd.1 = 0 := by
  constructor
  · unfold marshal_dec_bin.decode_array_begin at ha
    split at ha
    · exact absurd ha (by simp)
    · split at ha
      · exact absurd ha (by simp)
      · simp only [Option.some.injEq] at ha
        rw [← ha]
  · unfold marshal_dec_bin.decode_dictionary_begin at hd
    split at hd
    · exact absurd hd (by simp)
    · split at hd
      · exact absurd hd (by simp)
      · simp only [Option.some.injEq] at hd
        rw [← hd]

/-- C10 (witness): on the four-byte wire `00 00 00 00` both begins
succeed, and both returned values are 0. -/
theorem C10_size_hints_witness :
    ((0 : Nat), (⟨[0, 0, 0, 0], 4,
      [⟨.ARRAY, false, 0, [], 0, 0⟩]⟩ : marshal_dec_bin)).1 = 0 ∧
    ((0 : Nat), (⟨[0, 0, 0, 0], 4,
      [⟨.DICTIONARY, false, 0, [], 0, 0⟩]⟩ : marshal_dec_bin)).1 = 0 :=
  C10_size_hints_never_returned ⟨[0, 0, 0, 0], 0, []⟩ ⟨[0, 0, 0, 0], 0, []⟩
    _ _ (by decide) (by decide)

/-- C2 (counterexample): writer schema `S'` appends a `bool` field to an
extensible struct whose declared field is the `u32` string
`[0xE9, 0x41]`.  Decoding the writer's wire under the reader schema `S`
succeeds — but returns a struct whose string field holds `[0xE9]` alone
(the `decode_u32string` loop slip), not the `S`-projection of the written
value. -/
theorem C2_projection_counterexample :
    encBytes (.vstruct true (.cons 1 (.mandatory (.vu32str [0xE9, 0x41]))
      (.cons 2 (.mandatory (.vbool true)) .nil))) =
      [8, 0, 0, 0, 3, 0, 0, 0, 0xC3, 0xA9, 0x41, 1] ∧
    decLike (.vstruct true (.cons 1 (.mandatory (.vu32str [0xE9, 0x41]))
        .nil))
      ⟨[8, 0, 0, 0, 3, 0, 0, 0, 0xC3, 0xA9, 0x41, 1], 0, []⟩ =
      some (.vstruct true (.cons 1 (.mandatory (.vu32str [0xE9])) .nil),
        ⟨[8, 0, 0, 0, 3, 0, 0, 0, 0xC3, 0xA9, 0x41, 1], 12, []⟩) ∧
    (MValue.vstruct true (.cons 1 (.mandatory (.vu32str [0xE9])) .nil)) ≠
      .vstruct true (.cons 1 (.mandatory (.vu32str [0xE9, 0x41])) .nil) := by
  refine ⟨rfl, ?_, by decide⟩
  rw [decLike]
  have e1 : marshal_dec_bin.decode_struct_begin true
      (MFields.fieldInfos (.cons 1 (.mandatory (.vu32str [0xE9, 0x41]))
        .nil))
      (MFields.numFields (.cons 1 (.mandatory (.vu32str [0xE9, 0x41]))
        .nil))
      ⟨[8, 0, 0, 0, 3, 0, 0, 0, 0xC3, 0xA9, 0x41, 1], 0, []⟩ =
      some ⟨[8, 0, 0, 0, 3, 0, 0, 0, 0xC3, 0xA9, 0x41, 1], 4,
        [⟨.STRUCT, true, 12, [1], 1, 0⟩]⟩ := by decide
  simp only [e1]
  have e2 : decFields (.cons 1 (.mandatory (.vu32str [0xE9, 0x41])) .nil)
      ⟨[8, 0, 0, 0, 3, 0, 0, 0, 0xC3, 0xA9, 0x41, 1], 4,
        [⟨.STRUCT, true, 12, [1], 1, 0⟩]⟩ =
      some (.cons 1 (.mandatory (.vu32str [0xE9])) .nil,
        ⟨[8, 0, 0, 0, 3, 0, 0, 0, 0xC3, 0xA9, 0x41, 1], 10,
          [⟨.STRUCT, true, 12, [1], 1, 1⟩]⟩) := by
    rw [decFields]
    have efb : marshal_dec_bin.decode_struct_field_begin
        ⟨[8, 0, 0, 0, 3, 0, 0, 0, 0xC3, 0xA9, 0x41, 1], 4,
          [⟨.STRUCT, true, 12, [1], 1, 0⟩]⟩ =
        some (1, true,
          ⟨[8, 0, 0, 0, 3, 0, 0, 0, 0xC3, 0xA9, 0x41, 1], 4,
            [⟨.FIELD, false, 0, [], 0, 0⟩,
             ⟨.STRUCT, true, 12, [1], 1, 1⟩]⟩) := by decide
    simp only [efb]
    rw [if_neg (by decide)]
    rw [decField]
    rw [decLike]
    have hstr := decode_u32string_bug_at [8, 0, 0, 0] [1]
      [⟨.FIELD, false, 0, [], 0, 0⟩, ⟨.STRUCT, true, 12, [1], 1, 1⟩]
    norm_num at hstr
    rw [hstr]
    have efe : marshal_dec_bin.decode_struct_field_end
        ⟨[8, 0, 0, 0, 3, 0, 0, 0, 0xC3, 0xA9, 0x41, 1], 10,
          [⟨.FIELD, false, 0, [], 0, 0⟩,
           ⟨.STRUCT, true, 12, [1], 1, 1⟩]⟩ =
        some ⟨[8, 0, 0, 0, 3, 0, 0, 0, 0xC3, 0xA9, 0x41, 1], 10,
          [⟨.STRUCT, true, 12, [1], 1, 1⟩]⟩ := by decide
    simp only [Option.map_some', efe]
    simp only [decFields]
  simp only [e2]
  have e3 : marshal_dec_bin.decode_struct_field_begin
      ⟨[8, 0, 0, 0, 3, 0, 0, 0, 0xC3, 0xA9, 0x41, 1], 10,
        [⟨.STRUCT, true, 12, [1], 1, 1⟩]⟩ =
      some (marshal_label_id_INVALID, true,
        ⟨[8, 0, 0, 0, 3, 0, 0, 0, 0xC3, 0xA9, 0x41, 1], 10,
          [⟨.STRUCT, true, 12, [1], 1, 1⟩]⟩) := by decide
  simp only [e3]
  rw [if_neg (fun h => h rfl)]
  have e4 : marshal_dec_bin.decode_struct_end
      ⟨[8, 0, 0, 0, 3, 0, 0, 0, 0xC3, 0xA9, 0x41, 1], 10,
        [⟨.STRUCT, true, 12, [1], 1, 1⟩]⟩ =
      some ⟨[8, 0, 0, 0, 3, 0, 0, 0, 0xC3, 0xA9, 0x41, 1], 12, []⟩ := by
    decide
  simp only [e4]

/-- C2 (amended): extensible forward compatibility holds with provisos:
the reader schema's fields must be well-formed (`goodFields`, in
particular `u32` strings restricted to single-byte code points), the
extended payload must fit the `u32` size indicator, and the appended
fields must occupy at least one byte.  Then decoding the extended wire
under the original schema succeeds and returns the projection: the
field-begin probe after the declared fields reports the invalid-label
sentinel and `decode_struct_end` skips the appended fields' bytes. -/
theorem C2_extensible_forward_compat (fs gs : MFields)
    (pre post : List Nat) (stk : List dec_stack_element)
    (hgf : goodFields fs = true)
    (hstk : marshal_dec_bin.stack_allows_begin stk = true)
    (hL : (encFieldsBytes (MFields.append fs gs)).length < 2 ^ 32)
    (hgs : 0 < (encFieldsBytes gs).length) :
    decLike (.vstruct true fs)
      ⟨pre ++ encBytes (.vstruct true (MFields.append fs gs)) ++ post,
        pre.length, stk⟩ =
      some (.vstruct true fs,
        ⟨pre ++ encBytes (.vstruct true (MFields.append fs gs)) ++ post,
          pre.length +
            (encBytes (.vstruct true (MFields.append fs gs))).length,
          stk⟩) := by
  rw [encFieldsBytes_append fs gs] at hL
  rw [decLike]
  rw [show encBytes (MValue.vstruct true (MFields.append fs gs)) =
    natLE 4 (encFieldsBytes fs ++ encFieldsBytes gs).length ++
      (encFieldsBytes fs ++ encFieldsBytes gs) from by
    simp [encBytes, encFieldsBytes_append]]
  rw [show pre ++ (natLE 4 (encFieldsBytes fs ++ encFieldsBytes gs).length ++
      (encFieldsBytes fs ++ encFieldsBytes gs)) ++ post =
    pre ++ natLE 4 (encFieldsBytes fs ++ encFieldsBytes gs).length ++
      (encFieldsBytes fs ++ (encFieldsBytes gs ++ post)) from by simp]
  rw [struct_begin_ext_at pre
    (encFieldsBytes fs ++ (encFieldsBytes gs ++ post))
    (MFields.fieldInfos fs) (MFields.numFields fs)
    (encFieldsBytes fs ++ encFieldsBytes gs).length stk hstk hL]
  rw [show pre.length + 4 =
    (pre ++ natLE 4 (encFieldsBytes fs ++ encFieldsBytes gs).length).length
    from by simp [natLE_length]]
  rw [show pre ++ natLE 4 (encFieldsBytes fs ++ encFieldsBytes gs).length ++
      (encFieldsBytes fs ++ (encFieldsBytes gs ++ post)) =
    (pre ++ natLE 4 (encFieldsBytes fs ++ encFieldsBytes gs).length) ++
      encFieldsBytes fs ++ (encFieldsBytes gs ++ post) from by simp]
  have hfields := decFields_enc fs
    (pre ++ natLE 4 (encFieldsBytes fs ++ encFieldsBytes gs).length)
    (encFieldsBytes gs ++ post) [] []
    ⟨.STRUCT, true,
      (pre ++ natLE 4 (encFieldsBytes fs ++
        encFieldsBytes gs).length).length +
        (encFieldsBytes fs ++ encFieldsBytes gs).length,
      MFields.fieldInfos fs, MFields.numFields fs, 0⟩ stk hgf rfl
    (by simp) rfl
    (by show 0 + MFields.numFields fs ≤ MFields.numFields fs; omega)
    (by
      intro _h
      apply fieldsFitAt_of_room
      show (pre ++ natLE 4 (encFieldsBytes fs ++
          encFieldsBytes gs).length).length +
          (encFieldsBytes fs).length <
        (pre ++ natLE 4 (encFieldsBytes fs ++
          encFieldsBytes gs).length).length +
          (encFieldsBytes fs ++ encFieldsBytes gs).length
      simp only [List.length_append]
      omega)
  simp only [hfields]
  simp only [Nat.zero_add]
  have hsent := field_begin_sentinel
    ((pre ++ natLE 4 (encFieldsBytes fs ++ encFieldsBytes gs).length) ++
      encFieldsBytes fs ++ (encFieldsBytes gs ++ post))
    ((pre ++ natLE 4 (encFieldsBytes fs ++
      encFieldsBytes gs).length).length + (encFieldsBytes fs).length)
    ⟨.STRUCT, true,
      (pre ++ natLE 4 (encFieldsBytes fs ++
        encFieldsBytes gs).length).length +
        (encFieldsBytes fs ++ encFieldsBytes gs).length,
      MFields.fieldInfos fs, MFields.numFields fs, MFields.numFields fs⟩
    stk rfl (le_refl _)
  simp only [hsent]
  rw [if_neg (fun h => h rfl)]
  have hend := struct_end_skip
    ((pre ++ natLE 4 (encFieldsBytes fs ++ encFieldsBytes gs).length) ++
      encFieldsBytes fs ++ (encFieldsBytes gs ++ post))
    ((pre ++ natLE 4 (encFieldsBytes fs ++
      encFieldsBytes gs).length).length + (encFieldsBytes fs).length)
    ⟨.STRUCT, true,
      (pre ++ natLE 4 (encFieldsBytes fs ++
        encFieldsBytes gs).length).length +
        (encFieldsBytes fs ++ encFieldsBytes gs).length,
      MFields.fieldInfos fs, MFields.numFields fs, MFields.numFields fs⟩
    stk rfl rfl
    (by
      show (pre ++ natLE 4 (encFieldsBytes fs ++
          encFieldsBytes gs).length).length + (encFieldsBytes fs).length <
        (pre ++ natLE 4 (encFieldsBytes fs ++
          encFieldsBytes gs).length).length +
          (encFieldsBytes fs ++ encFieldsBytes gs).length
      simp only [List.length_append]
      omega)
    (by
      show (pre ++ natLE 4 (encFieldsBytes fs ++
          encFieldsBytes gs).length).length +
          (encFieldsBytes fs ++ encFieldsBytes gs).length ≤
        ((pre ++ natLE 4 (encFieldsBytes fs ++
          encFieldsBytes gs).length) ++ encFieldsBytes fs ++
          (encFieldsBytes gs ++ post)).length
      simp only [List.length_append]
      omega)
  simp only [hend]
  simp [natLE_length]
  omega

/-- C2 (witness): the forward-compatibility statement at a reader schema
with one mandatory `bool` field and a writer that appended one mandatory
`u8` field. -/
theorem C2_extensible_forward_compat_witness :
    decLike (.vstruct true (.cons 1 (.mandatory (.vbool true)) .nil))
      ⟨[] ++ encBytes (.vstruct true
        (MFields.append (.cons 1 (.mandatory (.vbool true)) .nil)
          (.cons 2 (.mandatory (.vu8 7)) .nil))) ++ [],
        ([] : List Nat).length, []⟩ =
      some (.vstruct true (.cons 1 (.mandatory (.vbool true)) .nil),
        ⟨[] ++ encBytes (.vstruct true
          (MFields.append (.cons 1 (.mandatory (.vbool true)) .nil)
            (.cons 2 (.mandatory (.vu8 7)) .nil))) ++ [],
          ([] : List Nat).length +
            (encBytes (.vstruct true
              (MFields.append (.cons 1 (.mandatory (.vbool true)) .nil)
                (.cons 2 (.mandatory (.vu8 7)) .nil)))).length, []⟩) :=
  C2_extensible_forward_compat (.cons 1 (.mandatory (.vbool true)) .nil)
    (.cons 2 (.mandatory (.vu8 7)) .nil) [] [] []
    (by simp [goodFields, goodField, goodVal]) rfl (by decide) (by decide)

/-- C4 (counterexample): encoding an optional-present field whose value
is the `u32` string `[0xE9, 0x41]` emits presence byte 1 followed by the
value's payload, but decoding it back yields the different value
`[0xE9]` — the claim's "present-flag true and value x" fails for values
with multi-byte code points. -/
theorem C4_optional_present_counterexample :
    encFieldBytes (.optPresent (.vu32str [0xE9, 0x41])) =
      [1, 3, 0, 0, 0, 0xC3, 0xA9, 0x41] ∧
    decField (.optPresent (.vu32str [0xE9, 0x41])) true
      ⟨[1, 3, 0, 0, 0, 0xC3, 0xA9, 0x41], 1, []⟩ =
      some (.optPresent (.vu32str [0xE9]),
        ⟨[1, 3, 0, 0, 0, 0xC3, 0xA9, 0x41], 7, []⟩) ∧
    (MFieldContent.optPresent (.vu32str [0xE9]) : MFieldContent) ≠
      .optPresent (.vu32str [0xE9, 0x41]) := by
  refine ⟨rfl, ?_, by decide⟩
  have h := decode_u32string_bug_at [1] [] []
  norm_num at h
  rw [decField]
  rw [if_pos (rfl : (true : Bool) = true)]
  rw [decLike]
  rw [h]
  rfl

/-- C4 (amended): the optional-field distinction as encoded and decoded
by the binary codec: an optional-missing field is exactly the presence
byte `0x00` (so the scenario struct with mandatory `u32` 7 and
optional-missing `nick` is exactly `07 00 00 00 00`, and decodes back
with the missing field reported absent), and an optional-present field is
presence byte `0x01` followed by the value's payload and decodes back to
present with the same value — the latter provided the value is
well-formed (`goodVal`, in particular `u32` strings restricted to
single-byte code points). -/
theorem C4_optional_field_distinction (l1 l2 : Nat) (x : MValue)
    (pre post : List Nat) (stk : List dec_stack_element)
    (h1 : 0 < l1) (h1w : l1 < 2 ^ 32) (h2 : 0 < l2) (h2w : l2 < 2 ^ 32)
    (hx : goodVal x = true)
    (hstk : marshal_dec_bin.stack_allows_begin stk = true) :
    encBytes (.vstruct false (.cons l1 (.mandatory (.vu32 7))
      (.cons l2 .optMissing .nil))) = [7, 0, 0, 0, 0] ∧
    encFieldBytes .optMissing = [0] ∧
    encFieldBytes (.optPresent x) = 1 :: encBytes x ∧
    decLike (.vstruct false (.cons l1 (.mandatory (.vu32 7))
        (.cons l2 .optMissing .nil)))
      ⟨pre ++ [7, 0, 0, 0, 0] ++ post, pre.length, stk⟩ =
      some (.vstruct false (.cons l1 (.mandatory (.vu32 7))
        (.cons l2 .optMissing .nil)),
        ⟨pre ++ [7, 0, 0, 0, 0] ++ post, pre.length + 5, stk⟩) ∧
    decLike (.vstruct false (.cons l2 (.optPresent x) .nil))
      ⟨pre ++ encBytes (.vstruct false (.cons l2 (.optPresent x) .nil)) ++
        post, pre.length, stk⟩ =
      some (.vstruct false (.cons l2 (.optPresent x) .nil),
        ⟨pre ++ encBytes (.vstruct false (.cons l2 (.optPresent x) .nil)) ++
          post, pre.length +
          (encBytes (.vstruct false
            (.cons l2 (.optPresent x) .nil))).length, stk⟩) := by
  have henc : encBytes (.vstruct false (.cons l1 (.mandatory (.vu32 7))
      (.cons l2 .optMissing .nil))) = [7, 0, 0, 0, 0] := rfl
  refine ⟨henc, rfl, rfl, ?_, ?_⟩
  · have h := decLike_enc (.vstruct false (.cons l1 (.mandatory (.vu32 7))
      (.cons l2 .optMissing .nil))) pre post stk
      (by simp [goodVal, goodFields, goodField, h1, h2]; omega) hstk
    rw [henc] at h
    simpa using h
  · exact decLike_enc (.vstruct false (.cons l2 (.optPresent x) .nil))
      pre post stk
      (by simp [goodVal, goodFields, goodField, h2, hx]; omega) hstk

/-- C4 (witness): the optional-field distinction at labels 1 and 2 with
the present value `true`, on the bare wire. -/
theorem C4_optional_field_distinction_witness :
    encBytes (.vstruct false (.cons 1 (.mandatory (.vu32 7))
      (.cons 2 .optMissing .nil))) = [7, 0, 0, 0, 0] ∧
    encFieldBytes .optMissing = [0] ∧
    encFieldBytes (.optPresent (.vbool true)) =
      1 :: encBytes (.vbool true) ∧
    decLike (.vstruct false (.cons 1 (.mandatory (.vu32 7))
        (.cons 2 .optMissing .nil)))
      ⟨[] ++ [7, 0, 0, 0, 0] ++ [], ([] : List Nat).length, []⟩ =
      some (.vstruct false (.cons 1 (.mandatory (.vu32 7))
        (.cons 2 .optMissing .nil)),
        ⟨[] ++ [7, 0, 0, 0, 0] ++ [], ([] : List Nat).length + 5, []⟩) ∧
    decLike (.vstruct false (.cons 2 (.optPresent (.vbool true)) .nil))
      ⟨[] ++ encBytes (.vstruct false
        (.cons 2 (.optPresent (.vbool true)) .nil)) ++ [],
        ([] : List Nat).length, []⟩ =
      some (.vstruct false (.cons 2 (.optPresent (.vbool true)) .nil),
        ⟨[] ++ encBytes (.vstruct false
          (.cons 2 (.optPresent (.vbool true)) .nil)) ++ [],
          ([] : List Nat).length +
            (encBytes (.vstruct false
              (.cons 2 (.optPresent (.vbool true)) .nil))).length, []⟩) :=
  C4_optional_field_distinction 1 2 (.vbool true) [] [] []
    (by norm_num) (by norm_num) (by norm_num) (by norm_num) rfl rfl

/-- C7: JSON decoder null handling for struct fields.  With the next
tokens being the field name, the colon and the `null` keyword: when the
caller's field-info list declares the field optional (a non-null
`optional_present` pointer), `decode_struct_field_begin` consumes the
null and reports the field optional-missing (present flag `false`);
when the field is declared mandatory, `decode_struct_field_begin` leaves
the null in the stream and every value decode on it
(`decode_bool`/`decode_u32`/`decode_string_utf8`) raises a decode
error. -/
theorem C7_json_null_field_handling (toks : List jtoken) (tpos : Nat)
    (name : List Nat) (mnum : multinum) (ct cur0 : jtoken)
    (rest : List jdec_stack_element)
    (hname : name ≠ [])
    (h0 : toks[tpos]? = some { ret := .C_STRING, str := name, num := mnum })
    (hct : toks[tpos + 1]? = some ct) (hctr : ct.ret = .C_COLON)
    (hnull : toks[tpos + 1 + 1]? = some nullToken) :
    marshal_dec_json.decode_struct_field_begin true
      ⟨toks, tpos, cur0, false,
        (⟨.STRUCT, 0⟩ : jdec_stack_element) :: rest, false⟩ =
      some (marshal_label_hash (utf8Bytes name), false,
        ⟨toks, tpos + 1 + 1 + 1, nullToken, false,
          (⟨.FIELD, 0⟩ : jdec_stack_element) ::
            (⟨.STRUCT, 1⟩ : jdec_stack_element) :: rest, false⟩) ∧
    marshal_dec_json.decode_struct_field_begin false
      ⟨toks, tpos, cur0, false,
        (⟨.STRUCT, 0⟩ : jdec_stack_element) :: rest, false⟩ =
      some (marshal_label_hash (utf8Bytes name), true,
        ⟨toks, tpos + 1 + 1, ct, false,
          (⟨.FIELD, 0⟩ : jdec_stack_element) ::
            (⟨.STRUCT, 1⟩ : jdec_stack_element) :: rest, false⟩) ∧
    marshal_dec_json.decode_bool
      ⟨toks, tpos + 1 + 1, ct, false,
        (⟨.FIELD, 0⟩ : jdec_stack_element) ::
          (⟨.STRUCT, 1⟩ : jdec_stack_element) :: rest, false⟩ = none ∧
    marshal_dec_json.decode_u32
      ⟨toks, tpos + 1 + 1, ct, false,
        (⟨.FIELD, 0⟩ : jdec_stack_element) ::
          (⟨.STRUCT, 1⟩ : jdec_stack_element) :: rest, false⟩ = none ∧
    marshal_dec_json.decode_string_utf8
      ⟨toks, tpos + 1 + 1, ct, false,
        (⟨.FIELD, 0⟩ : jdec_stack_element) ::
          (⟨.STRUCT, 1⟩ : jdec_stack_element) :: rest, false⟩ = none := by
  refine ⟨?_, ?_, ?_, ?_, ?_⟩ <;>
    simp [marshal_dec_json.decode_struct_field_begin,
      marshal_dec_json.fetch_token, marshal_dec_json.resubmit_prev_token,
      marshal_dec_json.decode_bool, marshal_dec_json.decode_u32,
      marshal_dec_json.decode_string_utf8, h0, hct, hctr, hnull, hname,
      nullToken, multinum.get_integral]

/-- C7 (witness): the null handling at the concrete token stream
`"n" : null` inside a freshly opened struct. -/
theorem C7_json_null_field_handling_witness :
    marshal_dec_json.decode_struct_field_begin true
      ⟨[{ ret := .C_STRING, str := [110], num := {} },
        { ret := .C_COLON, str := [], num := {} }, nullToken], 0, {},
        false, (⟨.STRUCT, 0⟩ : jdec_stack_element) :: [], false⟩ =
      some (marshal_label_hash (utf8Bytes [110]), false,
        ⟨[{ ret := .C_STRING, str := [110], num := {} },
          { ret := .C_COLON, str := [], num := {} }, nullToken],
          0 + 1 + 1 + 1, nullToken, false,
          (⟨.FIELD, 0⟩ : jdec_stack_element) ::
            (⟨.STRUCT, 1⟩ : jdec_stack_element) :: [], false⟩) ∧
    marshal_dec_json.decode_struct_field_begin false
      ⟨[{ ret := .C_STRING, str := [110], num := {} },
        { ret := .C_COLON, str := [], num := {} }, nullToken], 0, {},
        false, (⟨.STRUCT, 0⟩ : jdec_stack_element) :: [], false⟩ =
      some (marshal_label_hash (utf8Bytes [110]), true,
        ⟨[{ ret := .C_STRING, str := [110], num := {} },
          { ret := .C_COLON, str := [], num := {} }, nullToken], 0 + 1 + 1,
          { ret := .C_COLON, str := [], num := {} }, false,
          (⟨.FIELD, 0⟩ : jdec_stack_element) ::
            (⟨.STRUCT, 1⟩ : jdec_stack_element) :: [], false⟩) ∧
    marshal_dec_json.decode_bool
      ⟨[{ ret := .C_STRING, str := [110], num := {} },
        { ret := .C_COLON, str := [], num := {} }, nullToken], 0 + 1 + 1,
        { ret := .C_COLON, str := [], num := {} }, false,
        (⟨.FIELD, 0⟩ : jdec_stack_element) ::
          (⟨.STRUCT, 1⟩ : jdec_stack_element) :: [], false⟩ = none ∧
    marshal_dec_json.decode_u32
      ⟨[{ ret := .C_STRING, str := [110], num := {} },
        { ret := .C_COLON, str := [], num := {} }, nullToken], 0 + 1 + 1,
        { ret := .C_COLON, str := [], num := {} }, false,
        (⟨.FIELD, 0⟩ : jdec_stack_element) ::
          (⟨.STRUCT, 1⟩ : jdec_stack_element) :: [], false⟩ = none ∧
    marshal_dec_json.decode_string_utf8
      ⟨[{ ret := .C_STRING, str := [110], num := {} },
        { ret := .C_COLON, str := [], num := {} }, nullToken], 0 + 1 + 1,
        { ret := .C_COLON, str := [], num := {} }, false,
        (⟨.FIELD, 0⟩ : jdec_stack_element) ::
          (⟨.STRUCT, 1⟩ : jdec_stack_element) :: [], false⟩ = none :=
  C7_json_null_field_handling
    [{ ret := .C_STRING, str := [110], num := {} },
     { ret := .C_COLON, str := [], num := {} }, nullToken] 0 [110] {}
    { ret := .C_COLON, str := [], num := {} } {} []
    (by decide) rfl rfl rfl rfl

end dastd
